import Mathlib

/-!
# pboted email engine: a shallow embedding of `Email.cpp`, `EmailWorker.cpp`,
`POP3.cpp` and `Queue.h`

Byte strings (`std::vector<uint8_t>`, `std::string`) are lists of naturals,
fixed 32-byte arrays are lists carrying their length, 16-bit fields are
naturals reduced modulo `2^16` wherever the source assigns into them.
Stateful member functions become functions from the object (and the random
generator, where one is consulted) to the updated object.  Copies out of a
vector's buffer are bounds-checked: a copy that leaves the buffer is a
`Fault`.  A character fetched past the terminator of a string is an
unspecified byte, `Env.stray`.
A `std::map` is the list of its entries, threads are recorded by the order
of their creation, and a run is the run of one thread.
-/

namespace pbote

/-- Contents of a `std::vector<uint8_t>` or of a `std::string`. -/
abbrev Bytes := List Nat

/-- A `uint8_t[32]` array. -/
abbrev Tag32 := { b : List Nat // b.length = 32 }

/-- The bytes of a string literal of the source. -/
def S (s : String) : Bytes := s.data.map Char.toNat

/-- Copy of exactly 32 bytes into a `uint8_t[32]`, as `memcpy (dst, src, 32)`
from a source holding at least 32 bytes; a shorter source is padded. -/
def Tag32.ofBytes (b : Bytes) : Tag32 :=
  ⟨(b ++ List.replicate 32 0).take 32, by simp⟩

/-- The array `uint8_t zero_array[32] = {0}`. -/
def zero_array : Tag32 := ⟨List.replicate 32 0, by simp⟩

/-- What a checked execution reports when the source leaves defined behaviour. -/
inductive Fault where
  /-- A read of `len` bytes at `offset` from a buffer of `size` bytes. -/
  | outOfBounds (offset len size : Nat)
  /-- A member call through a null `shared_ptr`. -/
  | nullDeref
deriving DecidableEq, Repr

/-- One header field of the MIME entity. -/
structure Field where
  name : Bytes
  value : Bytes
deriving DecidableEq, Repr

/-- The part of `mimetic::MimeEntity` the engine touches: the header, a
sequence of fields, and the body. -/
structure MimeEntity where
  header : List Field
  body : Bytes
deriving DecidableEq, Repr

/-- The public identity of a correspondent (`BoteIdentityPublic`). -/
structure BoteIdentityPublic where
  /-- Result of `GetKeyType ()`. -/
  keyType : Nat
  /-- Result of `GetCryptoPublicKey ()`. -/
  cryptoPublicKey : Bytes
  /-- Result of `GetIdentHash ()`. -/
  identHash : Tag32

/-- A local identity with its private keys (`BoteIdentityPrivate`); the cipher
is left abstract. -/
structure BoteIdentityPrivate where
  /-- Result of `GetKeyType ()`. -/
  keyType : Nat
  /-- The call `GetPublicIdentity ()->Encrypt (data, len, recipient_key)`. -/
  Encrypt : Bytes → Bytes → Bytes
  /-- The call `Decrypt (data, len)`. -/
  Decrypt : Bytes → Bytes

/-- The plaintext email packet (`EmailUnencryptedPacket`). -/
structure EmailUnencryptedPacket where
  type : Nat
  ver : Nat
  mes_id : Tag32
  DA : Tag32
  fr_id : Nat
  fr_count : Nat
  length : Nat
  data : Bytes

/-- The encrypted email packet (`EmailEncryptedPacket`). -/
structure EmailEncryptedPacket where
  key : Tag32
  alg : Nat
  stored_time : Nat
  length : Nat
  edata : Bytes
  delete_hash : Tag32

/-- The `Email` object: the member variables `Email.cpp` reads and writes. -/
structure Email where
  incomplete_ : Bool
  empty_ : Bool
  skip_ : Bool
  deleted_ : Bool
  encrypted_ : Bool
  packet : EmailUnencryptedPacket
  encrypted : EmailEncryptedPacket
  mail : MimeEntity
  sender : Option BoteIdentityPrivate
  recipient : Option BoteIdentityPublic
  filename : Bytes

/-- Everything the engine calls but does not define: the hash, the MIME
library, the codecs, the header allow-list of `Email.h`, and the memory that
lies behind a string. -/
structure Env where
  /-- The call `SHA256 (data, len, out)`. -/
  SHA256 : Bytes → Tag32
  /-- The call `Tag<32>::ToBase64 ()`. -/
  ToBase64 : Bytes → Bytes
  /-- The call `mail.load (begin, end)`. -/
  load : Bytes → MimeEntity
  /-- The output of `buffer << mail`. -/
  write : MimeEntity → Bytes
  /-- Membership test `std::find (HEADER_WHITELIST...) != end ()`; the table
  is declared in `Email.h`. -/
  allowed : Bytes → Bool
  /-- The output buffer `lzmaDecompress` leaves for an input. -/
  lzmaDecompress : Bytes → Bytes
  /-- Bytes `GzipInflator::Inflate (in, inLen, out, outLen)` produces for an
  input and an output capacity. -/
  Inflate : Bytes → Nat → Bytes
  /-- Bytes `GzipDeflator::Deflate (in, inLen, out, outLen)` produces for an
  input and an output capacity. -/
  Deflate : Bytes → Nat → Bytes
  /-- The byte found at index `i` of a string buffer when `i` lies past the
  terminating zero. -/
  stray : Nat → Nat

/-! ## Random sources -/

/-- State of a random engine: the raw values it will yield, in order. -/
abbrev Gen := List Nat

/-- One raw draw; an exhausted engine yields zero. -/
def Gen.next : Gen → Nat × Gen
  | [] => (0, [])
  | x :: xs => (x, xs)

/-- The distribution `dis (0, 15)` applied to the engine. -/
def dis (g : Gen) : Nat × Gen := ((Gen.next g).1 % 16, (Gen.next g).2)

/-- The distribution `dis2 (8, 11)` applied to the engine. -/
def dis2 (g : Gen) : Nat × Gen := (8 + (Gen.next g).1 % 4, (Gen.next g).2)

/-- The call `context.random_cid (buf, len)`: `len` random bytes. -/
def random_cid : Nat → Gen → Bytes × Gen
  | 0, g => ([], g)
  | n + 1, g =>
    ((Gen.next g).1 % 256 :: (random_cid n (Gen.next g).2).1,
     (random_cid n (Gen.next g).2).2)

/-! ## Header access -/

/-- Lower-case form of an ASCII letter, other bytes unchanged. -/
def lower (c : Nat) : Nat := if 65 ≤ c ∧ c ≤ 90 then c + 32 else c

/-- Field names are matched without regard to letter case. -/
def sameName (a b : Bytes) : Bool := a.map lower == b.map lower

/-- The value of the first field called `name`, empty when there is none
(`header ().field (name).value ()`). -/
def headerValue : List Field → Bytes → Bytes
  | [], _ => []
  | f :: fs, name => if sameName f.name name then f.value else headerValue fs name

/-- Assignment to the first field called `name`, which is appended when the
header has none (`header ().field (name).value (v)`). -/
def headerSet : List Field → Bytes → Bytes → List Field
  | [], name, v => [{ name := name, value := v }]
  | f :: fs, name, v =>
    if sameName f.name name then { f with value := v } :: fs
    else f :: headerSet fs name v

/-- Modelled from the spec: the accessor `Email::field` of `Email.h`, which is
not among the sources; it is the getter of a MIME header by name. -/
def field (e : Email) (name : Bytes) : Bytes := headerValue e.mail.header name

/-- Modelled from the spec: the mutator `Email::setField` of `Email.h`, which
is not among the sources; it stamps a MIME header by name. -/
def setField (e : Email) (name v : Bytes) : Email :=
  { e with mail := { e.mail with header := headerSet e.mail.header name v } }

/-- Modelled from the spec: `EmailUnencryptedPacket::toByte` of `Packet.h`,
which is not among the sources; the fixed header then the payload, every
multibyte integer big-endian. -/
def EmailUnencryptedPacket.toByte (p : EmailUnencryptedPacket) : Bytes :=
  [p.type % 256, p.ver % 256] ++ p.mes_id.val ++ p.DA.val
    ++ [p.fr_id / 256 % 256, p.fr_id % 256]
    ++ [p.fr_count / 256 % 256, p.fr_count % 256]
    ++ [p.length / 256 % 256, p.length % 256]
    ++ p.data

/-! ## `Email::verify` and `Email::encrypt` -/

/-- Member function `Email::verify`: hash the 32 bytes of `DA` and compare the 32 bytes with
the expected hash; the object is returned as the call leaves it. -/
def verify (E : Env) (e : Email) (hash : Tag32) : Bool × Email :=
  let da_h := E.SHA256 e.packet.DA.val
  (decide (hash.val = da_h.val), e)

/-- Member function `Email::encrypt`. -/
def encrypt (E : Env) (e : Email) : Except Fault Email :=
  if e.skip_ then .ok e
  else if e.encrypted_ then .ok e
  else
    let del_hash := E.SHA256 e.packet.DA.val
    let e1 := { e with encrypted := { e.encrypted with delete_hash := del_hash } }
    let e2 := setField e1 (S "X-I2PBote-Delete-Auth-Hash") (E.ToBase64 del_hash.val)
    let packet_bytes := e2.packet.toByte
    match e2.sender with
    | none => .ok { e2 with skip_ := true }
    | some sender =>
      match e2.recipient with
      | none => .error Fault.nullDeref
      | some recipient =>
        let edata := sender.Encrypt packet_bytes recipient.cryptoPublicKey
        let e3 := { e2 with encrypted := { e2.encrypted with edata := edata } }
        if edata.isEmpty then .ok { e3 with skip_ := true }
        else
          let e4 := { e3 with encrypted :=
            { e3.encrypted with
              length := edata.length % 65536
              alg := sender.keyType % 256
              stored_time := 0 } }
          let data_for_hash : Bytes :=
            [e4.encrypted.length / 256 % 256, e4.encrypted.length % 256]
              ++ e4.encrypted.edata
          let dht_key := E.SHA256 data_for_hash
          let e5 := { e4 with encrypted := { e4.encrypted with key := dht_key } }
          let e6 := setField e5 (S "X-I2PBote-DHT-Key") (E.ToBase64 dht_key.val)
          .ok { e6 with encrypted_ := true }

/-- The two bytes of a 16-bit value, most significant first. -/
def be16 (n : Nat) : Bytes := [n / 256 % 256, n % 256]

/-! ## Message-ID and `Email::compose` -/

/-- The character a stream in `std::hex` mode prints for a value below 16. -/
def hexDigit (n : Nat) : Nat := if n < 10 then 48 + n else 87 + n

/-- The loop `for (i = 0; i < n; i++) ss << dis (gen);`. -/
def hexRun : Nat → Gen → Bytes × Gen
  | 0, g => ([], g)
  | n + 1, g =>
    (hexDigit (dis g).1 :: (hexRun n (dis g).2).1, (hexRun n (dis g).2).2)

/-- Member function `Email::generate_uuid_v4`. -/
def generate_uuid_v4 (g : Gen) : Bytes × Gen :=
  let a := hexRun 8 g
  let b := hexRun 4 a.2
  let c := hexRun 3 b.2
  let v := dis2 c.2
  let d := hexRun 3 v.2
  let e := hexRun 12 d.2
  (a.1 ++ S "-" ++ b.1 ++ S "-4" ++ c.1 ++ S "-" ++ [hexDigit v.1] ++ d.1
    ++ S "-" ++ e.1, e.2)

/-- Member function `Email::set_message_id`. -/
def set_message_id (e : Email) (g : Gen) : Email × Gen :=
  let message_id := field e (S "Message-ID")
  if !message_id.isEmpty then (e, g)
  else
    let u := generate_uuid_v4 g
    (setField e (S "Message-ID") (u.1 ++ S "@bote.i2p"), u.2)

/-- The expression `s.c_str ()[i]`: the character inside the string, the
terminating zero at its end, and whatever memory holds beyond it. -/
def c_str (E : Env) (s : Bytes) (i : Nat) : Nat :=
  if i < s.length then s.getD i 0
  else if i = s.length then 0
  else E.stray i

/-- Member function `Email::get_message_id`; the character at index 14 is compared with the
number 4. -/
def get_message_id (E : Env) (e : Email) (g : Gen) : Bytes × Email × Gen :=
  let message_id := field e (S "Message-ID")
  if message_id.isEmpty || (message_id.length == 36 && c_str E message_id 14 != 4) then
    let r := set_message_id e g
    (field r.1 (S "Message-ID"), r.1, r.2)
  else (message_id, e, g)

/-- The table `dash[]` of `set_message_id_bytes`. -/
def dash : List Bool :=
  [false, false, false, false, false, false, false, false, true,
   false, false, false, false, true, false, false, false, false, true,
   false, false, false, false, true, false, false, false, false, false,
   false, false, false, false, false, false, false]

/-- The loop of `set_message_id_bytes`: the characters at the 36 positions
that are not dashes. -/
def mesIdChars (E : Env) (message_id : Bytes) : Bytes :=
  (List.range 36).filterMap fun i =>
    if dash.getD i false then none else some (c_str E message_id i)

/-- Member function `Email::set_message_id_bytes`. -/
def set_message_id_bytes (E : Env) (e : Email) (g : Gen) : Email × Gen :=
  let r := get_message_id E e g
  let res := mesIdChars E r.1
  ({ r.2.1 with packet := { r.2.1.packet with mes_id := Tag32.ofBytes res } }, r.2.2)

/-- Member function `Email::bytes`: serialise the MIME entity into `packet.data`; the size is
stored in the 16-bit `packet.length`. -/
def bytes (E : Env) (e : Email) : Bytes × Email :=
  let result := E.write e.mail
  (result, { e with packet :=
    { e.packet with data := result, length := result.length % 65536 } })

/-- Member function `Email::compose`; the Message-ID is fetched once more for the log line. -/
def compose (E : Env) (e : Email) (g : Gen) : Email × Gen :=
  let r1 := set_message_id e g
  let r2 := set_message_id_bytes E r1.1 r1.2
  let e3 := (bytes E r2.1).2
  let r3 := (get_message_id E e3 r2.2).2
  let r4 : Email × Gen :=
    if r3.1.packet.DA = zero_array then
      let c := random_cid 32 r3.2
      ({ r3.1 with packet := { r3.1.packet with DA := Tag32.ofBytes c.1 } }, c.2)
    else r3
  let size := r4.1.packet.data.length
  ({ r4.1 with
      packet := { r4.1.packet with fr_id := 0, fr_count := 1, length := size % 65536 }
      empty_ := false
      incomplete_ := false }, r4.2)

/-! ## Compression -/

/-- Modelled from the spec: the enumeration `CompressionAlgorithm` of
`Email.h`, which is not among the sources; the tag byte `0 = uncompressed`. -/
def UNCOMPRESSED : Nat := 0

/-- Modelled from the spec: the enumeration `CompressionAlgorithm` of
`Email.h`, which is not among the sources; the tag byte `1 = LZMA`. -/
def LZMA : Nat := 1

/-- Modelled from the spec: the enumeration `CompressionAlgorithm` of
`Email.h`, which is not among the sources; the tag byte `2 = ZLIB`. -/
def ZLIB : Nat := 2

/-- A library routine handed `outBuf.data ()` and `outBuf.size ()` overwrites
at most `outBuf.size ()` bytes of the vector and cannot resize it. -/
def writeInto (outBuf produced : Bytes) : Bytes :=
  produced.take outBuf.length ++ outBuf.drop (produced.take outBuf.length).length

/-- Member function `Email::zlibCompress`: the inflator is given the output vector as it
stands. -/
def zlibCompress (E : Env) (outBuf inBuf : Bytes) : Bytes :=
  writeInto outBuf (E.Inflate inBuf outBuf.length)

/-- Member function `Email::zlibDecompress`: the deflator is given the output vector as it
stands. -/
def zlibDecompress (E : Env) (outBuf inBuf : Bytes) : Bytes :=
  writeInto outBuf (E.Deflate inBuf outBuf.length)

/-- Member function `Email::compress`. -/
def compress (E : Env) (e : Email) (type : Nat) : Bool × Email :=
  let type := if type = LZMA then UNCOMPRESSED else type
  if type = ZLIB then
    let output := zlibCompress E [] e.packet.data
    (true, { e with packet :=
      { e.packet with data := (e.packet.data ++ [ZLIB]) ++ output } })
  else if type = UNCOMPRESSED then
    (true, { e with packet := { e.packet with data := UNCOMPRESSED :: e.packet.data } })
  else (false, e)

/-- Member function `Email::decompress`; the tag is read from the first byte of the buffer. -/
def decompress (E : Env) (e : Email) (v_mail : Bytes) : Except Fault Email :=
  match v_mail with
  | [] => .error (Fault.outOfBounds 0 1 0)
  | compress_alg :: rest =>
    if compress_alg = LZMA then
      .ok { e with packet := { e.packet with data := E.lzmaDecompress rest } }
    else if compress_alg = ZLIB then
      .ok { e with packet := { e.packet with data := zlibDecompress E [] rest } }
    else if compress_alg = UNCOMPRESSED then
      .ok { e with packet := { e.packet with data := rest } }
    else
      .ok { e with packet := { e.packet with data := rest } }

/-! ## Loading -/

/-- The loop of `fromMIME` over the header entities: an entity whose name is
not on the allow-list has `header ().field (name).value ("")` applied. -/
def blankForbidden (E : Env) : List Bytes → List Field → List Field
  | [], h => h
  | name :: names, h =>
    if E.allowed name then blankForbidden E names h
    else blankForbidden E names (headerSet h name [])

/-- Member function `Email::fromMIME`. -/
def fromMIME (E : Env) (e : Email) (email_data : Bytes) (g : Gen) : Email × Gen :=
  let mail := E.load email_data
  let mail1 : MimeEntity :=
    { mail with header := blankForbidden E (mail.header.map Field.name) mail.header }
  compose E
    { e with mail := mail1, empty_ := false,
             packet := { e.packet with data := email_data } } g

/-- The constructor `Email::Email ()`; members it leaves unset are zero. -/
def Email.new : Email :=
  { incomplete_ := false, empty_ := true, skip_ := false, deleted_ := false,
    encrypted_ := false,
    packet := { type := 0, ver := 0, mes_id := zero_array, DA := zero_array,
                fr_id := 0, fr_count := 0, length := 0, data := [] },
    encrypted := { key := zero_array, alg := 0, stored_time := 0, length := 0,
                   edata := [], delete_hash := zero_array },
    mail := { header := [], body := [] },
    sender := none, recipient := none, filename := [] }

/-- The call `memcpy (dst, data.data () + offset, len)` under bounds checking. -/
def memcpy (data : Bytes) (offset len : Nat) : Except Fault Bytes :=
  if offset + len ≤ data.length then .ok ((data.drop offset).take len)
  else .error (Fault.outOfBounds offset len data.length)

/-- A 16-bit field copied from two bytes: converted by `ntohs` when the
packet comes from the network, otherwise in the order of a little-endian
host. -/
def u16 (b : Bytes) (from_net : Bool) : Nat :=
  if from_net then b.getD 0 0 * 256 + b.getD 1 0 else b.getD 0 0 + b.getD 1 0 * 256

/-- The constructor `Email::Email (data, from_net)`. -/
def Email.ofPacket (E : Env) (data : Bytes) (from_net : Bool) (g : Gen) :
    Except Fault (Email × Gen) := do
  let type ← memcpy data 0 1
  let ver ← memcpy data 1 1
  let mes_id ← memcpy data 2 32
  let DA ← memcpy data 34 32
  let fr_id ← memcpy data 66 2
  let fr_count ← memcpy data 68 2
  let length ← memcpy data 70 2
  let packet : EmailUnencryptedPacket :=
    { type := type.getD 0 0, ver := ver.getD 0 0,
      mes_id := Tag32.ofBytes mes_id, DA := Tag32.ofBytes DA,
      fr_id := u16 fr_id from_net, fr_count := u16 fr_count from_net,
      length := u16 length from_net, data := data.drop 72 }
  let e0 : Email :=
    { Email.new with
      packet := packet
      incomplete_ := decide (packet.fr_id + 1 ≠ packet.fr_count)
      empty_ := decide (packet.length = 0) }
  let e1 ← decompress E e0 e0.packet.data
  pure (fromMIME E e1 e1.packet.data g)

/-- Modelled from the spec: the setter `Email::setEncrypted` of `Email.h`,
which is not among the sources; it records the encrypted packet the email
was obtained from as its cryptographic envelope. -/
def setEncrypted (e : Email) (data : EmailEncryptedPacket) : Email :=
  { e with encrypted := data }

/-- The loop of `EmailWorker::processEmail` over the remaining packets, with
the emails collected so far. -/
def processEmailLoop (E : Env) (identity : BoteIdentityPrivate) :
    List EmailEncryptedPacket → List Email → Gen → Except Fault (List Email × Gen)
  | [], emails, g => .ok (emails, g)
  | enc_mail :: rest, emails, g =>
    if enc_mail.edata.isEmpty then processEmailLoop E identity rest emails g
    else
      let unencrypted_email_data := identity.Decrypt enc_mail.edata
      if unencrypted_email_data.isEmpty then processEmailLoop E identity rest emails g
      else
        match Email.ofPacket E unencrypted_email_data true g with
        | .error f => .error f
        | .ok (temp_mail, g1) =>
          if !(verify E temp_mail enc_mail.delete_hash).1 then
            processEmailLoop E identity rest emails g1
          else
            let temp_mail := setEncrypted (verify E temp_mail enc_mail.delete_hash).2 enc_mail
            if !temp_mail.empty_ then
              processEmailLoop E identity rest (emails ++ [temp_mail]) g1
            else processEmailLoop E identity rest emails g1

/-- Member function `EmailWorker::processEmail`. -/
def processEmail (E : Env) (identity : BoteIdentityPrivate)
    (mail_packets : List EmailEncryptedPacket) (g : Gen) :
    Except Fault (List Email × Gen) :=
  processEmailLoop E identity mail_packets [] g

/-! ## A concrete environment

The definitions above hold for every hash, cipher, MIME library and codec.
To run them a small concrete environment is fixed here: MIME text with one
field per line, a toy hash, and the allow-list named by the specification.
-/

/-- Lines of a text, split at line feeds. -/
def splitLines : Bytes → List Bytes
  | [] => [[]]
  | c :: rest =>
    if c = 10 then [] :: splitLines rest
    else
      match splitLines rest with
      | [] => [[c]]
      | l :: ls => (c :: l) :: ls

/-- A line without its trailing carriage return. -/
def stripCR (l : Bytes) : Bytes :=
  if l.getLast? = some 13 then l.dropLast else l

/-- The field held by a header line `name: value`. -/
def parseField (l : Bytes) : Field :=
  { name := l.takeWhile (fun c => c != 58),
    value := ((l.dropWhile (fun c => c != 58)).drop 1).dropWhile (fun c => c == 32) }

/-- Header lines up to the first blank line, then the body lines. -/
def parseLines : List Bytes → List Field × List Bytes
  | [] => ([], [])
  | l :: ls =>
    if l.isEmpty then ([], ls)
    else (parseField l :: (parseLines ls).1, (parseLines ls).2)

/-- A line-oriented MIME reader. -/
def plainLoad (data : Bytes) : MimeEntity :=
  let r := parseLines ((splitLines data).map stripCR)
  { header := r.1, body := List.intercalate [10] r.2 }

/-- A line-oriented MIME writer. -/
def plainWrite (m : MimeEntity) : Bytes :=
  (m.header.map fun f => f.name ++ S ": " ++ f.value ++ S "\r\n").flatten
    ++ S "\r\n" ++ m.body

/-- Modelled from the spec: the table `HEADER_WHITELIST` of `Email.h`, which
is not among the sources; the header names the specification puts on the
allow-list. -/
def HEADER_WHITELIST : List Bytes :=
  [S "From", S "To", S "Subject", S "Date", S "Message-ID", S "References",
   S "In-Reply-To", S "MIME-Version", S "Content-Type",
   S "Content-Transfer-Encoding"]

/-- Modelled from the spec: the allow-list test, a listed name or a name of
the family `X-I2PBote-*`. -/
def specAllowed (name : Bytes) : Bool :=
  HEADER_WHITELIST.any (fun w => sameName w name)
    || (S "x-i2pbote-").isPrefixOf (name.map lower)

/-- A stand-in for the hash: thirty-two bytes computed from the input. -/
def toyHash (b : Bytes) : Tag32 :=
  Tag32.ofBytes ((b.map fun x => (x + 1) % 256) ++ [b.length % 256])

/-- The concrete environment. -/
def plainEnv : Env :=
  { SHA256 := toyHash, ToBase64 := id, load := plainLoad, write := plainWrite,
    allowed := specAllowed, lzmaDecompress := id,
    Inflate := fun b _ => b, Deflate := fun b _ => b, stray := fun _ => 0 }

/-- A stand-in cipher: a marker byte in front of the plaintext. -/
def toyIdentity : BoteIdentityPrivate :=
  { keyType := 2, Encrypt := fun d _ => 1 :: d, Decrypt := fun d => d.drop 1 }

/-- A correspondent for the stand-in cipher. -/
def toyRecipient : BoteIdentityPublic :=
  { keyType := 2, cryptoPublicKey := [7], identHash := zero_array }

/-- A plaintext packet: header `U`, version 4, a delete authorization of nines,
one fragment, then an uncompressed two-line mail. -/
def toyPlaintext : Bytes :=
  [85, 4] ++ List.replicate 32 48 ++ List.replicate 32 9 ++ [0, 0, 0, 1, 0, 15]
    ++ [0] ++ S "From: a\r\n\r\nhi"

/-- The encrypted packet carrying `toyPlaintext` under the stand-in cipher. -/
def toyPacket : EmailEncryptedPacket :=
  { key := zero_array, alg := 2, stored_time := 0, length := 89,
    edata := 1 :: toyPlaintext,
    delete_hash := toyHash (List.replicate 32 9) }

/-- An email ready for encryption under the stand-in cipher. -/
def toyOutgoing : Email :=
  { Email.new with sender := some toyIdentity, recipient := some toyRecipient }

/-- An email whose Message-ID is a version-1 UUID of 36 characters. -/
def uuidV1Mail : Email :=
  setField Email.new (S "Message-ID") (S "27d92c57-0503-1dd6-9bb3-fa2d0613855f")

/-- An email whose body alone fills 65536 bytes. -/
def bigMail : Email :=
  { Email.new with mail := { header := [], body := List.replicate 65536 65 } }

/-- An email whose delete authorization is already chosen. -/
def stampedMail : Email :=
  { Email.new with packet := { Email.new.packet with DA := Tag32.ofBytes [7] } }

/-- An email holding the given payload in `packet.data`. -/
def withPayload (d : Bytes) : Email :=
  { Email.new with packet := { Email.new.packet with data := d } }

/-! ## Files -/

/-- The file system as the engine sees it: how a path under the data
directory is formed (`pbote::fs::DataDirPath`) and whether a file can be
opened for writing (`file.is_open ()`). -/
structure Fs where
  /-- The call `pbote::fs::DataDirPath (dir, name)`. -/
  DataDirPath : Bytes → Bytes → Bytes
  /-- Whether an output stream on the path opens. -/
  canOpen : Bytes → Bool

/-- The files on disk: paths with their contents. -/
abbrev Disk := List (Bytes × Bytes)

/-- Modelled from the spec: `pbote::fs::Exists` of `FileSystem.h`, which is
not among the sources; whether a mail file is present. -/
def diskExists (disk : Disk) (path : Bytes) : Bool := disk.any fun f => f.1 == path

/-- The content an input stream on the path yields, nothing when the file is
absent. -/
def diskRead : Disk → Bytes → Bytes
  | [], _ => []
  | f :: fs, path => if f.1 == path then f.2 else diskRead fs path

/-- Modelled from the spec: `pbote::fs::Remove` of `FileSystem.h`, which is
not among the sources; removal of a mail file from disk. -/
def diskRemove (disk : Disk) (path : Bytes) : Disk := disk.filter fun f => f.1 != path

/-- A file written anew with the given content. -/
def diskWrite (disk : Disk) (path content : Bytes) : Disk :=
  diskRemove disk path ++ [(path, content)]

/-- The tail of `Email::save`: open the file, serialise the mail, write. -/
def saveTo (E : Env) (F : Fs) (e : Email) (emailPacketPath : Bytes) (disk : Disk)
    (g : Gen) : Bool × Email × Disk × Gen :=
  if !F.canOpen emailPacketPath then (false, e, disk, g)
  else
    let message_bytes := bytes E e
    (true, message_bytes.2, diskWrite disk emailPacketPath message_bytes.1, g)

/-- Member function `Email::save`. -/
def save (E : Env) (F : Fs) (e : Email) (dir : Bytes) (disk : Disk) (g : Gen) :
    Bool × Email × Disk × Gen :=
  if !dir.isEmpty && e.filename.isEmpty then
    let r := get_message_id E e g
    let emailPacketPath := F.DataDirPath dir (r.1 ++ S ".mail")
    if diskExists disk emailPacketPath then (false, r.2.1, disk, r.2.2)
    else saveTo E F r.2.1 emailPacketPath disk r.2.2
  else saveTo E F e e.filename disk g

/-- Member function `Email::move`: copy the file under its DHT key into `dir`
and remove the original. -/
def move (F : Fs) (e : Email) (dir : Bytes) (disk : Disk) : Bool × Email × Disk :=
  if e.skip_ then (false, e, disk)
  else
    let new_path := F.DataDirPath dir (field e (S "X-I2PBote-DHT-Key") ++ S ".mail")
    let content := diskRead disk e.filename
    let disk1 := if F.canOpen new_path then diskWrite disk new_path content else disk
    let old_path := e.filename
    if diskExists disk1 old_path then
      (true, { e with filename := new_path }, diskRemove disk1 old_path)
    else (false, e, disk1)

/-! ## The send round of `EmailWorker::sendEmailTask` -/

/-- The store request handed to the DHT (`StoreRequestPacket`). -/
structure StoreRequestPacket where
  hc_length : Nat
  hashcash : Bytes
  length : Nat
  data : Bytes

/-- One entry of an index packet (`IndexPacket::Entry`). -/
structure IndexPacket.Entry where
  key : Tag32
  dv : Tag32
  time : Nat

/-- The index packet (`IndexPacket`). -/
structure IndexPacket where
  hash : Tag32
  nump : Nat
  data : List IndexPacket.Entry

/-- The four bytes of a 32-bit value, most significant first. -/
def be32 (n : Nat) : Bytes :=
  [n / 16777216 % 256, n / 65536 % 256, n / 256 % 256, n % 256]

/-- Modelled from the spec: `EmailEncryptedPacket::toByte` of `Packet.h`,
which is not among the sources; the layout
`key | alg | stored_time | length | edata | delete_hash`, big-endian. -/
def EmailEncryptedPacket.toByte (p : EmailEncryptedPacket) : Bytes :=
  p.key.val ++ [p.alg % 256] ++ be32 p.stored_time ++ be16 p.length ++ p.edata
    ++ p.delete_hash.val

/-- Modelled from the spec: `IndexPacket::toByte` of `Packet.h`, which is not
among the sources; the layout `hash | nump | entries`, each entry
`key | dv | time`, big-endian. -/
def IndexPacket.toByte (p : IndexPacket) : Bytes :=
  p.hash.val ++ be32 p.nump
    ++ (p.data.map fun entry => entry.key.val ++ entry.dv.val ++ be32 entry.time).flatten

/-- Member function `Email::hashcash`: the fixed stamp. -/
def hashcash : Bytes := S "1:20:1303030600:admin@example.com::McMybZIhxKXu57jd:FOvXX"

/-- What a round does towards the DHT and the file system, in order.  A store
is recorded with the position in the out-box of the email it is issued for. -/
inductive Event where
  /-- The call `DHT_worker.store (key, DataE, packet)`. -/
  | storeEmail (i : Nat) (key : Tag32) (packet : StoreRequestPacket)
  /-- The call `DHT_worker.store (hash, DataI, packet)`. -/
  | storeIndex (i : Nat) (hash : Tag32) (packet : StoreRequestPacket)
  /-- The call `DHT_worker.safe (data)`. -/
  | safe (data : Bytes)
  /-- The call `move ("sent")` on the email at position `i`, named `filename`. -/
  | move (i : Nat) (filename : Bytes)
  /-- The call `DHT_worker.deleteEmail (key, DataE, {key, DA})`. -/
  | deleteEmail (key DA : Tag32)
  /-- The call `DHT_worker.deleteIndexEntry (hash, key, DA)`. -/
  | deleteIndexEntry (hash key DA : Tag32)

/-- The DHT during one round: the nodes that answer OK to the store issued
for the email at a position, for the encrypted packet and for the index
packet.  Each email has at most one store of either kind in a round, so this
covers every behaviour of the DHT. -/
structure Dht where
  storeE : Nat → List Bytes
  storeI : Nat → List Bytes

/-- A range-for over the out-box whose body works on one email. -/
def eachEmail (step : Nat → Email → Except Fault (Email × List Event)) :
    Nat → List Email → Except Fault (List Email × List Event)
  | _, [] => .ok ([], [])
  | i, email :: rest =>
    match step i email with
    | .error f => .error f
    | .ok (email1, ev) =>
      match eachEmail step (i + 1) rest with
      | .error f => .error f
      | .ok (rest1, evs) => .ok (email1 :: rest1, ev ++ evs)

/-- The store request carrying `data` and the hashcash stamp. -/
def storeRequest (data : Bytes) : StoreRequestPacket :=
  { hc_length := hashcash.length % 65536, hashcash := hashcash,
    length := data.length % 65536, data := data }

/-- Body of the first loop of `sendEmailTask`: encrypt and store the
encrypted packet; `nodes` is the answer of the DHT to the store. -/
def storeEmailStep (E : Env) (nodes : List Bytes) (i : Nat) (email : Email) :
    Except Fault (Email × List Event) :=
  if email.skip_ then .ok (email, [])
  else
    match encrypt E email with
    | .error f => .error f
    | .ok email =>
      if email.skip_ then .ok (email, [])
      else
        let encrypted_mail := email.encrypted
        let store_packet := storeRequest encrypted_mail.toByte
        if nodes.isEmpty then
          .ok ({ email with skip_ := true },
               [Event.storeEmail i encrypted_mail.key store_packet])
        else
          .ok (email, [Event.storeEmail i encrypted_mail.key store_packet,
                       Event.safe encrypted_mail.toByte])

/-- The index packet the second loop of `sendEmailTask` builds for an email;
`now` is `context.ts_now ()`. -/
def new_index_packet (recipient : BoteIdentityPublic) (email : Email) (now : Nat) :
    IndexPacket :=
  let entry : IndexPacket.Entry :=
    { key := email.encrypted.key, dv := email.encrypted.delete_hash,
      time := now % 4294967296 }
  { hash := recipient.identHash, nump := [entry].length % 4294967296, data := [entry] }

/-- Body of the second loop of `sendEmailTask`: build and store the index
packet; `nodes` is the answer of the DHT to the store. -/
def storeIndexStep (now : Nat) (nodes : List Bytes) (i : Nat) (email : Email) :
    Except Fault (Email × List Event) :=
  if email.skip_ then .ok (email, [])
  else
    match email.recipient with
    | none => .error Fault.nullDeref
    | some recipient =>
      let index_packet := new_index_packet recipient email now
      let store_index_packet := storeRequest index_packet.toByte
      if nodes.isEmpty then
        .ok ({ email with skip_ := true },
             [Event.storeIndex i recipient.identHash store_index_packet])
      else
        .ok (email, [Event.storeIndex i recipient.identHash store_index_packet,
                     Event.safe index_packet.toByte])

/-- The third loop of `sendEmailTask`: every email not skipped gets its
metadata written, is moved to `sent` and erased from the out-box. -/
def finishLoop (E : Env) (F : Fs) :
    Nat → List Email → Disk → Gen → List Email × Disk × Gen × List Event
  | _, [], disk, g => ([], disk, g, [])
  | i, email :: rest, disk, g =>
    if email.skip_ then
      let r := finishLoop E F (i + 1) rest disk g
      (email :: r.1, r.2.1, r.2.2.1, r.2.2.2)
    else
      let email1 := setField email (S "X-I2PBote-Deleted") (S "false")
      let saved := save E F email1 [] disk g
      let moved := move F saved.2.1 (S "sent") saved.2.2.1
      let r := finishLoop E F (i + 1) rest moved.2.2 saved.2.2.2
      (r.1, r.2.1, r.2.2.1, Event.move i email1.filename :: r.2.2.2)

/-- The three loops of one round of `sendEmailTask` on the out-box. -/
def sendRound (E : Env) (F : Fs) (now : Nat) (dht : Dht) (outbox : List Email)
    (disk : Disk) (g : Gen) : Except Fault (List Email × Disk × Gen × List Event) :=
  match eachEmail (fun i email => storeEmailStep E (dht.storeE i) i email) 0 outbox with
  | .error f => .error f
  | .ok (outbox1, ev1) =>
    match eachEmail (fun i email => storeIndexStep now (dht.storeI i) i email) 0 outbox1 with
    | .error f => .error f
    | .ok (outbox2, ev2) =>
      let r := finishLoop E F 0 outbox2 disk g
      .ok (r.1, r.2.1, r.2.2.1, ev1 ++ ev2 ++ r.2.2.2)

/-- The part of `EmailWorker::checkOutbox` that touches the emails already in
memory: when the out-box directory can be read every one of them has `skip`
cleared, and the emails loaded from new files, `loaded`, are appended. -/
def checkOutbox (readDir : Bool) (loaded : List Email) (emails : List Email) :
    List Email :=
  if !readDir then emails
  else (emails.map fun mail => { mail with skip_ := false }) ++ loaded

/-- One pass of the loop of `sendEmailTask`: scan the out-box, then the three
loops unless the out-box is empty. -/
def sendEmailTask (E : Env) (F : Fs) (now : Nat) (dht : Dht) (readDir : Bool)
    (loaded : List Email) (outbox : List Email) (disk : Disk) (g : Gen) :
    Except Fault (List Email × Disk × Gen × List Event) :=
  let outbox := checkOutbox readDir loaded outbox
  if outbox.isEmpty then .ok (outbox, disk, g, [])
  else sendRound E F now dht outbox disk g

/-- What one pass of the loop of `sendEmailTask` meets: the time, the answers
of the DHT, whether the out-box directory can be read, and the emails
`checkOutbox` loads from new files. -/
structure Pass where
  now : Nat
  dht : Dht
  readDir : Bool
  loaded : List Email

/-- Successive passes of the loop of `sendEmailTask` from the out-box given,
which is empty when the loop starts: the out-box, the disk and the generator
they leave, and for each pass the out-box as `checkOutbox` leaves it, on
which the three loops work, with the trace of the pass. -/
def sendPasses (E : Env) (F : Fs) :
    List Pass → List Email → Disk → Gen →
      Except Fault (List Email × Disk × Gen × List (List Email × List Event))
  | [], outbox, disk, g => .ok (outbox, disk, g, [])
  | pass :: rest, outbox, disk, g =>
    match sendEmailTask E F pass.now pass.dht pass.readDir pass.loaded outbox disk g with
    | .error f => .error f
    | .ok (outbox1, disk1, g1, trace) =>
      match sendPasses E F rest outbox1 disk1 g1 with
      | .error f => .error f
      | .ok (outbox2, disk2, g2, rounds) =>
        .ok (outbox2, disk2, g2,
          (checkOutbox pass.readDir pass.loaded outbox, trace) :: rounds)

/-- The envelope of an email agrees with its flag: the email has a recipient,
and when `encrypted_` is set, `delete_hash` is the hash of `DA` and `key` the
hash of the length and the ciphertext, as `encrypt` leaves them. -/
def Sealed (E : Env) (e : Email) : Prop :=
  (∃ recipient, e.recipient = some recipient)
    ∧ (e.encrypted_ = true →
        e.encrypted.delete_hash = E.SHA256 e.packet.DA.val
          ∧ e.encrypted.key = E.SHA256 (be16 e.encrypted.length ++ e.encrypted.edata))

/-! ## The check round of `EmailWorker::checkEmailTask` -/

/-- A local identity as `checkEmailTask` holds it (`BoteIdentityFull`). -/
structure BoteIdentityFull where
  publicName : Bytes
  identity : BoteIdentityPrivate
  /-- Result of `identity.GetIdentHash ()`. -/
  identHash : Tag32

/-- The loop of `checkEmailTask` over the processed emails: save to `inbox`,
then ask the DHT to delete the packet and the index entry. -/
def emitEmails (E : Env) (F : Fs) (email_identity : BoteIdentityFull) :
    List Email → Disk → Gen → Disk × Gen × List Event
  | [], disk, g => (disk, g, [])
  | mail :: rest, disk, g =>
    let saved := save E F mail (S "inbox") disk g
    let mail1 := saved.2.1
    let r := emitEmails E F email_identity rest saved.2.2.1 saved.2.2.2
    (r.1, r.2.1,
      Event.deleteEmail mail1.encrypted.key mail1.packet.DA
        :: Event.deleteIndexEntry email_identity.identHash mail1.encrypted.key
             mail1.packet.DA
        :: r.2.2)

/-- The round of `checkEmailTask` from the retrieved encrypted packets on. -/
def checkEmailTask (E : Env) (F : Fs) (email_identity : BoteIdentityFull)
    (enc_mail_packets : List EmailEncryptedPacket) (disk : Disk) (g : Gen) :
    Except Fault (Disk × Gen × List Event) :=
  if enc_mail_packets.isEmpty then .ok (disk, g, [])
  else
    match processEmail E email_identity.identity enc_mail_packets g with
    | .error f => .error f
    | .ok (emails, g1) => .ok (emitEmails E F email_identity emails disk g1)

/-- Member function `EmailWorker::check_inbox` over the files of the inbox
directory, given as paths with their contents. -/
def check_inbox_files (E : Env) : List (Bytes × Bytes) → Gen → List Email × Gen
  | [], g => ([], g)
  | (mail_path, file_bytes) :: rest, g =>
    let loaded := fromMIME E Email.new file_bytes g
    if loaded.1.packet.length > 0 then
      let composed := compose E loaded.1 loaded.2
      let mailPacket := { composed.1 with filename := mail_path }
      let r := check_inbox_files E rest composed.2
      if !mailPacket.empty_ then (mailPacket :: r.1, r.2) else r
    else check_inbox_files E rest loaded.2

/-- Member function `EmailWorker::check_inbox`; `inbox` is what `ReadDir`
finds, nothing when it fails. -/
def check_inbox (E : Env) (inbox : Option (List (Bytes × Bytes))) (g : Gen) :
    List Email × Gen :=
  match inbox with
  | none => ([], g)
  | some files => check_inbox_files E files g

/-! ## The POP3 session of `POP3.cpp` -/

namespace pop3

/-- Modelled from the spec: the session states of `POP3.h`, which is not
among the sources, under the names `POP3.cpp` uses for them. -/
inductive State where
  | STATE_QUIT
  | STATE_USER
  | STATE_PASS
  | STATE_TRANSACTION
deriving DecidableEq, Repr

/-- The entries of the tables `reply_ok`, `reply_err`, `templates` and
`capa_list` of `POP3.h` that `POP3.cpp` names; their text is not among the
sources. -/
inductive Template where
  | OK_HELO | OK_USER | OK_LOCK | OK_STAT | OK_LIST | OK_RETR | OK_DEL | OK_SIMP
  | OK_MAILDROP | OK_QUIT | OK_TOP | OK_UIDL
  | ERR_DENIED | ERR_NO_COMMAND | ERR_USER | ERR_PASS | ERR_SIMP | ERR_NOT_FOUND
  | ERR_REMOVED
  | TEMPLATE_LIST_ITEM | TEMPLATE_UIDL_ITEM | CAPA_LIST
deriving DecidableEq, Repr

/-- An argument of `format_response`. -/
inductive Arg where
  | num (n : Int)
  | str (s : Bytes)
deriving DecidableEq, Repr

/-- A stretch of a reply: a table entry with the arguments formatted into it,
or literal bytes. -/
inductive Piece where
  | format (t : Template) (args : List Arg)
  | text (b : Bytes)
deriving DecidableEq, Repr

/-- How a checked session ends when the source leaves defined behaviour. -/
inductive Crash where
  /-- An element of `emails` outside the vector. -/
  | index (i size : Nat)
  /-- An exception nobody catches (`std::stoi`, `substr`). -/
  | exception
  /-- Signed overflow. -/
  | overflow
deriving DecidableEq, Repr

/-- What the session consults outside itself: the identities known by name
and the files of the inbox directory. -/
structure Host where
  /-- Whether `context.identityByName (user)` finds an identity. -/
  identityByName : Bytes → Bool
  /-- The files `check_inbox` reads, nothing when `ReadDir` fails. -/
  inbox : Option (List (Bytes × Bytes))

/-- The members of the `POP3` object a session reads and writes, with the
replies sent and the paths handed to `pbote::fs::Remove` so far, and the
crash that stopped the session, if any. -/
structure POP3 where
  processing : Bool
  session_state : State
  emails : List Email
  sent : List (List Piece)
  removed : List Bytes
  crashed : Option Crash
  gen : Gen

/-- Member function `POP3::reply`. -/
def reply (s : POP3) (data : List Piece) : POP3 :=
  let sent := s.sent
  { s with sent := sent ++ [data] }

/-- The session stopped by a crash. -/
def crash (s : POP3) (c : Crash) : POP3 := { s with crashed := some c }

/-- Difference of two `size_t` values. -/
def sizeSub (a b : Nat) : Nat := (a + 18446744073709551616 - b % 18446744073709551616)
  % 18446744073709551616

/-- The call `s.substr (pos, n)`; it throws when `pos` lies past the end. -/
def substr (s : Bytes) (pos n : Nat) : Option Bytes :=
  if pos > s.length then none else some ((s.drop pos).take n)

/-- The test `isspace`. -/
def isspace (c : Nat) : Bool := c == 32 || (9 ≤ c && c ≤ 13)

/-- The test `isdigit`. -/
def isdigit (c : Nat) : Bool := 48 ≤ c && c ≤ 57

/-- The value of a run of decimal digits. -/
def digitsValue (ds : Bytes) : Nat := ds.foldl (fun acc c => acc * 10 + (c - 48)) 0

/-- The call `std::stoi (s)`: blanks, an optional sign, decimal digits; it
throws when there is no digit or the value does not fit an `int`. -/
def stoi (s : Bytes) : Option Int :=
  let s1 := s.dropWhile isspace
  let negative := s1.head? == some 45
  let s2 := if s1.head? == some 45 || s1.head? == some 43 then s1.drop 1 else s1
  let ds := s2.takeWhile isdigit
  if ds.isEmpty then none
  else
    let v : Int := if negative then -(digitsValue ds : Int) else (digitsValue ds : Int)
    if v < -2147483648 ∨ 2147483647 < v then none else some v

/-- An `int` converted to `size_t`. -/
def toSize (n : Int) : Nat := (n % 18446744073709551616).toNat

/-- The vector with the element at `i` replaced. -/
def setAt (emails : List Email) (i : Nat) (e : Email) : List Email := emails.set i e

/-- Member function `POP3::check_user`. -/
def check_user (H : Host) (user : Bytes) : Bool := H.identityByName user

/-- Member function `POP3::check_pass`: every password is accepted. -/
def check_pass (pass : Bytes) : Bool :=
  let _clean_pass := substr pass 0 (sizeSub pass.length 2)
  true

/-- Member function `POP3::USER`. -/
def USER (H : Host) (s : POP3) (request : Bytes) : POP3 :=
  if s.session_state ≠ State.STATE_USER then reply s [Piece.format Template.ERR_DENIED []]
  else
    let str_req := request.drop 5
    let user := str_req.take (sizeSub str_req.length 2)
    if check_user H user then
      reply { s with session_state := State.STATE_PASS }
        [Piece.format Template.OK_USER [Arg.str user]]
    else reply s [Piece.format Template.ERR_USER [Arg.str user]]

/-- Member function `POP3::PASS`. -/
def PASS (E : Env) (H : Host) (s : POP3) (request : Bytes) : POP3 :=
  if s.session_state ≠ State.STATE_PASS then reply s [Piece.format Template.ERR_DENIED []]
  else
    match substr request 5 (sizeSub request.length 5) with
    | none => crash s Crash.exception
    | some pass =>
      if check_pass pass then
        let inbox := check_inbox E H.inbox s.gen
        reply { s with session_state := State.STATE_TRANSACTION,
                       emails := inbox.1, gen := inbox.2 }
          [Piece.format Template.OK_LOCK []]
      else
        reply { s with session_state := State.STATE_USER }
          [Piece.format Template.ERR_PASS []]

/-- The emails after `bytes ()` has been called on each. -/
def allBytes (E : Env) (emails : List Email) : List Email :=
  emails.map fun email => (bytes E email).2

/-- The sum the loop of `STAT` accumulates: the size of `bytes ()` of every
email of the session. -/
def statSize (E : Env) (emails : List Email) : Nat :=
  (emails.map fun email => (bytes E email).1.length).sum

/-- Member function `POP3::STAT`. -/
def STAT (E : Env) (s : POP3) : POP3 :=
  if s.session_state ≠ State.STATE_TRANSACTION then
    reply s [Piece.format Template.ERR_DENIED []]
  else
    let emails := s.emails
    let emails_size := statSize E emails
    reply { s with emails := allBytes E emails }
      [Piece.format Template.OK_STAT [Arg.num emails.length, Arg.num emails_size]]

/-- The loop of `LIST`: the emails after the loop, the octets counted, and the
lines collected, starting from the counter given. -/
def listLoop (E : Env) : List Email → Nat → List Email × Nat × List Piece
  | [], _ => ([], 0, [])
  | email :: rest, email_counter =>
    if email.deleted_ then
      let r := listLoop E rest email_counter
      (email :: r.1, r.2.1, r.2.2)
    else
      let b := bytes E email
      let email_size := b.1.length
      let r := listLoop E rest (email_counter + 1)
      (b.2 :: r.1, email_size + r.2.1,
        Piece.format Template.TEMPLATE_LIST_ITEM [Arg.num email_counter, Arg.num email_size]
          :: Piece.text (S "\n") :: r.2.2)

/-- Member function `POP3::LIST`. -/
def LIST (E : Env) (s : POP3) (_request : Bytes) : POP3 :=
  if s.session_state ≠ State.STATE_TRANSACTION then
    reply s [Piece.format Template.ERR_DENIED []]
  else
    let emails := s.emails
    let r := listLoop E emails 1
    reply { s with emails := r.1 }
      (Piece.format Template.OK_LIST [Arg.num emails.length, Arg.num r.2.1]
        :: r.2.2 ++ [Piece.text (S ".\r\n")])

/-- Member function `POP3::RETR`. -/
def RETR (E : Env) (s : POP3) (request : Bytes) : POP3 :=
  if s.session_state ≠ State.STATE_TRANSACTION then
    reply s [Piece.format Template.ERR_DENIED []]
  else
    let req_str := request.drop 5
    if sizeSub req_str.length 1 < 1 then reply s [Piece.format Template.ERR_SIMP []]
    else
      let req_str := req_str.map fun c => if c = 10 ∨ c = 13 then 59 else c
      let message_number := req_str.takeWhile fun c => c != 59
      match stoi message_number with
      | none => crash s Crash.exception
      | some n =>
        let message_num_int := toSize n
        let emails := s.emails
        if message_num_int > emails.length then
          reply s [Piece.format Template.ERR_NOT_FOUND []]
        else
          let i := sizeSub message_num_int 1
          match emails.get? i with
          | none => crash s (Crash.index i emails.length)
          | some email =>
            let b := bytes E email
            reply { s with emails := setAt emails i b.2 }
              [Piece.format Template.OK_RETR [Arg.num b.1.length], Piece.text b.1,
               Piece.text (S ".\r\n")]

/-- Member function `POP3::DELE`. -/
def DELE (s : POP3) (request : Bytes) : POP3 :=
  if s.session_state ≠ State.STATE_TRANSACTION then
    reply s [Piece.format Template.ERR_DENIED []]
  else
    let req_str := request.drop 5
    match stoi req_str with
    | none => crash s Crash.exception
    | some n =>
      if n - 1 < -2147483648 then crash s Crash.overflow
      else
        let message_number : Int := n - 1
        let emails := s.emails
        if message_number < 0 ∧ toSize message_number ≥ emails.length then
          reply s [Piece.format Template.ERR_NOT_FOUND []]
        else
          let i := toSize message_number
          match emails.get? i with
          | none => crash s (Crash.index i emails.length)
          | some email =>
            if email.deleted_ then
              reply s [Piece.format Template.ERR_REMOVED [Arg.num (message_number + 1)]]
            else
              reply { s with emails := setAt emails i { email with deleted_ := true } }
                [Piece.format Template.OK_DEL [Arg.num (message_number + 1)]]

/-- Member function `POP3::NOOP`. -/
def NOOP (s : POP3) : POP3 :=
  if s.session_state ≠ State.STATE_TRANSACTION then
    reply s [Piece.format Template.ERR_DENIED []]
  else reply s [Piece.format Template.OK_SIMP []]

/-- Member function `POP3::RSET`. -/
def RSET (s : POP3) : POP3 :=
  if s.session_state ≠ State.STATE_TRANSACTION then
    reply s [Piece.format Template.ERR_DENIED []]
  else reply s [Piece.format Template.OK_MAILDROP [Arg.num 0, Arg.num 0]]

/-- Member function `POP3::finish`. -/
def finish (s : POP3) : POP3 := { s with processing := false }

/-- The paths `QUIT` hands to `pbote::fs::Remove`: the file of every email
marked deleted, in the order of the session list. -/
def marked (emails : List Email) : List Bytes :=
  (emails.filter fun email => email.deleted_).map fun email => email.filename

/-- Member function `POP3::QUIT`. -/
def QUIT (s : POP3) : POP3 :=
  let now_removed :=
    if s.session_state = State.STATE_TRANSACTION then marked s.emails else []
  let removed := s.removed
  finish (reply { s with removed := removed ++ now_removed,
                         session_state := State.STATE_QUIT }
    [Piece.format Template.OK_QUIT []])

/-- Member function `POP3::CAPA`. -/
def CAPA (s : POP3) : POP3 := reply s [Piece.format Template.CAPA_LIST []]

/-- Member function `POP3::APOP`. -/
def APOP (s : POP3) (request : Bytes) : POP3 :=
  if request.take 4 ≠ S "APOP" then reply s [Piece.format Template.ERR_DENIED []]
  else
    reply { s with session_state := State.STATE_TRANSACTION }
      [Piece.format Template.OK_LOCK []]

/-- Member function `POP3::TOP`. -/
def TOP (s : POP3) (_request : Bytes) : POP3 :=
  if s.session_state ≠ State.STATE_TRANSACTION then
    reply s [Piece.format Template.ERR_DENIED []]
  else reply s [Piece.format Template.OK_TOP []]

/-- The lines the loop of `UIDL` collects, starting from the counter given. -/
def uidlLoop : List Email → Nat → List Piece
  | [], _ => []
  | email :: rest, email_counter =>
    Piece.format Template.TEMPLATE_UIDL_ITEM
        [Arg.num email_counter, Arg.str (field email (S "Message-ID"))]
      :: Piece.text (S "\n") :: uidlLoop rest (email_counter + 1)

/-- Member function `POP3::UIDL`. -/
def UIDL (s : POP3) (_request : Bytes) : POP3 :=
  if s.session_state ≠ State.STATE_TRANSACTION then
    reply s [Piece.format Template.ERR_DENIED []]
  else
    reply s
      (Piece.format Template.OK_UIDL [Arg.num s.emails.length]
        :: uidlLoop s.emails 1 ++ [Piece.text (S ".\r\n")])

/-- Member function `POP3::respond`: the handler is chosen by the first
characters of the request. -/
def respond (E : Env) (H : Host) (s : POP3) (request : Bytes) : POP3 :=
  if request.take 4 = S "USER" then USER H s request
  else if request.take 4 = S "PASS" then PASS E H s request
  else if request.take 4 = S "STAT" then STAT E s
  else if request.take 4 = S "LIST" then LIST E s request
  else if request.take 4 = S "RETR" then RETR E s request
  else if request.take 4 = S "DELE" then DELE s request
  else if request.take 4 = S "NOOP" then NOOP s
  else if request.take 4 = S "RSET" then RSET s
  else if request.take 4 = S "QUIT" then QUIT s
  else if request.take 4 = S "CAPA" then CAPA s
  else if request.take 4 = S "APOP" then APOP s request
  else if request.take 3 = S "TOP" then TOP s request
  else if request.take 4 = S "UIDL" then UIDL s request
  else reply s [Piece.format Template.ERR_NO_COMMAND []]

/-- The loop of `POP3::process` over the requests received: it goes on while
`processing` holds and the session has not crashed. -/
def serve (E : Env) (H : Host) : POP3 → List Bytes → POP3
  | s, [] => s
  | s, request :: rest =>
    if s.processing && s.crashed.isNone then serve E H (respond E H s request) rest
    else s

/-- Member functions `POP3::handle` and `POP3::process` on the requests of one
connection: greeting, state `STATE_USER`, then the loop. -/
def process (E : Env) (H : Host) (s : POP3) (requests : List Bytes) : POP3 :=
  let greeted := reply { s with processing := true } [Piece.format Template.OK_HELO []]
  serve E H { greeted with session_state := State.STATE_USER } requests

/-- The `POP3` object as its constructor leaves it. -/
def POP3.new (g : Gen) : POP3 :=
  { processing := false, session_state := State.STATE_QUIT, emails := [], sent := [],
    removed := [], crashed := none, gen := g }

end pop3

/-! ## Containers of the standard library -/

/-- The order of `std::string` and of `Tag<32>` keys: the bytes compared from
the front, as `memcmp` does, a proper prefix coming first. -/
def memcmpLt : Bytes → Bytes → Bool
  | [], [] => false
  | [], _ :: _ => true
  | _ :: _, [] => false
  | a :: as, b :: bs => if a < b then true else if b < a then false else memcmpLt as bs

/-- An entry put at its place among the entries of a `std::map`, which are
kept in ascending order of keys. -/
def placeEntry {κ ν : Type} (lt : κ → κ → Bool) (entry : κ × ν) :
    List (κ × ν) → List (κ × ν)
  | [] => [entry]
  | e :: rest =>
    if lt entry.1 e.1 then entry :: e :: rest else e :: placeEntry lt entry rest

/-- The test `m.find (key) != m.end ()` on a `std::map`. -/
def mapHas {κ ν : Type} [DecidableEq κ] (m : List (κ × ν)) (key : κ) : Bool :=
  m.any fun e => decide (e.1 = key)

/-- The call `m.insert (std::pair (key, value))` on a `std::map`: the pair is
added when no entry has the key, and the map stays as it is otherwise. -/
def mapInsert {κ ν : Type} [DecidableEq κ] (lt : κ → κ → Bool) (m : List (κ × ν))
    (key : κ) (value : ν) : List (κ × ν) :=
  if mapHas m key then m else placeEntry lt (key, value) m

/-- The assignment `m[key] = value` on a `std::map`: the value of the entry
with the key is replaced, and an entry is added when there is none. -/
def mapAssign {κ ν : Type} [DecidableEq κ] (lt : κ → κ → Bool) (m : List (κ × ν))
    (key : κ) (value : ν) : List (κ × ν) :=
  if mapHas m key then m.map fun e => if e.1 = key then (key, value) else e
  else placeEntry lt (key, value) m

/-- The call `m.erase (key)` on a `std::map`. -/
def mapErase {κ ν : Type} [DecidableEq κ] (m : List (κ × ν)) (key : κ) : List (κ × ν) :=
  m.filter fun e => !decide (e.1 = key)

/-- A value of type `size_t` converted to `int`. -/
def toInt (n : Nat) : Int := ((n + 2147483648) % 4294967296 : Nat) - 2147483648

/-! ## The queue of `Queue.h` -/

namespace util

/-- The class `Queue<Element>`; an `Element` is a pointer, and `none` is the
null pointer.  The mutex and the condition variable have no part in a run of
one thread. -/
structure Queue (α : Type) where
  m_Queue : List (Option α)

/-- The queue as its constructor leaves it. -/
def Queue.new {α : Type} : Queue α := { m_Queue := [] }

/-- Member function `Queue::Put (Element e)`. -/
def Queue.Put {α : Type} (q : Queue α) (e : Option α) : Queue α :=
  { m_Queue := q.m_Queue ++ [e] }

/-- Member function `Queue::Put (const Container &vec)`, the overload that
takes a container. -/
def Queue.PutContainer {α : Type} (q : Queue α) (vec : List (Option α)) : Queue α :=
  if !vec.isEmpty then
    { m_Queue := vec.foldl (fun m_Queue it => m_Queue ++ [it]) q.m_Queue }
  else q

/-- Member function `Queue::GetNonThreadSafe`. -/
def Queue.GetNonThreadSafe {α : Type} (q : Queue α) (peek : Bool) : Option α × Queue α :=
  match q.m_Queue with
  | el :: rest => if !peek then (el, { m_Queue := rest }) else (el, q)
  | [] => (none, q)

/-- Member function `Queue::Get`. -/
def Queue.Get {α : Type} (q : Queue α) : Option α × Queue α := q.GetNonThreadSafe false

/-- Member function `Queue::Peek`. -/
def Queue.Peek {α : Type} (q : Queue α) : Option α × Queue α := q.GetNonThreadSafe true

/-- Member function `Queue::IsEmpty`. -/
def Queue.IsEmpty {α : Type} (q : Queue α) : Bool := q.m_Queue.isEmpty

/-- Member function `Queue::GetSize`. -/
def Queue.GetSize {α : Type} (q : Queue α) : Int := toInt q.m_Queue.length

/-- A call that puts elements, none of them null, into the queue. -/
inductive PutCall (α : Type) where
  /-- The call `Put (e)`. -/
  | item (e : α)
  /-- The call `Put (vec)`. -/
  | container (vec : List α)

/-- The queue after a sequence of `Put` calls. -/
def Queue.puts {α : Type} : Queue α → List (PutCall α) → Queue α
  | q, [] => q
  | q, PutCall.item e :: rest => Queue.puts (q.Put (some e)) rest
  | q, PutCall.container vec :: rest => Queue.puts (q.PutContainer (vec.map some)) rest

/-- What `n` successive calls of `Get` return, and the queue they leave. -/
def Queue.gets {α : Type} : Nat → Queue α → List (Option α) × Queue α
  | 0, q => ([], q)
  | n + 1, q => (q.Get.1 :: (Queue.gets n q.Get.2).1, (Queue.gets n q.Get.2).2)

/-- The queue of the specification, following its words: a FIFO list of
items, where `put (item)` appends the item and `put_many (vec)` appends the
items of `vec` in their order. -/
def fifoAfter {α : Type} : List α → List (PutCall α) → List α
  | fifo, [] => fifo
  | fifo, PutCall.item e :: rest => fifoAfter (fifo ++ [e]) rest
  | fifo, PutCall.container vec :: rest => fifoAfter (fifo ++ vec) rest

end util

/-! ## Index retrieval of `EmailWorker::retrieveIndex` -/

/-- Modelled from the spec: `CommunicationPacket` of `Packet.h`, which is not
among the sources; what `find_all` returns, a type tag with the bytes behind
it. -/
structure CommunicationPacket where
  type : Nat
  payload : Bytes

/-- Modelled from the spec: `ResponsePacket` of `Packet.h`, which is not among
the sources; every response is wrapped in `{ status, length, data }`. -/
structure ResponsePacket where
  status : Nat
  length : Nat
  data : Bytes

/-- What `retrieveIndex` takes from `Packet.h`, which is not among the
sources: the tag `type::CommN`, the code `StatusCode::OK` and the two
parsers. -/
structure Codec where
  /-- The tag `type::CommN`. -/
  CommN : Nat
  /-- The code `StatusCode::OK`. -/
  OK : Nat
  /-- The call `res_packet.from_comm_packet (*response, true)`, nothing when it
  returns false. -/
  from_comm_packet : CommunicationPacket → Option ResponsePacket
  /-- The call `index_packet.fromBuffer (data, true)`, nothing when it returns
  false. -/
  fromBuffer : Bytes → Option IndexPacket

/-- The order of the keys of `std::map<i2p::data::Tag<32>, IndexPacket>`. -/
def tagLt (a b : Tag32) : Bool := memcmpLt a.val b.val

/-- The index packet with which the body of the loop of `retrieveIndex`
reaches `indices.insert` for a response, nothing when the body ends in a
`continue`. -/
def indexOf (C : Codec) (response : CommunicationPacket) : Option IndexPacket :=
  if response.type ≠ C.CommN then none
  else
    match C.from_comm_packet response with
    | none => none
    | some res_packet =>
      if res_packet.status ≠ C.OK then none
      else if res_packet.length < 38 then none
      else
        match C.fromBuffer res_packet.data with
        | none => none
        | some index_packet => if index_packet.data.isEmpty then none else some index_packet

/-- The loop of `retrieveIndex` over the responses: the map `indices` and the
calls of `DHT_worker.safe`. -/
def retrieveIndexLoop (C : Codec) :
    List CommunicationPacket → List (Tag32 × IndexPacket) →
      List (Tag32 × IndexPacket) × List Event
  | [], indices => (indices, [])
  | response :: rest, indices =>
    if response.type ≠ C.CommN then retrieveIndexLoop C rest indices
    else
      match C.from_comm_packet response with
      | none => retrieveIndexLoop C rest indices
      | some res_packet =>
        if res_packet.status ≠ C.OK then retrieveIndexLoop C rest indices
        else if res_packet.length < 38 then retrieveIndexLoop C rest indices
        else
          match C.fromBuffer res_packet.data with
          | none =>
            ((retrieveIndexLoop C rest indices).1,
              Event.safe res_packet.data :: (retrieveIndexLoop C rest indices).2)
          | some index_packet =>
            if index_packet.data.isEmpty then
              ((retrieveIndexLoop C rest indices).1,
                Event.safe res_packet.data :: (retrieveIndexLoop C rest indices).2)
            else
              let hash := index_packet.hash
              let indices1 := mapInsert tagLt indices hash index_packet
              ((retrieveIndexLoop C rest indices1).1,
                Event.safe res_packet.data :: (retrieveIndexLoop C rest indices1).2)

/-- Member function `EmailWorker::retrieveIndex`; `results` is what
`DHT_worker.findAll (identity_hash, DataI)` returns. -/
def retrieveIndex (C : Codec) (results : List CommunicationPacket) :
    List IndexPacket × List Event :=
  if results.isEmpty then ([], [])
  else
    let r := retrieveIndexLoop C results []
    (r.1.map fun packet => packet.2, r.2)

/-! ## The threads of `EmailWorker` -/

/-- What a thread of the worker runs. -/
inductive Task where
  /-- The loop `run ()`. -/
  | run
  /-- The loop `sendEmailTask ()`. -/
  | sendEmailTask
  /-- The loop `checkEmailTask (identity)` for the identity of a public name. -/
  | checkEmailTask (publicName : Bytes)
  /-- The loop `check_delivery_task ()`. -/
  | check_delivery_task
deriving DecidableEq, Repr

/-- A `std::thread` the worker created: its number in the order of creation
and what it runs. -/
structure Thread where
  id : Nat
  task : Task
deriving DecidableEq, Repr

/-- The members of `EmailWorker` that `start`, `run` and `stop` read and
write, with the threads created and the threads joined so far.  Modelled from
the spec: `EmailWorker.h` is not among the sources, and `m_check_threads_` is
taken to be a `std::map` from public name to thread, the check tasks being
keyed by public name.  The object `email_worker` has static storage, so
`m_check_thread_`, which the constructor does not name, starts null. -/
structure EmailWorker where
  started_ : Bool
  m_send_thread_ : Option Thread
  m_worker_thread_ : Option Thread
  m_check_thread_ : Option Thread
  m_check_threads_ : List (Bytes × Thread)
  created : List Thread
  joined : List Thread

namespace EmailWorker

/-- The constructor `EmailWorker::EmailWorker ()`. -/
def new : EmailWorker :=
  { started_ := false, m_send_thread_ := none, m_worker_thread_ := none,
    m_check_thread_ := none, m_check_threads_ := [], created := [], joined := [] }

/-- The expression `new std::thread (...)`: the thread, and the worker with
the thread among those created. -/
def spawn (w : EmailWorker) (task : Task) : Thread × EmailWorker :=
  let created := w.created
  let thread : Thread := { id := created.length, task := task }
  (thread, { w with created := created ++ [thread] })

/-- The call `thread->join ()`, taken to return. -/
def join (w : EmailWorker) (thread : Thread) : EmailWorker :=
  let joined := w.joined
  { w with joined := joined ++ [thread] }

/-- Member function `EmailWorker::check_thread_exist`. -/
def check_thread_exist (w : EmailWorker) (identity_name : Bytes) : Bool :=
  mapHas w.m_check_threads_ identity_name

/-- The loop of `startCheckEmailTasks` over the identities. -/
def startCheckLoop : List BoteIdentityFull → EmailWorker → EmailWorker
  | [], w => w
  | identity :: rest, w =>
    if check_thread_exist w identity.publicName then startCheckLoop rest w
    else
      let new_thread := spawn w (Task.checkEmailTask identity.publicName)
      let m_check_threads_ := new_thread.2.m_check_threads_
      startCheckLoop rest
        { new_thread.2 with
          m_check_threads_ :=
            mapAssign memcmpLt m_check_threads_ identity.publicName new_thread.1 }

/-- Member function `EmailWorker::startCheckEmailTasks`; `identities` is what
`context.getEmailIdentities ()` returns. -/
def startCheckEmailTasks (w : EmailWorker) (identities : List BoteIdentityFull) :
    EmailWorker :=
  if !w.started_ || identities.length == 0 then w
  else startCheckLoop identities w

/-- The loop of `stopCheckEmailTasks`, for at most the given number of
turns: the thread of the first entry is joined and the entries with its key
are erased. -/
def stopCheckLoop : Nat → EmailWorker → EmailWorker
  | 0, w => w
  | n + 1, w =>
    match w.m_check_threads_ with
    | [] => w
    | it :: _ =>
      let w1 := join w it.2
      let m_check_threads_ := w1.m_check_threads_
      stopCheckLoop n { w1 with m_check_threads_ := mapErase m_check_threads_ it.1 }

/-- Member function `EmailWorker::stopCheckEmailTasks`; every turn of its loop
erases an entry, so as many turns as there are entries empty the map. -/
def stopCheckEmailTasks (w : EmailWorker) : EmailWorker :=
  stopCheckLoop w.m_check_threads_.length w

/-- Member function `EmailWorker::startSendEmailTask`. -/
def startSendEmailTask (w : EmailWorker) (identities : List BoteIdentityFull) :
    EmailWorker :=
  if !w.started_ || identities.length == 0 then w
  else
    let new_thread := spawn w Task.sendEmailTask
    { new_thread.2 with m_send_thread_ := some new_thread.1 }

/-- Member function `EmailWorker::stopSendEmailTask`. -/
def stopSendEmailTask (w : EmailWorker) : EmailWorker :=
  match w.m_send_thread_ with
  | some thread =>
    if !w.started_ then { join w thread with m_send_thread_ := none } else w
  | none => w

/-- Member function `EmailWorker::start_check_delivery_task`. -/
def start_check_delivery_task (w : EmailWorker) : EmailWorker :=
  if !w.started_ then w
  else
    let new_thread := spawn w Task.check_delivery_task
    { new_thread.2 with m_check_thread_ := some new_thread.1 }

/-- Member function `EmailWorker::stop_check_delivery_task`. -/
def stop_check_delivery_task (w : EmailWorker) : EmailWorker :=
  match w.m_check_thread_ with
  | some thread =>
    if !w.started_ then { join w thread with m_check_thread_ := none } else w
  | none => w

/-- Member function `EmailWorker::start`; `identities` is what the context
holds at the call. -/
def start (w : EmailWorker) (identities : List BoteIdentityFull) : EmailWorker :=
  if w.started_ && w.m_worker_thread_.isSome then w
  else
    let w1 :=
      if identities.length == 0 then w
      else
        start_check_delivery_task
          (startCheckEmailTasks (startSendEmailTask w identities) identities)
    let new_thread := spawn { w1 with started_ := true } Task.run
    { new_thread.2 with m_worker_thread_ := some new_thread.1 }

/-- Member function `EmailWorker::stop`. -/
def stop (w : EmailWorker) : EmailWorker :=
  if !w.started_ then w
  else
    stop_check_delivery_task
      (stopCheckEmailTasks (stopSendEmailTask { w with started_ := false }))

/-- One turn of the loop of `EmailWorker::run`, the reconcile step;
`identities` is what the context holds at that turn. -/
def run (w : EmailWorker) (identities : List BoteIdentityFull) : EmailWorker :=
  if !w.started_ then w
  else if identities.length ≠ 0 then
    let w1 := startCheckEmailTasks w identities
    if w1.m_send_thread_.isNone then startSendEmailTask w1 identities else w1
  else stopCheckEmailTasks (stopSendEmailTask w)

/-- A call that changes the worker, with the identities the context holds
at that time. -/
inductive Call where
  | start (identities : List BoteIdentityFull)
  | run (identities : List BoteIdentityFull)
  | stop

/-- The worker after a call. -/
def call (w : EmailWorker) : Call → EmailWorker
  | Call.start identities => start w identities
  | Call.run identities => run w identities
  | Call.stop => stop w

/-- The worker after a sequence of calls on the object as constructed. -/
def after (calls : List Call) : EmailWorker := calls.foldl call new

/-- The check tasks are in order: no two entries of `m_check_threads_` have
the same public name, and every thread created for `checkEmailTask` and not
yet joined is the entry of the map under the public name it runs for. -/
def Tidy (w : EmailWorker) : Prop :=
  (w.m_check_threads_.map Prod.fst).Nodup
    ∧ ∀ t ∈ w.created, ∀ name : Bytes, t.task = Task.checkEmailTask name →
        t ∉ w.joined → (name, t) ∈ w.m_check_threads_

end EmailWorker

/-! ## Concrete rounds and sessions -/

/-- A file system whose paths are `dir/name` and whose files all open. -/
def plainFs : Fs :=
  { DataDirPath := fun dir name => dir ++ S "/" ++ name, canOpen := fun _ => true }

/-- A plaintext packet whose header declares the first of two fragments. -/
def toyFragmentPlaintext : Bytes :=
  [85, 4] ++ List.replicate 32 48 ++ List.replicate 32 9 ++ [0, 0, 0, 2, 0, 15]
    ++ [0] ++ S "From: a\r\n\r\nhi"

/-- The encrypted packet carrying `toyFragmentPlaintext`. -/
def toyFragment : EmailEncryptedPacket :=
  { key := zero_array, alg := 2, stored_time := 0, length := 89,
    edata := 1 :: toyFragmentPlaintext,
    delete_hash := toyHash (List.replicate 32 9) }

/-- The local identity of the stand-in cipher as a check task holds it. -/
def toyFull : BoteIdentityFull :=
  { publicName := S "alice", identity := toyIdentity, identHash := zero_array }

/-- The paths of the files on a disk. -/
def diskPaths (disk : Disk) : List Bytes := disk.map fun f => f.1

/-- The paths on disk after a check round, nothing when the round faults. -/
def pathsAfterCheck (packets : List EmailEncryptedPacket) : List Bytes :=
  match checkEmailTask plainEnv plainFs toyFull packets [] [] with
  | .ok r => diskPaths r.1
  | .error _ => []

/-- The fragment fields of the emails `processEmail` returns, nothing when it
faults. -/
def fragmentsAfterProcess (packets : List EmailEncryptedPacket) :
    List (Bool × Nat × Nat) :=
  match processEmail plainEnv toyIdentity packets [] with
  | .ok r => r.1.map fun e => (e.incomplete_, e.packet.fr_id, e.packet.fr_count)
  | .error _ => []

/-- The kinds of calls a round records. -/
inductive Event.Kind where
  | storeEmail | storeIndex | safe | move | deleteEmail | deleteIndexEntry
deriving DecidableEq, Repr

/-- The kind of a recorded call and the out-box position it is issued for. -/
def Event.summary : Event → Event.Kind × Option Nat
  | .storeEmail i _ _ => (Event.Kind.storeEmail, some i)
  | .storeIndex i _ _ => (Event.Kind.storeIndex, some i)
  | .safe _ => (Event.Kind.safe, none)
  | .move i _ => (Event.Kind.move, some i)
  | .deleteEmail _ _ => (Event.Kind.deleteEmail, none)
  | .deleteIndexEntry _ _ _ => (Event.Kind.deleteIndexEntry, none)

/-- The trace of a round, nothing when the round faults. -/
def traceOf (r : Except Fault (List Email × Disk × Gen × List Event)) : List Event :=
  match r with
  | .ok x => x.2.2.2
  | .error _ => []

/-- The out-box after a round, nothing when the round faults. -/
def outboxOf (r : Except Fault (List Email × Disk × Gen × List Event)) : List Email :=
  match r with
  | .ok x => x.1
  | .error _ => []

/-- A DHT no node of which answers a store. -/
def dhtDown : Dht := { storeE := fun _ => [], storeI := fun _ => [] }

/-- A DHT one node of which answers every store. -/
def dhtUp : Dht := { storeE := fun _ => [S "node"], storeI := fun _ => [S "node"] }

/-- A DHT that answers the store of an encrypted packet and not the store of
an index packet. -/
def dhtIndexDown : Dht := { storeE := fun _ => [S "node"], storeI := fun _ => [] }

/-- The email `toyOutgoing` as `encrypt` leaves it. -/
def toyEncrypted : Email :=
  match encrypt plainEnv toyOutgoing with
  | .ok e => e
  | .error _ => toyOutgoing

/-- A first round: `toyOutgoing` is loaded from the out-box directory, its
encrypted packet is stored, its index packet is not. -/
def toyRound1 : Except Fault (List Email × Disk × Gen × List Event) :=
  sendEmailTask plainEnv plainFs 7 dhtIndexDown true [toyOutgoing] [] [] []

/-- The round after `toyRound1`, on the out-box it left, with a DHT that
answers. -/
def toyRound2 : Except Fault (List Email × Disk × Gen × List Event) :=
  sendEmailTask plainEnv plainFs 8 dhtUp true [] (outboxOf toyRound1) [] []

/-- A host that knows the identity `alice` and holds two mails in its inbox. -/
def toyHost : pop3.Host :=
  { identityByName := fun user => user == S "alice",
    inbox := some [(S "inbox/1.mail", S "From: a\r\n\r\none"),
                   (S "inbox/2.mail", S "From: b\r\n\r\ntwo!")] }

/-- The requests that log `alice` in. -/
def toyLogin : List Bytes := [S "USER alice\r\n", S "PASS x\r\n"]

/-- A line-oriented MIME reader that gives the body its lines ended by CR LF. -/
def crlfLoad (data : Bytes) : MimeEntity :=
  let r := parseLines ((splitLines data).map stripCR)
  { header := r.1, body := List.intercalate (S "\r\n") r.2 }

/-- The concrete environment with the reader `crlfLoad`. -/
def crlfEnv : Env := { plainEnv with load := crlfLoad }

/-- A host that knows the identity `alice` and holds one mail, whose second
body line is a lone dot. -/
def dotHost : pop3.Host :=
  { identityByName := fun user => user == S "alice",
    inbox := some [(S "inbox/1.mail", S "From: a\r\n\r\nx\r\n.\r\ny\r\n")] }

/-- The entries a buffer holds, `key | dv | time` each. -/
def toyEntries : Nat → Bytes → List IndexPacket.Entry
  | 0, _ => []
  | n + 1, b =>
    { key := Tag32.ofBytes (b.take 32), dv := Tag32.ofBytes ((b.drop 32).take 32),
      time := (b.getD 64 0 * 256 + b.getD 65 0) * 65536 + b.getD 66 0 * 256 + b.getD 67 0 }
      :: toyEntries n (b.drop 68)

/-- A parser of index packets in the layout `hash | nump | entries`. -/
def toyFromBuffer (data : Bytes) : Option IndexPacket :=
  if data.length < 36 then none
  else
    let nump := (data.getD 32 0 * 256 + data.getD 33 0) * 65536
      + data.getD 34 0 * 256 + data.getD 35 0
    if data.length < 36 + 68 * nump then none
    else some { hash := Tag32.ofBytes (data.take 32), nump := nump,
                data := toyEntries nump (data.drop 36) }

/-- A codec for concrete runs: a response carries its status in its first
byte and its data behind it. -/
def toyCodec : Codec :=
  { CommN := 78, OK := 0,
    from_comm_packet := fun response =>
      match response.payload with
      | [] => none
      | status :: data => some { status := status, length := data.length % 65536, data := data },
    fromBuffer := toyFromBuffer }

/-- An index packet for the identity hash of zeros with one entry, whose key
is filled with the byte given. -/
def toyIndex (b : Nat) : IndexPacket :=
  { hash := zero_array, nump := 1,
    data := [{ key := Tag32.ofBytes (List.replicate 32 b), dv := zero_array, time := 0 }] }

/-- The response of a peer that answers OK with the packet `toyIndex b`. -/
def toyResponse (b : Nat) : CommunicationPacket :=
  { type := 78, payload := 0 :: (toyIndex b).toByte }

/-- The keys an index packet lists. -/
def keysOf (packet : IndexPacket) : List Bytes := packet.data.map fun entry => entry.key.val

/-- Two passes of the loop of `sendEmailTask`: in the first `toyOutgoing` is
loaded and its index store gets no answer, in the second the DHT answers. -/
def toyPasses : List Pass :=
  [{ now := 7, dht := dhtIndexDown, readDir := true, loaded := [toyOutgoing] },
   { now := 8, dht := dhtUp, readDir := true, loaded := [] }]

/-- The kinds and positions of the calls of each pass, nothing when a pass
faults. -/
def passSummaries
    (r : Except Fault (List Email × Disk × Gen × List (List Email × List Event))) :
    List (List (Event.Kind × Option Nat)) :=
  match r with
  | .ok x => x.2.2.2.map fun round => round.2.map Event.summary
  | .error _ => []

/-! ## Theorems -/

/-- A header returns the value just assigned under a name. -/
theorem headerValue_headerSet (h : List Field) (name v : Bytes) :
    headerValue (headerSet h name v) name = v := by
  induction h with
  | nil => simp [headerSet, headerValue, sameName]
  | cons f fs ih =>
    by_cases hf : sameName f.name name = true
    · simp [headerSet, headerValue, hf]
    · simp [headerSet, headerValue, hf, ih]

/-- An email that has a Message-ID is left alone by `set_message_id`. -/
theorem set_message_id_of_present (e : Email) (g : Gen)
    (h : headerValue e.mail.header (S "Message-ID") ≠ []) :
    set_message_id e g = (e, g) := by
  have hne : (headerValue e.mail.header (S "Message-ID")).isEmpty = false := by
    cases hx : headerValue e.mail.header (S "Message-ID") with
    | nil => exact absurd hx h
    | cons _ _ => rfl
  simp [set_message_id, field, hne]

/-- The Message-ID after `set_message_id`: the old one, or a fresh UUID with
the domain appended when there was none. -/
theorem set_message_id_field (e : Email) (g : Gen) :
    headerValue (set_message_id e g).1.mail.header (S "Message-ID")
      = if headerValue e.mail.header (S "Message-ID") = [] then
          (generate_uuid_v4 g).1 ++ S "@bote.i2p"
        else headerValue e.mail.header (S "Message-ID") := by
  by_cases h : headerValue e.mail.header (S "Message-ID") = []
  · simp [set_message_id, field, setField, h, headerValue_headerSet]
  · rw [set_message_id_of_present e g h]
    simp [h]

/-- After `set_message_id` the email has a Message-ID. -/
theorem set_message_id_present (e : Email) (g : Gen) :
    headerValue (set_message_id e g).1.mail.header (S "Message-ID") ≠ [] := by
  rw [set_message_id_field]
  split_ifs with h
  · intro h0
    have := congrArg List.length h0
    simp [S] at this
  · exact h

/-- An email that has a Message-ID is left alone by `get_message_id`, which
returns that Message-ID. -/
theorem get_message_id_of_present (E : Env) (e : Email) (g : Gen)
    (h : headerValue e.mail.header (S "Message-ID") ≠ []) :
    get_message_id E e g = (headerValue e.mail.header (S "Message-ID"), e, g) := by
  unfold get_message_id
  dsimp only
  split_ifs
  · rw [set_message_id_of_present e g h]
    rfl
  · rfl

/-- Result of `compose` on an email that has a Message-ID: the result, field by field. -/
theorem compose_of_present (E : Env) (e : Email) (g : Gen)
    (h : headerValue e.mail.header (S "Message-ID") ≠ []) :
    compose E e g =
      ({ e with
          packet :=
            { e.packet with
              mes_id := Tag32.ofBytes
                (mesIdChars E (headerValue e.mail.header (S "Message-ID")))
              data := E.write e.mail
              DA := if e.packet.DA = zero_array then Tag32.ofBytes (random_cid 32 g).1
                    else e.packet.DA
              fr_id := 0
              fr_count := 1
              length := (E.write e.mail).length % 65536 }
          empty_ := false
          incomplete_ := false },
       if e.packet.DA = zero_array then (random_cid 32 g).2 else g) := by
  unfold compose
  rw [set_message_id_of_present e g h]
  dsimp only
  unfold set_message_id_bytes
  rw [get_message_id_of_present E e g h]
  dsimp only [bytes]
  rw [get_message_id_of_present]
  · by_cases hz : e.packet.DA = zero_array
    · simp [hz]
    · simp [hz]
  · exact h

/-- Function `compose` first settles the Message-ID and then proceeds as on an email
that has one. -/
theorem compose_eq (E : Env) (e : Email) (g : Gen) :
    compose E e g = compose E (set_message_id e g).1 (set_message_id e g).2 := by
  have h := set_message_id_of_present (set_message_id e g).1 (set_message_id e g).2
    (set_message_id_present e g)
  conv_rhs => unfold compose
  rw [h]
  rfl

/-- C1: an email that is not skipped, not yet encrypted, has a sender and a
recipient and whose cipher output is non-empty comes out of `encrypt` marked
encrypted, with `delete_hash = SHA256 (DA)` and
`key = SHA256 (be16 (length) || edata)`, for every hash and cipher. -/
theorem encrypt_envelope (E : Env) (e : Email) (sender : BoteIdentityPrivate)
    (recipient : BoteIdentityPublic)
    (hskip : e.skip_ = false) (henc : e.encrypted_ = false)
    (hs : e.sender = some sender) (hr : e.recipient = some recipient)
    (hc : sender.Encrypt e.packet.toByte recipient.cryptoPublicKey ≠ []) :
    ∃ e', encrypt E e = .ok e' ∧ e'.encrypted_ = true ∧ e'.packet.DA = e.packet.DA
      ∧ e'.encrypted.edata = sender.Encrypt e.packet.toByte recipient.cryptoPublicKey
      ∧ e'.encrypted.delete_hash = E.SHA256 e'.packet.DA.val
      ∧ e'.encrypted.key
          = E.SHA256 (be16 e'.encrypted.length ++ e'.encrypted.edata) := by
  have hne : (sender.Encrypt e.packet.toByte recipient.cryptoPublicKey).isEmpty = false := by
    cases h : sender.Encrypt e.packet.toByte recipient.cryptoPublicKey with
    | nil => exact absurd h hc
    | cons _ _ => rfl
  simp only [encrypt, hskip, henc, setField, hs, hr, hne, Bool.false_eq_true, if_false]
  exact ⟨_, rfl, rfl, rfl, rfl, rfl, rfl⟩

/-- C1, at a concrete email: the hypotheses hold together. -/
theorem encrypt_envelope_witness :
    ∃ e', encrypt plainEnv toyOutgoing = .ok e' ∧ e'.encrypted_ = true
      ∧ e'.packet.DA = toyOutgoing.packet.DA
      ∧ e'.encrypted.edata
          = toyIdentity.Encrypt toyOutgoing.packet.toByte toyRecipient.cryptoPublicKey
      ∧ e'.encrypted.delete_hash = plainEnv.SHA256 e'.packet.DA.val
      ∧ e'.encrypted.key
          = plainEnv.SHA256 (be16 e'.encrypted.length ++ e'.encrypted.edata) :=
  encrypt_envelope plainEnv toyOutgoing toyIdentity toyRecipient rfl rfl rfl rfl
    (by simp [toyIdentity])

/-- C2: `verify (h)` answers true exactly when `SHA256 (DA)` is `h`, and the
email is the same after the call. -/
theorem verify_iff (E : Env) (e : Email) (h : Tag32) :
    ((verify E e h).1 = true ↔ E.SHA256 e.packet.DA.val = h) ∧ (verify E e h).2 = e := by
  refine ⟨?_, rfl⟩
  simp only [verify, decide_eq_true_eq]
  constructor
  · intro hv
    exact Subtype.ext hv.symm
  · intro hv
    rw [hv]

/-- A buffer longer than the fixed header and holding a tag byte is parsed
without leaving the buffer. -/
theorem ofPacket_ok (E : Env) (data : Bytes) (from_net : Bool) (g : Gen)
    (h : 73 ≤ data.length) : ∃ r, Email.ofPacket E data from_net g = .ok r := by
  have hd : ∃ c rest, data.drop 72 = c :: rest := by
    cases hx : data.drop 72 with
    | nil =>
      have := congrArg List.length hx
      simp at this
      omega
    | cons c rest => exact ⟨c, rest, rfl⟩
  obtain ⟨c, rest, hcr⟩ := hd
  have h1 : 0 + 1 ≤ data.length := by omega
  have h2 : 1 + 1 ≤ data.length := by omega
  have h3 : 2 + 32 ≤ data.length := by omega
  have h4 : 34 + 32 ≤ data.length := by omega
  have h5 : 66 + 2 ≤ data.length := by omega
  have h6 : 68 + 2 ≤ data.length := by omega
  have h7 : 70 + 2 ≤ data.length := by omega
  simp only [Email.ofPacket, memcpy, h1, h2, h3, h4, h5, h6, h7, if_true, bind,
    Except.bind, hcr, decompress, pure, Except.pure]
  split_ifs <;> exact ⟨_, rfl⟩

/-- What the loop of `processEmail` adds to the emails collected so far. -/
theorem processEmailLoop_spec (E : Env) (identity : BoteIdentityPrivate) :
    ∀ (packets : List EmailEncryptedPacket) (emails : List Email) (g : Gen),
      (∀ p ∈ packets, p.edata ≠ [] →
        identity.Decrypt p.edata = [] ∨ 73 ≤ (identity.Decrypt p.edata).length) →
      ∃ extra g', processEmailLoop E identity packets emails g = .ok (emails ++ extra, g')
        ∧ extra.length ≤ packets.length
        ∧ ∀ e ∈ extra, ∃ p ∈ packets, p.edata ≠ [] ∧ identity.Decrypt p.edata ≠ []
            ∧ e.encrypted = p ∧ E.SHA256 e.packet.DA.val = p.delete_hash := by
  intro packets
  induction packets with
  | nil =>
    intro emails g _
    exact ⟨[], g, by simp [processEmailLoop], by simp, by simp⟩
  | cons enc_mail rest ih =>
    intro emails g hsz
    have hrest : ∀ p ∈ rest, p.edata ≠ [] →
        identity.Decrypt p.edata = [] ∨ 73 ≤ (identity.Decrypt p.edata).length :=
      fun p hp => hsz p (List.mem_cons_of_mem _ hp)
    have lift : ∀ (ems : List Email) (g1 : Gen),
        (∃ extra g', processEmailLoop E identity rest ems g1 = .ok (ems ++ extra, g')
          ∧ extra.length ≤ rest.length
          ∧ ∀ e ∈ extra, ∃ p ∈ rest, p.edata ≠ [] ∧ identity.Decrypt p.edata ≠ []
              ∧ e.encrypted = p ∧ E.SHA256 e.packet.DA.val = p.delete_hash) →
        ∃ extra g', processEmailLoop E identity rest ems g1 = .ok (ems ++ extra, g')
          ∧ extra.length ≤ (enc_mail :: rest).length
          ∧ ∀ e ∈ extra, ∃ p ∈ enc_mail :: rest, p.edata ≠ []
              ∧ identity.Decrypt p.edata ≠ []
              ∧ e.encrypted = p ∧ E.SHA256 e.packet.DA.val = p.delete_hash := by
      rintro ems g1 ⟨extra, g', hrun, hlen, hall⟩
      refine ⟨extra, g', hrun, by simp; omega, ?_⟩
      intro e he
      obtain ⟨p, hp, hrestp⟩ := hall e he
      exact ⟨p, List.mem_cons_of_mem _ hp, hrestp⟩
    unfold processEmailLoop
    by_cases he : enc_mail.edata.isEmpty = true
    · simp only [he, if_true]
      exact lift emails g (ih emails g hrest)
    · simp only [he, Bool.false_eq_true, if_false]
      have hne : enc_mail.edata ≠ [] := by
        intro h0
        exact he (by simp [h0])
      by_cases hd : (identity.Decrypt enc_mail.edata).isEmpty = true
      · simp only [hd, if_true]
        exact lift emails g (ih emails g hrest)
      · simp only [hd, Bool.false_eq_true, if_false]
        have hdne : identity.Decrypt enc_mail.edata ≠ [] := by
          intro h0
          exact hd (by simp [h0])
        have hlen : 73 ≤ (identity.Decrypt enc_mail.edata).length := by
          rcases hsz enc_mail (List.mem_cons_self _ _) hne with h0 | h0
          · exact absurd h0 hdne
          · exact h0
        obtain ⟨⟨temp_mail, g1⟩, hok⟩ :=
          ofPacket_ok E (identity.Decrypt enc_mail.edata) true g hlen
        simp only [hok]
        by_cases hv : (verify E temp_mail enc_mail.delete_hash).1 = true
        · simp only [hv, Bool.not_true, Bool.false_eq_true, if_false]
          by_cases hem : (setEncrypted (verify E temp_mail enc_mail.delete_hash).2
              enc_mail).empty_ = true
          · simp only [hem, Bool.not_true, Bool.false_eq_true, if_false]
            exact lift emails g1 (ih emails g1 hrest)
          · simp only [hem, Bool.not_false, if_true]
            obtain ⟨extra, g', hrun, hlen', hall⟩ := ih
              (emails ++ [setEncrypted (verify E temp_mail enc_mail.delete_hash).2 enc_mail])
              g1 hrest
            refine ⟨setEncrypted (verify E temp_mail enc_mail.delete_hash).2 enc_mail
              :: extra, g', ?_, by simp; omega, ?_⟩
            · rw [hrun]
              simp
            · intro e hmem
              rcases List.mem_cons.mp hmem with h0 | h0
              · refine ⟨enc_mail, List.mem_cons_self _ _, hne, hdne, ?_, ?_⟩
                · rw [h0]
                  rfl
                · rw [h0]
                  have hv' := hv
                  simp only [verify, decide_eq_true_eq] at hv'
                  exact Subtype.ext hv'.symm
              · obtain ⟨p, hp, hrestp⟩ := hall e h0
                exact ⟨p, List.mem_cons_of_mem _ hp, hrestp⟩
        · simp only [hv, Bool.not_false, if_true]
          exact lift emails g1 (ih emails g1 hrest)

/-- C3: `processEmail` returns, and every email it returns stems from an input
packet whose `edata` and whose decryption are non-empty, carries that packet
as its envelope, and has `SHA256 (DA)` equal to the packet's `delete_hash`;
the result is no longer than the input.  The decryptions are taken to hold
the 72 header bytes and a tag byte, short of which the constructor reads
outside its buffer. -/
theorem processEmail_verified (E : Env) (identity : BoteIdentityPrivate)
    (mail_packets : List EmailEncryptedPacket) (g : Gen)
    (hsize : ∀ p ∈ mail_packets, p.edata ≠ [] →
      identity.Decrypt p.edata = [] ∨ 73 ≤ (identity.Decrypt p.edata).length) :
    ∃ out g', processEmail E identity mail_packets g = .ok (out, g')
      ∧ out.length ≤ mail_packets.length
      ∧ ∀ e ∈ out, ∃ p ∈ mail_packets, p.edata ≠ [] ∧ identity.Decrypt p.edata ≠ []
          ∧ e.encrypted = p ∧ E.SHA256 e.packet.DA.val = p.delete_hash := by
  obtain ⟨extra, g', hrun, hlen, hall⟩ :=
    processEmailLoop_spec E identity mail_packets [] g hsize
  exact ⟨extra, g', by simpa [processEmail] using hrun, hlen, hall⟩

/-- C3, at one concrete packet whose plaintext has 89 bytes. -/
theorem processEmail_verified_witness :
    ∃ out g', processEmail plainEnv toyIdentity [toyPacket] [] = .ok (out, g')
      ∧ out.length ≤ [toyPacket].length
      ∧ ∀ e ∈ out, ∃ p ∈ [toyPacket], p.edata ≠ [] ∧ toyIdentity.Decrypt p.edata ≠ []
          ∧ e.encrypted = p ∧ plainEnv.SHA256 e.packet.DA.val = p.delete_hash :=
  processEmail_verified plainEnv toyIdentity [toyPacket] [] (by
    intro p hp _
    rw [List.mem_singleton.mp hp]
    right
    decide)

/-- The characters `set_message_id_bytes` collects from a string of at least
36 characters all lie inside the string. -/
theorem mesIdChars_inside (E E' : Env) (s : Bytes) (h : 36 ≤ s.length) :
    mesIdChars E s = mesIdChars E' s := by
  unfold mesIdChars
  apply List.filterMap_congr
  intro i hi
  have hi' : i < s.length := by
    have := List.mem_range.mp hi
    omega
  simp [c_str, hi']

/-- C4: for an email with a 36-character Message-ID that is a version-1 UUID,
`compose` keeps that Message-ID instead of generating a UUIDv4, and `mes_id`
is taken from it: character 14 is `1`, not `4`. -/
theorem compose_keeps_version1_message_id (E : Env) (g : Gen) :
    field (compose E uuidV1Mail g).1 (S "Message-ID")
        = S "27d92c57-0503-1dd6-9bb3-fa2d0613855f"
      ∧ (field (compose E uuidV1Mail g).1 (S "Message-ID")).getD 14 0 = 49
      ∧ (compose E uuidV1Mail g).1.packet.mes_id.val
        = S "27d92c5705031dd69bb3fa2d0613855f" := by
  have h : headerValue uuidV1Mail.mail.header (S "Message-ID")
      = S "27d92c57-0503-1dd6-9bb3-fa2d0613855f" := by decide
  have hne : headerValue uuidV1Mail.mail.header (S "Message-ID") ≠ [] := by
    rw [h]
    decide
  rw [compose_of_present E uuidV1Mail g hne]
  refine ⟨h, ?_, ?_⟩
  · show (headerValue uuidV1Mail.mail.header (S "Message-ID")).getD 14 0 = 49
    rw [h]
    decide
  · show (Tag32.ofBytes (mesIdChars E
      (headerValue uuidV1Mail.mail.header (S "Message-ID")))).val = _
    rw [h, mesIdChars_inside E plainEnv _ (by decide)]
    decide

/-- The `length` field after `compose` is the size of `packet.data` reduced
to 16 bits. -/
theorem compose_length (E : Env) (e : Email) (g : Gen) :
    (compose E e g).1.packet.length = (compose E e g).1.packet.data.length % 65536 := by
  rw [compose_eq, compose_of_present E _ _ (set_message_id_present e g)]

/-- C5, as the code has it: after `compose` the packet has `fr_id = 0`,
`fr_count = 1`, `length` equal to the size of `packet.data` modulo `2^16`,
and neither `empty` nor `incomplete` set. -/
theorem compose_packet_fields (E : Env) (e : Email) (g : Gen) :
    (compose E e g).1.packet.fr_id = 0
      ∧ (compose E e g).1.packet.fr_count = 1
      ∧ (compose E e g).1.packet.length = (compose E e g).1.packet.data.length % 65536
      ∧ (compose E e g).1.empty_ = false
      ∧ (compose E e g).1.incomplete_ = false := by
  rw [compose_eq, compose_of_present E _ _ (set_message_id_present e g)]
  exact ⟨rfl, rfl, rfl, rfl, rfl⟩

/-- C5, refuted as stated: a mail with a body of 65536 bytes serialises to
65597 bytes, and `compose` leaves 61 in the 16-bit `length`. -/
theorem compose_length_wraps :
    (compose plainEnv bigMail []).1.packet.length = 61
      ∧ (compose plainEnv bigMail []).1.packet.data.length = 65597
      ∧ (compose plainEnv bigMail []).1.packet.length
          ≠ (compose plainEnv bigMail []).1.packet.data.length := by
  have hm : (set_message_id bigMail []).1.mail
      = { header := [{ name := S "Message-ID",
                       value := S "00000000-0000-4000-8000-000000000000@bote.i2p" }],
          body := List.replicate 65536 65 } := by
    rfl
  have hd : (compose plainEnv bigMail []).1.packet.data.length = 65597 := by
    rw [compose_eq, compose_of_present plainEnv _ _ (set_message_id_present bigMail [])]
    show (plainWrite (set_message_id bigMail []).1.mail).length = 65597
    have hw : ∀ body : Bytes,
        (plainWrite (MimeEntity.mk
          [Field.mk (S "Message-ID") (S "00000000-0000-4000-8000-000000000000@bote.i2p")]
          body)).length = 61 + body.length := by
      intro body
      simp [plainWrite, S]
      omega
    rw [hm, hw, List.length_replicate]
  have hl : (compose plainEnv bigMail []).1.packet.length = 61 := by
    rw [compose_length, hd]
  exact ⟨hl, hd, by rw [hl, hd]; decide⟩

/-- C6: composing twice leaves the Message-ID of composing once, and the
Message-ID after `compose` is the one the email carried, a fresh one being
generated only when it carried none. -/
theorem compose_message_id_idempotent (E : Env) (e : Email) (g : Gen) :
    field (compose E (compose E e g).1 (compose E e g).2).1 (S "Message-ID")
        = field (compose E e g).1 (S "Message-ID")
      ∧ field (compose E e g).1 (S "Message-ID")
        = if field e (S "Message-ID") = [] then (generate_uuid_v4 g).1 ++ S "@bote.i2p"
          else field e (S "Message-ID") := by
  have h1 : (compose E e g).1.mail = (set_message_id e g).1.mail := by
    rw [compose_eq, compose_of_present E _ _ (set_message_id_present e g)]
  have hp : headerValue (compose E e g).1.mail.header (S "Message-ID") ≠ [] := by
    rw [h1]
    exact set_message_id_present e g
  have h2 : (compose E (compose E e g).1 (compose E e g).2).1.mail
      = (compose E e g).1.mail := by
    rw [compose_of_present E _ _ hp]
  refine ⟨?_, ?_⟩
  · show headerValue _ _ = headerValue _ _
    rw [h2]
  · show headerValue (compose E e g).1.mail.header _ = _
    rw [h1, set_message_id_field]
    rfl

/-- C7: `compose` keeps a delete authorization that is not all zero, and puts
32 random bytes in place of one that is. -/
theorem compose_DA (E : Env) (e : Email) (g : Gen) :
    (e.packet.DA ≠ zero_array → (compose E e g).1.packet.DA = e.packet.DA)
      ∧ (e.packet.DA = zero_array →
          (compose E e g).1.packet.DA
            = Tag32.ofBytes (random_cid 32 (set_message_id e g).2).1) := by
  have hda : (set_message_id e g).1.packet.DA = e.packet.DA := by
    unfold set_message_id
    dsimp only
    split_ifs <;> rfl
  rw [compose_eq, compose_of_present E _ _ (set_message_id_present e g)]
  dsimp only
  rw [hda]
  constructor
  · intro h
    simp [h]
  · intro h
    simp [h]

/-- C7, at an email whose delete authorization starts with a 7. -/
theorem compose_DA_witness :
    stampedMail.packet.DA ≠ zero_array
      ∧ (compose plainEnv stampedMail []).1.packet.DA = stampedMail.packet.DA :=
  ⟨by decide, (compose_DA plainEnv stampedMail []).1 (by decide)⟩

/-- C8: `compress (ZLIB)` on the one-byte payload `A` returns true and leaves
`packet.data` as the payload followed by the tag 2, whatever the codec
library does: the tag is not the first byte. -/
theorem compress_zlib_tag_behind_payload (E : Env) :
    (compress E (withPayload [65]) ZLIB).1 = true
      ∧ (compress E (withPayload [65]) ZLIB).2.packet.data = [65, 2] := by
  simp [compress, ZLIB, LZMA, UNCOMPRESSED, zlibCompress, writeInto, withPayload,
    Email.new]

/-- C9: loading a MIME text with two fields called `X-Evil`, a name off the
allow-list, leaves both fields in the header, the second with its value. -/
theorem fromMIME_keeps_forbidden_field :
    plainEnv.allowed (S "X-Evil") = false
      ∧ (fromMIME plainEnv Email.new (S "X-Evil: a\r\nX-Evil: b\r\n\r\nhello") []).1.mail.header
        = [{ name := S "X-Evil", value := [] },
           { name := S "X-Evil", value := S "b" },
           { name := S "Message-ID",
             value := S "00000000-0000-4000-8000-000000000000@bote.i2p" }] := by
  decide

/-- No buffer shorter than the fixed header is turned away: on each of them
the constructor reaches a copy that leaves the buffer. -/
theorem ofPacket_short_faults (E : Env) (data : Bytes) (from_net : Bool) (g : Gen)
    (h : data.length < 72) :
    ∃ offset len, Email.ofPacket E data from_net g
        = .error (Fault.outOfBounds offset len data.length)
      ∧ data.length < offset + len := by
  by_cases h1 : 0 + 1 ≤ data.length
  swap
  · refine ⟨0, 1, ?_, by omega⟩
    simp only [Email.ofPacket, memcpy, h1, if_true, if_false, bind, Except.bind]
  by_cases h2 : 1 + 1 ≤ data.length
  swap
  · refine ⟨1, 1, ?_, by omega⟩
    simp only [Email.ofPacket, memcpy, h1, h2, if_true, if_false, bind, Except.bind]
  by_cases h3 : 2 + 32 ≤ data.length
  swap
  · refine ⟨2, 32, ?_, by omega⟩
    simp only [Email.ofPacket, memcpy, h1, h2, h3, if_true, if_false, bind, Except.bind]
  by_cases h4 : 34 + 32 ≤ data.length
  swap
  · refine ⟨34, 32, ?_, by omega⟩
    simp only [Email.ofPacket, memcpy, h1, h2, h3, h4, if_true, if_false, bind, Except.bind]
  by_cases h5 : 66 + 2 ≤ data.length
  swap
  · refine ⟨66, 2, ?_, by omega⟩
    simp only [Email.ofPacket, memcpy, h1, h2, h3, h4, h5, if_true, if_false, bind, Except.bind]
  by_cases h6 : 68 + 2 ≤ data.length
  swap
  · refine ⟨68, 2, ?_, by omega⟩
    simp only [Email.ofPacket, memcpy, h1, h2, h3, h4, h5, h6, if_true, if_false, bind, Except.bind]
  by_cases h7 : 70 + 2 ≤ data.length
  swap
  · refine ⟨70, 2, ?_, by omega⟩
    simp only [Email.ofPacket, memcpy, h1, h2, h3, h4, h5, h6, h7, if_true, if_false, bind, Except.bind]
  omega

/-- C10: handed a one-byte buffer, the constructor does not reject it: it
goes on to copy the version byte from offset 1, outside the buffer. -/
theorem ofPacket_short_buffer (E : Env) (from_net : Bool) (g : Gen) :
    Email.ofPacket E [85] from_net g = .error (Fault.outOfBounds 1 1 1) := by
  rfl

/-- C11: for an email neither skipped nor encrypted, whenever `encrypt`
returns leaving it unencrypted, `skip` is set; and it does return so, with
`skip` set, when the sender is missing and when the cipher yields no data. -/
theorem encrypt_failure_sets_skip (E : Env) (e : Email)
    (hskip : e.skip_ = false) (henc : e.encrypted_ = false) :
    (∀ e', encrypt E e = .ok e' → e'.encrypted_ = false → e'.skip_ = true)
      ∧ (e.sender = none →
          ∃ e', encrypt E e = .ok e' ∧ e'.encrypted_ = false ∧ e'.skip_ = true)
      ∧ (∀ sender recipient, e.sender = some sender → e.recipient = some recipient →
          sender.Encrypt e.packet.toByte recipient.cryptoPublicKey = [] →
          ∃ e', encrypt E e = .ok e' ∧ e'.encrypted_ = false ∧ e'.skip_ = true) := by
  refine ⟨?_, ?_, ?_⟩
  · intro e' hrun hne
    cases hs : e.sender with
    | none =>
      simp only [encrypt, hskip, henc, setField, hs, Bool.false_eq_true, if_false] at hrun
      cases hrun
      rfl
    | some sender =>
      cases hr : e.recipient with
      | none =>
        simp only [encrypt, hskip, henc, setField, hs, hr, Bool.false_eq_true,
          if_false] at hrun
        cases hrun
      | some recipient =>
        cases hc : (sender.Encrypt e.packet.toByte recipient.cryptoPublicKey).isEmpty with
        | true =>
          simp only [encrypt, hskip, henc, setField, hs, hr, hc, Bool.false_eq_true,
            if_false, if_true] at hrun
          cases hrun
          rfl
        | false =>
          simp only [encrypt, hskip, henc, setField, hs, hr, hc, Bool.false_eq_true,
            if_false] at hrun
          cases hrun
          simp at hne
  · intro hs
    simp only [encrypt, hskip, henc, setField, hs, Bool.false_eq_true, if_false]
    exact ⟨_, rfl, rfl, rfl⟩
  · intro sender recipient hs hr hc
    have hc' : (sender.Encrypt e.packet.toByte recipient.cryptoPublicKey).isEmpty = true := by
      rw [hc]
      rfl
    simp only [encrypt, hskip, henc, setField, hs, hr, hc', Bool.false_eq_true,
      if_false, if_true]
    exact ⟨_, rfl, rfl, rfl⟩

/-- C11, at an email without a sender. -/
theorem encrypt_failure_sets_skip_witness :
    ∃ e', encrypt plainEnv Email.new = .ok e' ∧ e'.encrypted_ = false ∧ e'.skip_ = true :=
  (encrypt_failure_sets_skip plainEnv Email.new rfl rfl).2.1 rfl

/-! ### The POP3 session -/

namespace pop3

/-- Writing to a vector element a value with the same image under `f` leaves
the images of the vector as they were. -/
theorem map_set_of_get {α β : Type} (f : α → β) (l : List α) (i : Nat) (a b : α)
    (h : l.get? i = some a) (hf : f b = f a) : (l.set i b).map f = l.map f := by
  induction l generalizing i with
  | nil => rfl
  | cons x xs ih =>
    cases i with
    | zero =>
      have hx : x = a := by simpa using h
      simp [hx, hf]
    | succ n =>
      have hn : xs.get? n = some a := by simpa using h
      simp [ih n hn]

/-- Sending a reply removes no file. -/
theorem reply_removed (s : POP3) (data : List Piece) : (reply s data).removed = s.removed :=
  rfl

/-- Handler `USER` removes no file. -/
theorem USER_removed (H : Host) (s : POP3) (request : Bytes) :
    (USER H s request).removed = s.removed := by
  unfold USER
  dsimp only
  repeat' (first | split | rfl)

/-- Handler `PASS` removes no file. -/
theorem PASS_removed (E : Env) (H : Host) (s : POP3) (request : Bytes) :
    (PASS E H s request).removed = s.removed := by
  unfold PASS
  dsimp only
  repeat' (first | split | rfl)

/-- Handler `STAT` removes no file. -/
theorem STAT_removed (E : Env) (s : POP3) : (STAT E s).removed = s.removed := by
  unfold STAT
  dsimp only
  repeat' (first | split | rfl)

/-- Handler `LIST` removes no file. -/
theorem LIST_removed (E : Env) (s : POP3) (request : Bytes) :
    (LIST E s request).removed = s.removed := by
  unfold LIST
  dsimp only
  repeat' (first | split | rfl)

/-- Handler `RETR` removes no file. -/
theorem RETR_removed (E : Env) (s : POP3) (request : Bytes) :
    (RETR E s request).removed = s.removed := by
  unfold RETR
  dsimp only
  repeat' (first | split | rfl)

/-- Handler `DELE` removes no file, keeps the session state, and changes the
emails of the session in their deletion marks at most. -/
theorem DELE_effect (s : POP3) (request : Bytes) :
    (DELE s request).removed = s.removed
      ∧ (DELE s request).session_state = s.session_state
      ∧ ((DELE s request).emails.map fun e => { e with deleted_ := false })
          = s.emails.map fun e => { e with deleted_ := false } := by
  unfold DELE
  dsimp only
  split
  · exact ⟨rfl, rfl, rfl⟩
  · split
    · exact ⟨rfl, rfl, rfl⟩
    · split
      · exact ⟨rfl, rfl, rfl⟩
      · split
        · exact ⟨rfl, rfl, rfl⟩
        · split
          · exact ⟨rfl, rfl, rfl⟩
          · rename_i email hget
            split
            · exact ⟨rfl, rfl, rfl⟩
            · refine ⟨rfl, rfl, ?_⟩
              have hkey := @map_set_of_get Email Email
                (fun e => { e with deleted_ := false }) s.emails _ email
                { email with deleted_ := true } hget rfl
              exact hkey

/-- Every handler but `QUIT` removes no file. -/
theorem respond_removed (E : Env) (H : Host) (s : POP3) (request : Bytes)
    (h : request.take 4 ≠ S "QUIT") : (respond E H s request).removed = s.removed := by
  unfold respond
  by_cases hc : request.take 4 = S "USER"
  · rw [if_pos hc]
    exact USER_removed H s request
  rw [if_neg hc]
  clear hc
  by_cases hc : request.take 4 = S "PASS"
  · rw [if_pos hc]
    exact PASS_removed E H s request
  rw [if_neg hc]
  clear hc
  by_cases hc : request.take 4 = S "STAT"
  · rw [if_pos hc]
    exact STAT_removed E s
  rw [if_neg hc]
  clear hc
  by_cases hc : request.take 4 = S "LIST"
  · rw [if_pos hc]
    exact LIST_removed E s request
  rw [if_neg hc]
  clear hc
  by_cases hc : request.take 4 = S "RETR"
  · rw [if_pos hc]
    exact RETR_removed E s request
  rw [if_neg hc]
  clear hc
  by_cases hc : request.take 4 = S "DELE"
  · rw [if_pos hc]
    exact (DELE_effect s request).1
  rw [if_neg hc]
  clear hc
  by_cases hc : request.take 4 = S "NOOP"
  · rw [if_pos hc]
    unfold NOOP
    split <;> rfl
  rw [if_neg hc]
  clear hc
  by_cases hc : request.take 4 = S "RSET"
  · rw [if_pos hc]
    unfold RSET
    split <;> rfl
  rw [if_neg hc]
  clear hc
  by_cases hc : request.take 4 = S "QUIT"
  · rw [if_pos hc]
    exact absurd hc h
  rw [if_neg hc]
  clear hc
  by_cases hc : request.take 4 = S "CAPA"
  · rw [if_pos hc]
    rfl
  rw [if_neg hc]
  clear hc
  by_cases hc : request.take 4 = S "APOP"
  · rw [if_pos hc]
    unfold APOP
    split <;> rfl
  rw [if_neg hc]
  clear hc
  by_cases hc : request.take 3 = S "TOP"
  · rw [if_pos hc]
    unfold TOP
    split <;> rfl
  rw [if_neg hc]
  clear hc
  by_cases hc : request.take 4 = S "UIDL"
  · rw [if_pos hc]
    unfold UIDL
    split <;> rfl
  rw [if_neg hc]
  clear hc
  rfl

/-- A run of requests without `QUIT` removes no file. -/
theorem serve_removed (E : Env) (H : Host) (requests : List Bytes) :
    ∀ s : POP3, (∀ r ∈ requests, r.take 4 ≠ S "QUIT") →
      (serve E H s requests).removed = s.removed := by
  induction requests with
  | nil =>
    intro s _
    rfl
  | cons request rest ih =>
    intro s h
    unfold serve
    split
    · rw [ih (respond E H s request) fun r hr => h r (List.mem_cons_of_mem _ hr)]
      exact respond_removed E H s request (h request (List.mem_cons_self _ _))
    · rfl

end pop3

/-- C17: whatever the state of the session, a sequence of requests none of
which is dispatched to `QUIT` hands no path to `pbote::fs::Remove`, from the
greeting on or from any later point; and `DELE` changes nothing of the
session but deletion marks and the replies sent. -/
theorem pop3_no_removal_without_quit (E : Env) (H : pop3.Host) (s : pop3.POP3)
    (requests : List Bytes) (h : ∀ r ∈ requests, r.take 4 ≠ S "QUIT") :
    (pop3.serve E H s requests).removed = s.removed
      ∧ (pop3.process E H s requests).removed = s.removed
      ∧ ∀ request, (pop3.DELE s request).removed = s.removed
          ∧ (pop3.DELE s request).session_state = s.session_state
          ∧ ((pop3.DELE s request).emails.map fun e => { e with deleted_ := false })
              = s.emails.map fun e => { e with deleted_ := false } := by
  refine ⟨pop3.serve_removed E H requests s h, ?_, fun request => pop3.DELE_effect s request⟩
  unfold pop3.process
  rw [pop3.serve_removed E H requests _ h]
  rfl

/-- C17, on a session that logs in, marks the first mail and lists. -/
theorem pop3_no_removal_without_quit_witness :
    (pop3.process plainEnv toyHost (pop3.POP3.new [])
        (toyLogin ++ [S "DELE 1\r\n", S "LIST\r\n"])).removed = [] :=
  (pop3_no_removal_without_quit plainEnv toyHost (pop3.POP3.new [])
    (toyLogin ++ [S "DELE 1\r\n", S "LIST\r\n"]) (by decide)).2.1

/-- C18: `QUIT` in state `TRANSACTION` hands to `pbote::fs::Remove` the files
of the emails marked deleted, each of them and nothing else; in any other
state it removes nothing; the state afterwards is `STATE_QUIT`; and a request
starting with `QUIT` is handled so. -/
theorem pop3_quit_removes_marked (E : Env) (H : pop3.Host) (s : pop3.POP3) :
    (pop3.QUIT s).removed
        = s.removed ++ (if s.session_state = pop3.State.STATE_TRANSACTION
            then pop3.marked s.emails else [])
      ∧ (∀ path, path ∈ pop3.marked s.emails
          ↔ ∃ email ∈ s.emails, email.deleted_ = true ∧ email.filename = path)
      ∧ (pop3.QUIT s).session_state = pop3.State.STATE_QUIT
      ∧ (pop3.QUIT s).processing = false
      ∧ ∀ request, request.take 4 = S "QUIT" → pop3.respond E H s request = pop3.QUIT s := by
  refine ⟨?_, ?_, ?_, ?_, ?_⟩
  · rfl
  · intro path
    simp only [pop3.marked, List.mem_map, List.mem_filter]
    constructor
    · rintro ⟨email, ⟨hm, hd⟩, hf⟩
      exact ⟨email, hm, hd, hf⟩
    · rintro ⟨email, hm, hd, hf⟩
      exact ⟨email, ⟨hm, hd⟩, hf⟩
  · rfl
  · rfl
  · intro request hq
    have h1 : S "QUIT" ≠ S "USER" := by decide
    have h2 : S "QUIT" ≠ S "PASS" := by decide
    have h3 : S "QUIT" ≠ S "STAT" := by decide
    have h4 : S "QUIT" ≠ S "LIST" := by decide
    have h5 : S "QUIT" ≠ S "RETR" := by decide
    have h6 : S "QUIT" ≠ S "DELE" := by decide
    have h7 : S "QUIT" ≠ S "NOOP" := by decide
    have h8 : S "QUIT" ≠ S "RSET" := by decide
    simp only [pop3.respond, hq, h1, h2, h3, h4, h5, h6, h7, h8, if_false, if_true]

/-- C19: `RSET` leaves the emails of the session as they were, marks
included: after `DELE 1; RSET` the first mail is still marked deleted, and
`DELE 1; RSET; QUIT` removes its file. -/
theorem pop3_rset_keeps_marks :
    (∀ s : pop3.POP3, (pop3.RSET s).emails = s.emails)
      ∧ ((pop3.process plainEnv toyHost (pop3.POP3.new [])
            (toyLogin ++ [S "DELE 1\r\n", S "RSET\r\n"])).emails.map fun e => e.deleted_)
          = [true, false]
      ∧ (pop3.process plainEnv toyHost (pop3.POP3.new [])
            (toyLogin ++ [S "DELE 1\r\n", S "RSET\r\n", S "QUIT\r\n"])).removed
          = [S "inbox/1.mail"] := by
  refine ⟨?_, ?_, ?_⟩
  · intro s
    unfold pop3.RSET
    split <;> rfl
  · rfl
  · rfl

set_option maxRecDepth 100000 in
/-- C20: with the first of two mails marked deleted, `STAT` reports two
messages and 147 octets, the sizes of both mails, 73 and 74, added up. -/
theorem pop3_stat_counts_deleted :
    (pop3.process plainEnv toyHost (pop3.POP3.new [])
        (toyLogin ++ [S "DELE 1\r\n", S "STAT\r\n"])).sent.getLast?
        = some [pop3.Piece.format pop3.Template.OK_STAT
            [pop3.Arg.num 2, pop3.Arg.num 147]]
      ∧ ((pop3.process plainEnv toyHost (pop3.POP3.new [])
            (toyLogin ++ [S "DELE 1\r\n", S "STAT\r\n"])).emails.map
          fun e => (e.deleted_, (bytes plainEnv e).1.length))
        = [(true, 73), (false, 74)] := by
  constructor
  · rfl
  · rfl

/-! ### The check round -/

/-- What `compose` leaves of an email besides the packet: file name and
envelope are kept, a Message-ID is present, the fragment fields say one
complete mail. -/
theorem compose_facts (E : Env) (e : Email) (g : Gen) :
    (compose E e g).1.filename = e.filename
      ∧ headerValue (compose E e g).1.mail.header (S "Message-ID") ≠ []
      ∧ (compose E e g).1.packet.fr_id = 0
      ∧ (compose E e g).1.packet.fr_count = 1
      ∧ (compose E e g).1.incomplete_ = false
      ∧ (compose E e g).1.empty_ = false := by
  have hf : (set_message_id e g).1.filename = e.filename := by
    unfold set_message_id
    dsimp only
    split <;> rfl
  rw [compose_eq, compose_of_present E _ _ (set_message_id_present e g)]
  exact ⟨hf, set_message_id_present e g, rfl, rfl, rfl, rfl⟩

/-- A buffer of at least 73 bytes is parsed into an email obtained by
`fromMIME` from one without a file name. -/
theorem ofPacket_eq (E : Env) (data : Bytes) (from_net : Bool) (g : Gen)
    (h : 73 ≤ data.length) :
    ∃ e1 : Email, e1.filename = []
      ∧ Email.ofPacket E data from_net g = .ok (fromMIME E e1 e1.packet.data g) := by
  have hd : ∃ c rest, data.drop 72 = c :: rest := by
    cases hx : data.drop 72 with
    | nil =>
      have := congrArg List.length hx
      simp at this
      omega
    | cons c rest => exact ⟨c, rest, rfl⟩
  obtain ⟨c, rest, hcr⟩ := hd
  have h1 : 0 + 1 ≤ data.length := by omega
  have h2 : 1 + 1 ≤ data.length := by omega
  have h3 : 2 + 32 ≤ data.length := by omega
  have h4 : 34 + 32 ≤ data.length := by omega
  have h5 : 66 + 2 ≤ data.length := by omega
  have h6 : 68 + 2 ≤ data.length := by omega
  have h7 : 70 + 2 ≤ data.length := by omega
  simp only [Email.ofPacket, memcpy, h1, h2, h3, h4, h5, h6, h7, if_true, bind,
    Except.bind, hcr, decompress, pure, Except.pure]
  split_ifs <;> exact ⟨_, rfl, rfl⟩

/-- The email the constructor builds has no file name, has a Message-ID, and
says one complete mail, whatever the header of the packet declared. -/
theorem ofPacket_facts (E : Env) (data : Bytes) (from_net : Bool) (g : Gen)
    (h : 73 ≤ data.length) (e : Email) (g1 : Gen)
    (hrun : Email.ofPacket E data from_net g = .ok (e, g1)) :
    e.filename = [] ∧ headerValue e.mail.header (S "Message-ID") ≠ []
      ∧ e.packet.fr_id = 0 ∧ e.packet.fr_count = 1 ∧ e.incomplete_ = false
      ∧ e.empty_ = false := by
  obtain ⟨e1, hfn, heq⟩ := ofPacket_eq E data from_net g h
  rw [heq] at hrun
  have he : e = (fromMIME E e1 e1.packet.data g).1 := by
    cases hrun
    rfl
  rw [he]
  unfold fromMIME
  dsimp only
  have hc := compose_facts E
    { e1 with
      mail := { E.load e1.packet.data with
        header := blankForbidden E ((E.load e1.packet.data).header.map Field.name)
          (E.load e1.packet.data).header }
      empty_ := false
      packet := { e1.packet with data := e1.packet.data } } g
  exact ⟨hc.1.trans hfn, hc.2⟩

/-- A property the constructor gives every email, kept by `setEncrypted`,
holds of every email `processEmail` adds. -/
theorem processEmailLoop_all (E : Env) (identity : BoteIdentityPrivate)
    (P : Email → Prop)
    (hP : ∀ (data : Bytes) (g : Gen) (e : Email) (g1 : Gen) (p : EmailEncryptedPacket),
      73 ≤ data.length → Email.ofPacket E data true g = .ok (e, g1) →
      P (setEncrypted e p)) :
    ∀ (packets : List EmailEncryptedPacket) (emails : List Email) (g : Gen)
      (out : List Email) (g' : Gen),
      (∀ p ∈ packets, p.edata ≠ [] →
        identity.Decrypt p.edata = [] ∨ 73 ≤ (identity.Decrypt p.edata).length) →
      processEmailLoop E identity packets emails g = .ok (out, g') →
      (∀ e ∈ emails, P e) → ∀ e ∈ out, P e := by
  intro packets
  induction packets with
  | nil =>
    intro emails g out g' _ hrun hem
    simp only [processEmailLoop] at hrun
    cases hrun
    exact hem
  | cons enc_mail rest ih =>
    intro emails g out g' hsz hrun hem
    have hrest : ∀ p ∈ rest, p.edata ≠ [] →
        identity.Decrypt p.edata = [] ∨ 73 ≤ (identity.Decrypt p.edata).length :=
      fun p hp => hsz p (List.mem_cons_of_mem _ hp)
    unfold processEmailLoop at hrun
    by_cases he : enc_mail.edata.isEmpty = true
    · simp only [he, if_true] at hrun
      exact ih emails g out g' hrest hrun hem
    · simp only [he, Bool.false_eq_true, if_false] at hrun
      have hne : enc_mail.edata ≠ [] := by
        intro h0
        exact he (by simp [h0])
      by_cases hd : (identity.Decrypt enc_mail.edata).isEmpty = true
      · simp only [hd, if_true] at hrun
        exact ih emails g out g' hrest hrun hem
      · simp only [hd, Bool.false_eq_true, if_false] at hrun
        have hdne : identity.Decrypt enc_mail.edata ≠ [] := by
          intro h0
          exact hd (by simp [h0])
        have hlen : 73 ≤ (identity.Decrypt enc_mail.edata).length := by
          rcases hsz enc_mail (List.mem_cons_self _ _) hne with h0 | h0
          · exact absurd h0 hdne
          · exact h0
        obtain ⟨⟨temp_mail, g1⟩, hok⟩ :=
          ofPacket_ok E (identity.Decrypt enc_mail.edata) true g hlen
        simp only [hok] at hrun
        by_cases hv : (verify E temp_mail enc_mail.delete_hash).1 = true
        · simp only [hv, Bool.not_true, Bool.false_eq_true, if_false] at hrun
          by_cases hem' : (setEncrypted (verify E temp_mail enc_mail.delete_hash).2
              enc_mail).empty_ = true
          · simp only [hem', Bool.not_true, Bool.false_eq_true, if_false] at hrun
            exact ih emails g1 out g' hrest hrun hem
          · simp only [hem', Bool.not_false, if_true] at hrun
            refine ih _ g1 out g' hrest hrun ?_
            intro e hmem
            rcases List.mem_append.mp hmem with h0 | h0
            · exact hem e h0
            · rw [List.mem_singleton.mp h0]
              exact hP _ g temp_mail g1 enc_mail hlen hok
        · simp only [hv, Bool.not_false, if_true] at hrun
          exact ih emails g1 out g' hrest hrun hem

/-- Saving into `inbox` an email that has no file name and has a Message-ID:
the file is named after the Message-ID, and nothing is written when that file
exists or cannot be opened. -/
theorem save_inbox (E : Env) (F : Fs) (mail : Email) (disk : Disk) (g : Gen)
    (hfn : mail.filename = [])
    (hm : headerValue mail.mail.header (S "Message-ID") ≠ []) :
    save E F mail (S "inbox") disk g
      = if diskExists disk
            (F.DataDirPath (S "inbox") (field mail (S "Message-ID") ++ S ".mail"))
          || !F.canOpen
            (F.DataDirPath (S "inbox") (field mail (S "Message-ID") ++ S ".mail"))
        then (false, mail, disk, g)
        else (true, (bytes E mail).2,
          diskWrite disk
            (F.DataDirPath (S "inbox") (field mail (S "Message-ID") ++ S ".mail"))
            (E.write mail.mail), g) := by
  have hdir : (!(S "inbox").isEmpty && mail.filename.isEmpty) = true := by
    rw [hfn]
    rfl
  unfold save
  rw [if_pos hdir, get_message_id_of_present E mail g hm]
  dsimp only [field, saveTo]
  by_cases hex : diskExists disk
      (F.DataDirPath (S "inbox") (headerValue mail.mail.header (S "Message-ID") ++ S ".mail"))
      = true
  · simp [hex]
  · by_cases hop : F.canOpen
        (F.DataDirPath (S "inbox")
          (headerValue mail.mail.header (S "Message-ID") ++ S ".mail")) = true
    · simp [hex, hop, bytes]
    · simp [hex, hop]

/-- C15, as the code has it: every email a check round emits has no file name
and has a Message-ID, and saving it into `inbox` writes the file
`inbox/<Message-ID>.mail`, or nothing when that file exists or cannot be
opened. -/
theorem inbox_file_named_by_message_id (E : Env) (F : Fs)
    (identity : BoteIdentityPrivate) (mail_packets : List EmailEncryptedPacket)
    (g : Gen)
    (hsize : ∀ p ∈ mail_packets, p.edata ≠ [] →
      identity.Decrypt p.edata = [] ∨ 73 ≤ (identity.Decrypt p.edata).length) :
    ∃ out g', processEmail E identity mail_packets g = .ok (out, g')
      ∧ ∀ mail ∈ out, ∀ (disk : Disk) (g2 : Gen),
          save E F mail (S "inbox") disk g2
            = if diskExists disk
                  (F.DataDirPath (S "inbox") (field mail (S "Message-ID") ++ S ".mail"))
                || !F.canOpen
                  (F.DataDirPath (S "inbox") (field mail (S "Message-ID") ++ S ".mail"))
              then (false, mail, disk, g2)
              else (true, (bytes E mail).2,
                diskWrite disk
                  (F.DataDirPath (S "inbox") (field mail (S "Message-ID") ++ S ".mail"))
                  (E.write mail.mail), g2) := by
  obtain ⟨extra, g', hrun, _, _⟩ :=
    processEmailLoop_spec E identity mail_packets [] g hsize
  have hrun' : processEmailLoop E identity mail_packets [] g = .ok (extra, g') := by
    simpa using hrun
  refine ⟨extra, g', hrun', ?_⟩
  intro mail hmem disk g2
  have hall := processEmailLoop_all E identity
    (fun e => e.filename = [] ∧ headerValue e.mail.header (S "Message-ID") ≠ [])
    (fun data g0 e g1 p hlen hok =>
      ⟨(ofPacket_facts E data true g0 hlen e g1 hok).1,
       (ofPacket_facts E data true g0 hlen e g1 hok).2.1⟩)
    mail_packets [] g extra g' hsize hrun' (by simp) mail hmem
  exact save_inbox E F mail disk g2 hall.1 hall.2

/-- C15, at one concrete packet. -/
theorem inbox_file_named_by_message_id_witness :
    ∃ out g', processEmail plainEnv toyIdentity [toyPacket] [] = .ok (out, g')
      ∧ ∀ mail ∈ out, ∀ (disk : Disk) (g2 : Gen),
          save plainEnv plainFs mail (S "inbox") disk g2
            = if diskExists disk
                  (plainFs.DataDirPath (S "inbox")
                    (field mail (S "Message-ID") ++ S ".mail"))
                || !plainFs.canOpen
                  (plainFs.DataDirPath (S "inbox")
                    (field mail (S "Message-ID") ++ S ".mail"))
              then (false, mail, disk, g2)
              else (true, (bytes plainEnv mail).2,
                diskWrite disk
                  (plainFs.DataDirPath (S "inbox")
                    (field mail (S "Message-ID") ++ S ".mail"))
                  (plainEnv.write mail.mail), g2) :=
  inbox_file_named_by_message_id plainEnv plainFs toyIdentity [toyPacket] [] (by
    intro p hp _
    rw [List.mem_singleton.mp hp]
    right
    decide)

/-- C15, refuted as stated: the check round on one packet writes the file
`inbox/00000000-0000-4000-8000-000000000000@bote.i2p.mail`, named after the
Message-ID, which is not the path formed from the DHT key of the packet. -/
theorem inbox_file_not_named_by_key :
    pathsAfterCheck [toyPacket]
        = [S "inbox/00000000-0000-4000-8000-000000000000@bote.i2p.mail"]
      ∧ plainFs.DataDirPath (S "inbox") (plainEnv.ToBase64 toyPacket.key.val ++ S ".mail")
          ∉ pathsAfterCheck [toyPacket] := by
  have h : pathsAfterCheck [toyPacket]
      = [S "inbox/00000000-0000-4000-8000-000000000000@bote.i2p.mail"] := by rfl
  refine ⟨h, ?_⟩
  rw [h]
  decide

/-- C16: a packet that verifies and whose header declares fragment 0 of 2 is
returned by `processEmail` as one complete mail, with `incomplete` false and
fragment fields 0 of 1, and the check round writes it to the inbox. -/
theorem processEmail_returns_lone_fragment :
    u16 ((toyFragmentPlaintext.drop 66).take 2) true = 0
      ∧ u16 ((toyFragmentPlaintext.drop 68).take 2) true = 2
      ∧ fragmentsAfterProcess [toyFragment] = [(false, 0, 1)]
      ∧ pathsAfterCheck [toyFragment]
          = [S "inbox/00000000-0000-4000-8000-000000000000@bote.i2p.mail"] := by
  refine ⟨?_, ?_, ?_, ?_⟩
  · decide
  · decide
  · rfl
  · rfl

/-! ### The send round -/

/-- A loop over the out-box whose body succeeds on every email succeeds. -/
theorem eachEmail_ok (step : Nat → Email → Except Fault (Email × List Event)) :
    ∀ (l : List Email) (k : Nat),
      (∀ j, ∀ e ∈ l, ∃ r, step j e = .ok r) → ∃ r, eachEmail step k l = .ok r := by
  intro l
  induction l with
  | nil =>
    intro k _
    exact ⟨_, rfl⟩
  | cons e rest ih =>
    intro k h
    obtain ⟨⟨e1, ev⟩, h1⟩ := h k e (List.mem_cons_self _ _)
    obtain ⟨⟨rest1, evs⟩, h2⟩ := ih (k + 1) fun j x hx => h j x (List.mem_cons_of_mem _ hx)
    refine ⟨(e1 :: rest1, ev ++ evs), ?_⟩
    simp only [eachEmail, h1, h2]

/-- After a loop over the out-box, the email at a position is what the body
made of the email that stood there, and the calls of that body are in the
trace. -/
theorem eachEmail_get (step : Nat → Email → Except Fault (Email × List Event)) :
    ∀ (l : List Email) (k : Nat) (l1 : List Email) (evs : List Event),
      eachEmail step k l = .ok (l1, evs) →
      ∀ (i : Nat) (e : Email), l[i]? = some e →
        ∃ e1 ev, step (k + i) e = .ok (e1, ev) ∧ l1[i]? = some e1 ∧ ∀ x ∈ ev, x ∈ evs := by
  intro l
  induction l with
  | nil =>
    intro k l1 evs _ i e hi
    simp at hi
  | cons e0 rest ih =>
    intro k l1 evs hrun i e hi
    unfold eachEmail at hrun
    cases h1 : step k e0 with
    | error f =>
      rw [h1] at hrun
      cases hrun
    | ok r1 =>
      obtain ⟨e1, ev⟩ := r1
      rw [h1] at hrun
      dsimp only at hrun
      cases h2 : eachEmail step (k + 1) rest with
      | error f =>
        rw [h2] at hrun
        cases hrun
      | ok r2 =>
        obtain ⟨rest1, evs1⟩ := r2
        rw [h2] at hrun
        dsimp only at hrun
        cases hrun
        cases i with
        | zero =>
          have he : e0 = e := by simpa using hi
          subst he
          exact ⟨e1, ev, h1, by simp, fun x hx => List.mem_append_left _ hx⟩
        | succ n =>
          have hn : rest[n]? = some e := by simpa using hi
          obtain ⟨e2, ev2, hs, hg, hm⟩ := ih (k + 1) rest1 evs1 h2 n e hn
          refine ⟨e2, ev2, ?_, by simpa using hg, fun x hx => List.mem_append_right _ (hm x hx)⟩
          have hk : k + (n + 1) = k + 1 + n := by omega
          rw [hk]
          exact hs

/-- Every call in the trace of a loop over the out-box was issued by the body
on the email at some position. -/
theorem eachEmail_events (step : Nat → Email → Except Fault (Email × List Event)) :
    ∀ (l : List Email) (k : Nat) (l1 : List Email) (evs : List Event),
      eachEmail step k l = .ok (l1, evs) →
      ∀ x ∈ evs, ∃ (i : Nat) (e e1 : Email) (ev : List Event),
        l[i]? = some e ∧ step (k + i) e = .ok (e1, ev) ∧ l1[i]? = some e1 ∧ x ∈ ev := by
  intro l
  induction l with
  | nil =>
    intro k l1 evs hrun x hx
    simp only [eachEmail] at hrun
    cases hrun
    simp at hx
  | cons e0 rest ih =>
    intro k l1 evs hrun x hx
    unfold eachEmail at hrun
    cases h1 : step k e0 with
    | error f =>
      rw [h1] at hrun
      cases hrun
    | ok r1 =>
      obtain ⟨e1, ev⟩ := r1
      rw [h1] at hrun
      dsimp only at hrun
      cases h2 : eachEmail step (k + 1) rest with
      | error f =>
        rw [h2] at hrun
        cases hrun
      | ok r2 =>
        obtain ⟨rest1, evs1⟩ := r2
        rw [h2] at hrun
        dsimp only at hrun
        cases hrun
        rcases List.mem_append.mp hx with hx1 | hx1
        · exact ⟨0, e0, e1, ev, by simp, h1, by simp, hx1⟩
        · obtain ⟨i, e, e2, ev2, hi, hs, hg, hm⟩ := ih (k + 1) rest1 evs1 h2 x hx1
          refine ⟨i + 1, e, e2, ev2, by simpa using hi, ?_, by simpa using hg, hm⟩
          have hk : k + (i + 1) = k + 1 + i := by omega
          rw [hk]
          exact hs

/-- What `encrypt` never touches: recipient, sender, file name and plaintext
packet. -/
theorem encrypt_keeps (E : Env) (e e1 : Email) (h : encrypt E e = .ok e1) :
    e1.recipient = e.recipient ∧ e1.sender = e.sender ∧ e1.filename = e.filename
      ∧ e1.packet = e.packet := by
  cases hsk : e.skip_ with
  | true =>
    simp only [encrypt, hsk, if_true] at h
    cases h
    exact ⟨rfl, rfl, rfl, rfl⟩
  | false =>
    cases hen : e.encrypted_ with
    | true =>
      simp only [encrypt, hsk, hen, Bool.false_eq_true, if_false, if_true] at h
      cases h
      exact ⟨rfl, rfl, rfl, rfl⟩
    | false =>
      cases hs : e.sender with
      | none =>
        simp only [encrypt, hsk, hen, setField, hs, Bool.false_eq_true, if_false] at h
        cases h
        exact ⟨rfl, rfl, rfl, rfl⟩
      | some sender =>
        cases hr : e.recipient with
        | none =>
          simp only [encrypt, hsk, hen, setField, hs, hr, Bool.false_eq_true,
            if_false] at h
          cases h
        | some recipient =>
          cases hc : (sender.Encrypt e.packet.toByte recipient.cryptoPublicKey).isEmpty with
          | true =>
            simp only [encrypt, hsk, hen, setField, hs, hr, hc, Bool.false_eq_true,
              if_false, if_true] at h
            cases h
            exact ⟨rfl, rfl, rfl, rfl⟩
          | false =>
            simp only [encrypt, hsk, hen, setField, hs, hr, hc, Bool.false_eq_true,
              if_false] at h
            cases h
            exact ⟨rfl, rfl, rfl, rfl⟩

/-- An email that has a recipient is encrypted without a fault. -/
theorem encrypt_total (E : Env) (e : Email) (recipient : BoteIdentityPublic)
    (hr : e.recipient = some recipient) : ∃ e1, encrypt E e = .ok e1 := by
  cases hsk : e.skip_ with
  | true =>
    simp only [encrypt, hsk, if_true]
    exact ⟨_, rfl⟩
  | false =>
    cases hen : e.encrypted_ with
    | true =>
      simp only [encrypt, hsk, hen, Bool.false_eq_true, if_false, if_true]
      exact ⟨_, rfl⟩
    | false =>
      cases hs : e.sender with
      | none =>
        simp only [encrypt, hsk, hen, setField, hs, Bool.false_eq_true, if_false]
        exact ⟨_, rfl⟩
      | some sender =>
        cases hc : (sender.Encrypt e.packet.toByte recipient.cryptoPublicKey).isEmpty with
        | true =>
          simp only [encrypt, hsk, hen, setField, hs, hr, hc, Bool.false_eq_true,
            if_false, if_true]
          exact ⟨_, rfl⟩
        | false =>
          simp only [encrypt, hsk, hen, setField, hs, hr, hc, Bool.false_eq_true,
            if_false]
          exact ⟨_, rfl⟩

/-- An email already encrypted and not skipped comes out of `encrypt` as it
went in. -/
theorem encrypt_again (E : Env) (e : Email) (hsk : e.skip_ = false)
    (hen : e.encrypted_ = true) : encrypt E e = .ok e := by
  simp only [encrypt, hsk, hen, Bool.false_eq_true, if_false, if_true]

/-- The body of the first loop on one email: what it keeps, which calls it
issues, and when the email comes out skipped. -/
theorem storeEmailStep_spec (E : Env) (nodes : List Bytes) (i : Nat) (e e1 : Email)
    (ev : List Event) (h : storeEmailStep E nodes i e = .ok (e1, ev)) :
    e1.recipient = e.recipient ∧ e1.filename = e.filename
      ∧ (∀ x ∈ ev, (∃ key pkt, x = Event.storeEmail i key pkt) ∨ ∃ d, x = Event.safe d)
      ∧ (e1.skip_ = false →
          nodes ≠ [] ∧ ∃ e2, e.skip_ = false ∧ encrypt E e = .ok e2 ∧ e1 = e2
            ∧ Event.storeEmail i e2.encrypted.key (storeRequest e2.encrypted.toByte) ∈ ev)
      ∧ ((∃ key pkt, Event.storeEmail i key pkt ∈ ev) → nodes = [] →
          ∃ e2, e.skip_ = false ∧ encrypt E e = .ok e2 ∧ e2.skip_ = false
            ∧ e1 = { e2 with skip_ := true }) := by
  cases hsk : e.skip_ with
  | true =>
    simp only [storeEmailStep, hsk, if_true] at h
    cases h
    refine ⟨rfl, rfl, ?_, ?_, ?_⟩
    · intro x hx
      simp at hx
    · intro h0
      rw [hsk] at h0
      cases h0
    · rintro ⟨key, pkt, hx⟩
      simp at hx
  | false =>
    cases hen : encrypt E e with
    | error f =>
      simp only [storeEmailStep, hsk, hen, Bool.false_eq_true, if_false] at h
      cases h
    | ok e2 =>
      have hk := encrypt_keeps E e e2 hen
      cases hsk2 : e2.skip_ with
      | true =>
        simp only [storeEmailStep, hsk, hen, hsk2, Bool.false_eq_true, if_false,
          if_true] at h
        cases h
        refine ⟨hk.1, hk.2.2.1, ?_, ?_, ?_⟩
        · intro x hx
          simp at hx
        · intro h0
          rw [hsk2] at h0
          cases h0
        · rintro ⟨key, pkt, hx⟩
          simp at hx
      | false =>
        cases hn : nodes.isEmpty with
        | true =>
          simp only [storeEmailStep, hsk, hen, hsk2, hn, Bool.false_eq_true, if_false,
            if_true] at h
          cases h
          refine ⟨hk.1, hk.2.2.1, ?_, ?_, ?_⟩
          · intro x hx
            left
            exact ⟨_, _, List.mem_singleton.mp hx⟩
          · intro h0
            cases h0
          · intro _ _
            exact ⟨e2, rfl, rfl, hsk2, rfl⟩
        | false =>
          simp only [storeEmailStep, hsk, hen, hsk2, hn, Bool.false_eq_true,
            if_false] at h
          cases h
          have hnn : nodes ≠ [] := by
            intro h0
            rw [h0] at hn
            cases hn
          refine ⟨hk.1, hk.2.2.1, ?_, ?_, ?_⟩
          · intro x hx
            rcases List.mem_cons.mp hx with h0 | h0
            · left
              exact ⟨_, _, h0⟩
            · right
              exact ⟨_, List.mem_singleton.mp h0⟩
          · intro _
            exact ⟨hnn, _, rfl, rfl, rfl, List.mem_cons_self _ _⟩
          · intro _ h0
            exact absurd h0 hnn

/-- The body of the second loop on one email: what it keeps, which calls it
issues, and when the email comes out skipped. -/
theorem storeIndexStep_spec (now : Nat) (nodes : List Bytes) (i : Nat) (e e1 : Email)
    (ev : List Event) (h : storeIndexStep now nodes i e = .ok (e1, ev)) :
    e1.filename = e.filename
      ∧ (∀ x ∈ ev, (∃ hash pkt, x = Event.storeIndex i hash pkt) ∨ ∃ d, x = Event.safe d)
      ∧ (e.skip_ = true → e1 = e ∧ ev = [])
      ∧ (e1.skip_ = false →
          e1 = e ∧ nodes ≠ [] ∧ ∃ recipient, e.recipient = some recipient
            ∧ Event.storeIndex i recipient.identHash
                (storeRequest (new_index_packet recipient e now).toByte) ∈ ev)
      ∧ (e.skip_ = false → ∃ recipient, e.recipient = some recipient
            ∧ Event.storeIndex i recipient.identHash
                (storeRequest (new_index_packet recipient e now).toByte) ∈ ev) := by
  cases hsk : e.skip_ with
  | true =>
    simp only [storeIndexStep, hsk, if_true] at h
    cases h
    refine ⟨rfl, ?_, ?_, ?_, ?_⟩
    · intro x hx
      simp at hx
    · intro _
      exact ⟨rfl, rfl⟩
    · intro h0
      rw [hsk] at h0
      cases h0
    · intro h0
      cases h0
  | false =>
    cases hr : e.recipient with
    | none =>
      simp only [storeIndexStep, hsk, hr, Bool.false_eq_true, if_false] at h
      cases h
    | some recipient =>
      cases hn : nodes.isEmpty with
      | true =>
        simp only [storeIndexStep, hsk, hr, hn, Bool.false_eq_true, if_false,
          if_true] at h
        cases h
        refine ⟨rfl, ?_, ?_, ?_, ?_⟩
        · intro x hx
          left
          exact ⟨_, _, List.mem_singleton.mp hx⟩
        · intro h0
          cases h0
        · intro h0
          cases h0
        · intro _
          exact ⟨recipient, rfl, List.mem_singleton.mpr rfl⟩
      | false =>
        simp only [storeIndexStep, hsk, hr, hn, Bool.false_eq_true, if_false] at h
        cases h
        have hnn : nodes ≠ [] := by
          intro h0
          rw [h0] at hn
          cases hn
        refine ⟨rfl, ?_, ?_, ?_, ?_⟩
        · intro x hx
          rcases List.mem_cons.mp hx with h0 | h0
          · left
            exact ⟨_, _, h0⟩
          · right
            exact ⟨_, List.mem_singleton.mp h0⟩
        · intro h0
          cases h0
        · intro _
          exact ⟨rfl, hnn, recipient, rfl, List.mem_cons_self _ _⟩
        · intro _
          exact ⟨recipient, rfl, List.mem_cons_self _ _⟩

/-- What the body of a loop establishes of every email holds of the whole
out-box after the loop. -/
theorem eachEmail_forall (step : Nat → Email → Except Fault (Email × List Event))
    (Q : Email → Prop) :
    ∀ (l : List Email) (k : Nat) (l1 : List Email) (evs : List Event),
      (∀ j, ∀ e ∈ l, ∀ e1 ev, step j e = .ok (e1, ev) → Q e1) →
      eachEmail step k l = .ok (l1, evs) → ∀ e1 ∈ l1, Q e1 := by
  intro l
  induction l with
  | nil =>
    intro k l1 evs _ hrun e1 h1
    simp only [eachEmail] at hrun
    cases hrun
    simp at h1
  | cons e0 rest ih =>
    intro k l1 evs hQ hrun e1 hmem
    unfold eachEmail at hrun
    cases h1 : step k e0 with
    | error f =>
      rw [h1] at hrun
      cases hrun
    | ok r1 =>
      obtain ⟨e2, ev⟩ := r1
      rw [h1] at hrun
      dsimp only at hrun
      cases h2 : eachEmail step (k + 1) rest with
      | error f =>
        rw [h2] at hrun
        cases hrun
      | ok r2 =>
        obtain ⟨rest1, evs1⟩ := r2
        rw [h2] at hrun
        dsimp only at hrun
        cases hrun
        rcases List.mem_cons.mp hmem with h0 | h0
        · rw [h0]
          exact hQ k e0 (List.mem_cons_self _ _) e2 ev h1
        · exact ih (k + 1) rest1 evs1
            (fun j e he => hQ j e (List.mem_cons_of_mem _ he)) h2 e1 h0

/-- The third loop keeps in the out-box exactly the skipped emails, as they
are. -/
theorem finishLoop_kept (E : Env) (F : Fs) :
    ∀ (l : List Email) (k : Nat) (disk : Disk) (g : Gen),
      (finishLoop E F k l disk g).1 = l.filter fun e => e.skip_ := by
  intro l
  induction l with
  | nil =>
    intro k disk g
    rfl
  | cons e rest ih =>
    intro k disk g
    unfold finishLoop
    cases hsk : e.skip_ with
    | true =>
      simp only [if_true, List.filter_cons, hsk]
      rw [ih]
    | false =>
      simp only [Bool.false_eq_true, if_false, List.filter_cons, hsk]
      rw [ih]

/-- The third loop calls `move` for the emails that are not skipped, each at
its position, and for no other. -/
theorem finishLoop_events (E : Env) (F : Fs) :
    ∀ (l : List Email) (k : Nat) (disk : Disk) (g : Gen),
      (∀ x ∈ (finishLoop E F k l disk g).2.2.2,
        ∃ i e, l[i]? = some e ∧ e.skip_ = false ∧ x = Event.move (k + i) e.filename)
      ∧ ∀ i e, l[i]? = some e → e.skip_ = false →
          Event.move (k + i) e.filename ∈ (finishLoop E F k l disk g).2.2.2 := by
  intro l
  induction l with
  | nil =>
    intro k disk g
    constructor
    · intro x hx
      simp [finishLoop] at hx
    · intro i e hi
      simp at hi
  | cons e0 rest ih =>
    intro k disk g
    unfold finishLoop
    cases hsk : e0.skip_ with
    | true =>
      simp only [if_true]
      obtain ⟨h1, h2⟩ := ih (k + 1) disk g
      constructor
      · intro x hx
        obtain ⟨i, e, hi, hs, hxe⟩ := h1 x hx
        refine ⟨i + 1, e, by simpa using hi, hs, ?_⟩
        rw [hxe]
        have hk : k + 1 + i = k + (i + 1) := by omega
        rw [hk]
      · intro i e hi hs
        cases i with
        | zero =>
          have he : e0 = e := by simpa using hi
          rw [he] at hsk
          rw [hsk] at hs
          cases hs
        | succ n =>
          have hn : rest[n]? = some e := by simpa using hi
          have := h2 n e hn hs
          have hk : k + 1 + n = k + (n + 1) := by omega
          rw [hk] at this
          exact this
    | false =>
      simp only [Bool.false_eq_true, if_false]
      obtain ⟨h1, h2⟩ := ih (k + 1)
        (move F (save E F (setField e0 (S "X-I2PBote-Deleted") (S "false")) [] disk g).2.1
          (S "sent")
          (save E F (setField e0 (S "X-I2PBote-Deleted") (S "false")) [] disk g).2.2.1).2.2
        (save E F (setField e0 (S "X-I2PBote-Deleted") (S "false")) [] disk g).2.2.2
      constructor
      · intro x hx
        rcases List.mem_cons.mp hx with h0 | h0
        · exact ⟨0, e0, by simp, hsk, h0⟩
        · obtain ⟨i, e, hi, hs, hxe⟩ := h1 x h0
          refine ⟨i + 1, e, by simpa using hi, hs, ?_⟩
          rw [hxe]
          have hk : k + 1 + i = k + (i + 1) := by omega
          rw [hk]
      · intro i e hi hs
        cases i with
        | zero =>
          have he : e0 = e := by simpa using hi
          rw [← he]
          exact List.mem_cons_self _ _
        | succ n =>
          have hn : rest[n]? = some e := by simpa using hi
          have := h2 n e hn hs
          have hk : k + 1 + n = k + (n + 1) := by omega
          rw [hk] at this
          exact List.mem_cons_of_mem _ this

/-- An element found at a position lies within the list and belongs to it. -/
theorem get_some_lt {α : Type} :
    ∀ (l : List α) (i : Nat) (a : α), l[i]? = some a → i < l.length ∧ a ∈ l := by
  intro l
  induction l with
  | nil =>
    intro i a h
    simp at h
  | cons x xs ih =>
    intro i a h
    cases i with
    | zero =>
      have hx : x = a := by simpa using h
      rw [hx]
      exact ⟨by simp, List.mem_cons_self _ _⟩
    | succ n =>
      have hn : xs[n]? = some a := by simpa using h
      obtain ⟨h1, h2⟩ := ih n a hn
      exact ⟨by simp; omega, List.mem_cons_of_mem _ h2⟩

/-- A position within the list holds an element. -/
theorem lt_get_some {α : Type} :
    ∀ (l : List α) (i : Nat), i < l.length → ∃ a, l[i]? = some a := by
  intro l
  induction l with
  | nil =>
    intro i h
    simp at h
  | cons x xs ih =>
    intro i h
    cases i with
    | zero => exact ⟨x, by simp⟩
    | succ n =>
      have hn : n < xs.length := by
        simp at h
        omega
      obtain ⟨a, ha⟩ := ih n hn
      exact ⟨a, by simpa using ha⟩

/-- A loop over the out-box keeps its length. -/
theorem eachEmail_length (step : Nat → Email → Except Fault (Email × List Event)) :
    ∀ (l : List Email) (k : Nat) (l1 : List Email) (evs : List Event),
      eachEmail step k l = .ok (l1, evs) → l1.length = l.length := by
  intro l
  induction l with
  | nil =>
    intro k l1 evs hrun
    simp only [eachEmail] at hrun
    cases hrun
    rfl
  | cons e0 rest ih =>
    intro k l1 evs hrun
    unfold eachEmail at hrun
    cases h1 : step k e0 with
    | error f =>
      rw [h1] at hrun
      cases hrun
    | ok r1 =>
      obtain ⟨e2, ev⟩ := r1
      rw [h1] at hrun
      dsimp only at hrun
      cases h2 : eachEmail step (k + 1) rest with
      | error f =>
        rw [h2] at hrun
        cases hrun
      | ok r2 =>
        obtain ⟨rest1, evs1⟩ := r2
        rw [h2] at hrun
        dsimp only at hrun
        cases hrun
        simp [ih (k + 1) rest1 evs1 h2]

/-- The body of the first loop does not fault on an email that has a
recipient. -/
theorem storeEmailStep_total (E : Env) (nodes : List Bytes) (i : Nat) (e : Email)
    (hr : ∃ recipient, e.recipient = some recipient) :
    ∃ r, storeEmailStep E nodes i e = .ok r := by
  obtain ⟨recipient, hr⟩ := hr
  obtain ⟨e2, hen⟩ := encrypt_total E e recipient hr
  unfold storeEmailStep
  rw [hen]
  dsimp only
  split
  · exact ⟨_, rfl⟩
  · split
    · exact ⟨_, rfl⟩
    · split <;> exact ⟨_, rfl⟩

/-- The body of the second loop does not fault on an email that has a
recipient. -/
theorem storeIndexStep_total (now : Nat) (nodes : List Bytes) (i : Nat) (e : Email)
    (hr : ∃ recipient, e.recipient = some recipient) :
    ∃ r, storeIndexStep now nodes i e = .ok r := by
  obtain ⟨recipient, hr⟩ := hr
  unfold storeIndexStep
  rw [hr]
  dsimp only
  split
  · exact ⟨_, rfl⟩
  · split <;> exact ⟨_, rfl⟩

/-- A round on an out-box whose emails all have a recipient runs its three
loops without a fault. -/
theorem sendRound_parts (E : Env) (F : Fs) (now : Nat) (dht : Dht)
    (outbox : List Email) (disk : Disk) (g : Gen)
    (hrec : ∀ e ∈ outbox, ∃ recipient, e.recipient = some recipient) :
    ∃ ob1 ev1 ob2 ev2,
      eachEmail (fun i email => storeEmailStep E (dht.storeE i) i email) 0 outbox
          = .ok (ob1, ev1)
        ∧ eachEmail (fun i email => storeIndexStep now (dht.storeI i) i email) 0 ob1
          = .ok (ob2, ev2)
        ∧ sendRound E F now dht outbox disk g
          = .ok ((finishLoop E F 0 ob2 disk g).1, (finishLoop E F 0 ob2 disk g).2.1,
              (finishLoop E F 0 ob2 disk g).2.2.1,
              ev1 ++ ev2 ++ (finishLoop E F 0 ob2 disk g).2.2.2) := by
  obtain ⟨⟨ob1, ev1⟩, h1⟩ := eachEmail_ok
    (fun i email => storeEmailStep E (dht.storeE i) i email) outbox 0
    (fun j e he => storeEmailStep_total E (dht.storeE j) j e (hrec e he))
  have hrec1 : ∀ e1 ∈ ob1, ∃ recipient, e1.recipient = some recipient :=
    eachEmail_forall (fun i email => storeEmailStep E (dht.storeE i) i email)
      (fun e1 => ∃ recipient, e1.recipient = some recipient) outbox 0 ob1 ev1
      (fun j e he e1 ev hs => by
        obtain ⟨r, hr⟩ := hrec e he
        exact ⟨r, by rw [(storeEmailStep_spec E (dht.storeE j) j e e1 ev hs).1, hr]⟩)
      h1
  obtain ⟨⟨ob2, ev2⟩, h2⟩ := eachEmail_ok
    (fun i email => storeIndexStep now (dht.storeI i) i email) ob1 0
    (fun j e he => storeIndexStep_total now (dht.storeI j) j e (hrec1 e he))
  refine ⟨ob1, ev1, ob2, ev2, h1, h2, ?_⟩
  unfold sendRound
  rw [h1]
  dsimp only
  rw [h2]

/-- The body of the second loop issues one index store at most, for its own
position, addressed to the recipient and carrying the index packet built for
the email. -/
theorem storeIndexStep_event (now : Nat) (nodes : List Bytes) (i : Nat) (e e1 : Email)
    (ev : List Event) (h : storeIndexStep now nodes i e = .ok (e1, ev))
    (j : Nat) (hash : Tag32) (pkt : StoreRequestPacket)
    (hx : Event.storeIndex j hash pkt ∈ ev) :
    j = i ∧ e.skip_ = false ∧ e1.recipient = e.recipient
      ∧ ∃ recipient, e.recipient = some recipient ∧ hash = recipient.identHash
          ∧ pkt = storeRequest (new_index_packet recipient e now).toByte := by
  cases hsk : e.skip_ with
  | true =>
    simp only [storeIndexStep, hsk, if_true] at h
    cases h
    simp at hx
  | false =>
    cases hr : e.recipient with
    | none =>
      simp only [storeIndexStep, hsk, hr, Bool.false_eq_true, if_false] at h
      cases h
    | some recipient =>
      cases hn : nodes.isEmpty with
      | true =>
        simp only [storeIndexStep, hsk, hr, hn, Bool.false_eq_true, if_false,
          if_true] at h
        cases h
        have h0 := List.mem_singleton.mp hx
        cases h0
        exact ⟨rfl, rfl, rfl, recipient, rfl, rfl, rfl⟩
      | false =>
        simp only [storeIndexStep, hsk, hr, hn, Bool.false_eq_true, if_false] at h
        cases h
        rcases List.mem_cons.mp hx with h0 | h0
        · cases h0
          exact ⟨rfl, rfl, hr, recipient, rfl, rfl, rfl⟩
        · have h1 := List.mem_singleton.mp h0
          cases h1

/-- The hashes `encrypt` leaves in the envelope of an email it has just
encrypted. -/
theorem encrypt_hashes (E : Env) (e e1 : Email) (h : encrypt E e = .ok e1)
    (hsk : e.skip_ = false) (hen : e.encrypted_ = false) (hsk1 : e1.skip_ = false) :
    e1.encrypted_ = true
      ∧ e1.encrypted.delete_hash = E.SHA256 e1.packet.DA.val
      ∧ e1.encrypted.key = E.SHA256 (be16 e1.encrypted.length ++ e1.encrypted.edata) := by
  cases hs : e.sender with
  | none =>
    simp only [encrypt, hsk, hen, setField, hs, Bool.false_eq_true, if_false] at h
    cases h
    cases hsk1
  | some sender =>
    cases hr : e.recipient with
    | none =>
      simp only [encrypt, hsk, hen, setField, hs, hr, Bool.false_eq_true, if_false] at h
      cases h
    | some recipient =>
      cases hc : (sender.Encrypt e.packet.toByte recipient.cryptoPublicKey).isEmpty with
      | true =>
        simp only [encrypt, hsk, hen, setField, hs, hr, hc, Bool.false_eq_true,
          if_false, if_true] at h
        cases h
        cases hsk1
      | false =>
        simp only [encrypt, hsk, hen, setField, hs, hr, hc, Bool.false_eq_true,
          if_false] at h
        cases h
        exact ⟨rfl, rfl, rfl⟩

/-- C12, refuted as stated: the entry of the index packet built for the
encrypted `toyOutgoing` has as `dv` the hash of the delete authorization, not
the delete authorization. -/
theorem index_entry_dv_is_hash :
    ((new_index_packet toyRecipient toyEncrypted 7).data.map fun entry => entry.dv.val)
        = [(plainEnv.SHA256 toyEncrypted.packet.DA.val).val]
      ∧ ((new_index_packet toyRecipient toyEncrypted 7).data.map fun entry => entry.dv.val)
        ≠ [toyEncrypted.packet.DA.val]
      ∧ (traceOf (sendRound plainEnv plainFs 7 dhtUp [toyOutgoing] [] [])).map Event.summary
        = [(Event.Kind.storeEmail, some 0), (Event.Kind.safe, none),
           (Event.Kind.storeIndex, some 0), (Event.Kind.safe, none),
           (Event.Kind.move, some 0)] := by
  refine ⟨?_, ?_, ?_⟩
  · rfl
  · decide
  · rfl

/-- An element of a list stands at some position. -/
theorem mem_get_some {α : Type} :
    ∀ (l : List α) (a : α), a ∈ l → ∃ j : Nat, l[j]? = some a := by
  intro l
  induction l with
  | nil =>
    intro a h
    simp at h
  | cons x xs ih =>
    intro a h
    rcases List.mem_cons.mp h with h0 | h0
    · exact ⟨0, by simp [h0]⟩
    · obtain ⟨j, hj⟩ := ih a h0
      exact ⟨j + 1, by simpa using hj⟩

/-- A position of a list keeps its place, with the image of its element, when
the list is mapped and another list is appended. -/
theorem get_map_append {α : Type} (f : α → α) (l2 : List α) :
    ∀ (l : List α) (j : Nat) (a : α), l[j]? = some a →
      (l.map f ++ l2)[j]? = some (f a) := by
  intro l
  induction l with
  | nil =>
    intro j a h
    simp at h
  | cons x xs ih =>
    intro j a h
    cases j with
    | zero =>
      have hx : x = a := by simpa using h
      simp [hx]
    | succ n =>
      have hn : xs[n]? = some a := by simpa using h
      simpa using ih n a hn

/-- The body of the second loop keeps the recipient, and marks the email
skipped when its index store is answered by no node. -/
theorem storeIndexStep_down (now : Nat) (nodes : List Bytes) (i : Nat) (e e1 : Email)
    (ev : List Event) (h : storeIndexStep now nodes i e = .ok (e1, ev)) :
    e1.recipient = e.recipient
      ∧ (e.skip_ = false → nodes = [] → e1 = { e with skip_ := true }) := by
  cases hsk : e.skip_ with
  | true =>
    simp only [storeIndexStep, hsk, if_true] at h
    cases h
    refine ⟨rfl, ?_⟩
    intro h0
    cases h0
  | false =>
    cases hr : e.recipient with
    | none =>
      simp only [storeIndexStep, hsk, hr, Bool.false_eq_true, if_false] at h
      cases h
    | some recipient =>
      cases hn : nodes.isEmpty with
      | true =>
        simp only [storeIndexStep, hsk, hr, hn, Bool.false_eq_true, if_false,
          if_true] at h
        cases h
        refine ⟨rfl, ?_⟩
        intro _ _
        rfl
      | false =>
        simp only [storeIndexStep, hsk, hr, hn, Bool.false_eq_true, if_false] at h
        cases h
        refine ⟨hr, ?_⟩
        intro _ h0
        rw [h0] at hn
        cases hn

/-- An email that comes out of `encrypt` unskipped is encrypted. -/
theorem encrypt_done (E : Env) (e e1 : Email) (h : encrypt E e = .ok e1)
    (hsk : e.skip_ = false) (hsk1 : e1.skip_ = false) : e1.encrypted_ = true := by
  cases hen : e.encrypted_ with
  | true =>
    rw [encrypt_again E e hsk hen] at h
    cases h
    exact hen
  | false => exact (encrypt_hashes E e e1 h hsk hen hsk1).1

/-- The body of the first loop on an email that is encrypted and not skipped:
the email is not encrypted anew, and the store of its encrypted packet is
issued, with the key and the packet it holds. -/
theorem storeEmailStep_again (E : Env) (nodes : List Bytes) (j : Nat) (e : Email)
    (hsk : e.skip_ = false) (hen : e.encrypted_ = true) :
    encrypt E e = .ok e
      ∧ ∃ e1 ev, storeEmailStep E nodes j e = .ok (e1, ev)
          ∧ Event.storeEmail j e.encrypted.key (storeRequest e.encrypted.toByte) ∈ ev := by
  refine ⟨encrypt_again E e hsk hen, ?_⟩
  unfold storeEmailStep
  rw [encrypt_again E e hsk hen]
  simp only [hsk, Bool.false_eq_true, if_false]
  split
  · exact ⟨_, _, rfl, List.mem_cons_self _ _⟩
  · exact ⟨_, _, rfl, List.mem_cons_self _ _⟩

/-- The emails a round leaves in the out-box have the recipients they came
with. -/
theorem sendRound_recipients (E : Env) (F : Fs) (now : Nat) (dht : Dht)
    (outbox : List Email) (disk : Disk) (g : Gen)
    (hrec : ∀ e ∈ outbox, ∃ recipient, e.recipient = some recipient)
    (outbox1 : List Email) (disk1 : Disk) (g1 : Gen) (trace : List Event)
    (hrun : sendRound E F now dht outbox disk g = .ok (outbox1, disk1, g1, trace)) :
    ∀ e ∈ outbox1, ∃ recipient, e.recipient = some recipient := by
  obtain ⟨ob1, ev1, ob2, ev2, h1, h2, hround⟩ :=
    sendRound_parts E F now dht outbox disk g hrec
  rw [hround] at hrun
  cases hrun
  have hrec1 : ∀ e1 ∈ ob1, ∃ recipient, e1.recipient = some recipient :=
    eachEmail_forall (fun i email => storeEmailStep E (dht.storeE i) i email)
      (fun e1 => ∃ recipient, e1.recipient = some recipient) outbox 0 ob1 ev1
      (fun j e he e1 ev hs => by
        obtain ⟨r, hr⟩ := hrec e he
        exact ⟨r, by rw [(storeEmailStep_spec E (dht.storeE j) j e e1 ev hs).1, hr]⟩)
      h1
  have hrec2 : ∀ e1 ∈ ob2, ∃ recipient, e1.recipient = some recipient :=
    eachEmail_forall (fun i email => storeIndexStep now (dht.storeI i) i email)
      (fun e1 => ∃ recipient, e1.recipient = some recipient) ob1 0 ob2 ev2
      (fun j e he e1 ev hs => by
        obtain ⟨r, hr⟩ := hrec1 e he
        exact ⟨r, by rw [(storeIndexStep_down now (dht.storeI j) j e e1 ev hs).1, hr]⟩)
      h2
  intro e he
  rw [finishLoop_kept] at he
  exact hrec2 e (List.mem_filter.mp he).1

/-- C14, refuted as stated: a first round stores the encrypted packet of the
email and fails to store its index; the email stays in the out-box; the next
round issues the store of the encrypted packet again before the index store. -/
theorem second_round_stores_email_again :
    (traceOf toyRound1).map Event.summary
        = [(Event.Kind.storeEmail, some 0), (Event.Kind.safe, none),
           (Event.Kind.storeIndex, some 0)]
      ∧ ((outboxOf toyRound1).map fun e => (e.skip_, e.encrypted_)) = [(true, true)]
      ∧ (traceOf toyRound2).map Event.summary
        = [(Event.Kind.storeEmail, some 0), (Event.Kind.safe, none),
           (Event.Kind.storeIndex, some 0), (Event.Kind.safe, none),
           (Event.Kind.move, some 0)] := by
  refine ⟨?_, ?_, ?_⟩
  · rfl
  · rfl
  · rfl

/-! ### Commands out of their state, message numbers and multi-line replies -/

/-- C21: each of `USER`, `PASS`, `STAT`, `LIST`, `RETR`, `DELE`, `RSET`,
`NOOP`, `TOP` and `UIDL`, called in a state other than the one it tests for,
does nothing but send the reply `ERR_DENIED`: the session state, the emails
with their deletion marks and the files removed stay as they were. -/
theorem pop3_out_of_state_denied (E : Env) (H : pop3.Host) (s : pop3.POP3)
    (request : Bytes) :
    (s.session_state ≠ pop3.State.STATE_USER →
        pop3.USER H s request
          = pop3.reply s [pop3.Piece.format pop3.Template.ERR_DENIED []])
      ∧ (s.session_state ≠ pop3.State.STATE_PASS →
        pop3.PASS E H s request
          = pop3.reply s [pop3.Piece.format pop3.Template.ERR_DENIED []])
      ∧ (s.session_state ≠ pop3.State.STATE_TRANSACTION →
        pop3.STAT E s = pop3.reply s [pop3.Piece.format pop3.Template.ERR_DENIED []]
          ∧ pop3.LIST E s request
              = pop3.reply s [pop3.Piece.format pop3.Template.ERR_DENIED []]
          ∧ pop3.RETR E s request
              = pop3.reply s [pop3.Piece.format pop3.Template.ERR_DENIED []]
          ∧ pop3.DELE s request
              = pop3.reply s [pop3.Piece.format pop3.Template.ERR_DENIED []]
          ∧ pop3.RSET s = pop3.reply s [pop3.Piece.format pop3.Template.ERR_DENIED []]
          ∧ pop3.NOOP s = pop3.reply s [pop3.Piece.format pop3.Template.ERR_DENIED []]
          ∧ pop3.TOP s request
              = pop3.reply s [pop3.Piece.format pop3.Template.ERR_DENIED []]
          ∧ pop3.UIDL s request
              = pop3.reply s [pop3.Piece.format pop3.Template.ERR_DENIED []])
      ∧ (pop3.reply s [pop3.Piece.format pop3.Template.ERR_DENIED []]).session_state
          = s.session_state
      ∧ (pop3.reply s [pop3.Piece.format pop3.Template.ERR_DENIED []]).emails = s.emails
      ∧ (pop3.reply s [pop3.Piece.format pop3.Template.ERR_DENIED []]).removed = s.removed
      ∧ (pop3.reply s [pop3.Piece.format pop3.Template.ERR_DENIED []]).sent
          = s.sent ++ [[pop3.Piece.format pop3.Template.ERR_DENIED []]] := by
  refine ⟨?_, ?_, ?_, rfl, rfl, rfl, rfl⟩
  · intro h
    unfold pop3.USER
    rw [if_pos h]
  · intro h
    unfold pop3.PASS
    rw [if_pos h]
  · intro h
    refine ⟨?_, ?_, ?_, ?_, ?_, ?_, ?_, ?_⟩
    · unfold pop3.STAT
      rw [if_pos h]
    · unfold pop3.LIST
      rw [if_pos h]
    · unfold pop3.RETR
      rw [if_pos h]
    · unfold pop3.DELE
      rw [if_pos h]
    · unfold pop3.RSET
      rw [if_pos h]
    · unfold pop3.NOOP
      rw [if_pos h]
    · unfold pop3.TOP
      rw [if_pos h]
    · unfold pop3.UIDL
      rw [if_pos h]

/-- C21, on the session that has sent `USER alice` and is in `STATE_PASS`:
`STAT` and `USER` are denied there. -/
theorem pop3_out_of_state_denied_witness :
    pop3.STAT plainEnv (pop3.process plainEnv toyHost (pop3.POP3.new []) [S "USER alice\r\n"])
        = pop3.reply (pop3.process plainEnv toyHost (pop3.POP3.new []) [S "USER alice\r\n"])
            [pop3.Piece.format pop3.Template.ERR_DENIED []]
      ∧ pop3.USER toyHost
          (pop3.process plainEnv toyHost (pop3.POP3.new []) [S "USER alice\r\n"])
          (S "USER bob\r\n")
        = pop3.reply (pop3.process plainEnv toyHost (pop3.POP3.new []) [S "USER alice\r\n"])
            [pop3.Piece.format pop3.Template.ERR_DENIED []] :=
  ⟨((pop3_out_of_state_denied plainEnv toyHost
      (pop3.process plainEnv toyHost (pop3.POP3.new []) [S "USER alice\r\n"])
      (S "USER bob\r\n")).2.2.1 (by decide)).1,
   (pop3_out_of_state_denied plainEnv toyHost
      (pop3.process plainEnv toyHost (pop3.POP3.new []) [S "USER alice\r\n"])
      (S "USER bob\r\n")).1 (by decide)⟩

/-- C22: `APOP` tests no session state: whatever the state, it sets
`STATE_TRANSACTION` and replies `OK_LOCK`.  After `USER alice`, in
`STATE_PASS`, the request `APOP` opens the transaction state, and in
`STATE_TRANSACTION` it is answered `OK_LOCK` as well. -/
theorem pop3_apop_in_any_state :
    (∀ (s : pop3.POP3) (request : Bytes), request.take 4 = S "APOP" →
        pop3.APOP s request
          = pop3.reply { s with session_state := pop3.State.STATE_TRANSACTION }
              [pop3.Piece.format pop3.Template.OK_LOCK []])
      ∧ (pop3.process plainEnv toyHost (pop3.POP3.new [])
            [S "USER alice\r\n"]).session_state = pop3.State.STATE_PASS
      ∧ (pop3.process plainEnv toyHost (pop3.POP3.new [])
            [S "USER alice\r\n", S "APOP alice 0\r\n"]).session_state
          = pop3.State.STATE_TRANSACTION
      ∧ (pop3.process plainEnv toyHost (pop3.POP3.new [])
            [S "USER alice\r\n", S "APOP alice 0\r\n"]).sent.getLast?
          = some [pop3.Piece.format pop3.Template.OK_LOCK []]
      ∧ (pop3.process plainEnv toyHost (pop3.POP3.new [])
            (toyLogin ++ [S "APOP alice 0\r\n"])).sent.getLast?
          = some [pop3.Piece.format pop3.Template.OK_LOCK []] := by
  refine ⟨?_, ?_, ?_, ?_, ?_⟩
  · intro s request h
    unfold pop3.APOP
    rw [if_neg (not_not.mpr h)]
  · rfl
  · rfl
  · rfl
  · rfl

/-- C23: on an inbox of two mails, in `STATE_TRANSACTION`, `RETR 0` reads the
element of `emails` at index `2^64 - 1` and `DELE 3` the element at index 2,
both outside the vector; no reply is sent for either. -/
theorem pop3_retr_dele_index_outside :
    (pop3.process plainEnv toyHost (pop3.POP3.new []) toyLogin).emails.length = 2
      ∧ (pop3.process plainEnv toyHost (pop3.POP3.new [])
            (toyLogin ++ [S "RETR 0\r\n"])).crashed
          = some (pop3.Crash.index 18446744073709551615 2)
      ∧ (pop3.process plainEnv toyHost (pop3.POP3.new [])
            (toyLogin ++ [S "DELE 3\r\n"])).crashed
          = some (pop3.Crash.index 2 2)
      ∧ (pop3.process plainEnv toyHost (pop3.POP3.new [])
            (toyLogin ++ [S "RETR 0\r\n"])).sent
          = (pop3.process plainEnv toyHost (pop3.POP3.new []) toyLogin).sent
      ∧ (pop3.process plainEnv toyHost (pop3.POP3.new [])
            (toyLogin ++ [S "DELE 3\r\n"])).sent
          = (pop3.process plainEnv toyHost (pop3.POP3.new []) toyLogin).sent := by
  refine ⟨?_, ?_, ?_, ?_, ?_⟩
  · rfl
  · rfl
  · rfl
  · rfl
  · rfl

/-- C24: the reply to `RETR` is the status line, the bytes of the mail as
they are, and `.` CR LF.  A mail with a line that is a lone dot is sent with
that line unchanged, so CR LF `.` CR LF stands inside the reply; and a mail
that does not end in CR LF has the final dot on its last line. -/
theorem pop3_retr_no_dot_stuffing :
    (pop3.process crlfEnv dotHost (pop3.POP3.new [])
        (toyLogin ++ [S "RETR 1\r\n"])).sent.getLast?
        = some [pop3.Piece.format pop3.Template.OK_RETR [pop3.Arg.num 79],
            pop3.Piece.text (S ("From: a\r\nMessage-ID: "
              ++ "00000000-0000-4000-8000-000000000000@bote.i2p\r\n\r\nx\r\n.\r\ny\r\n")),
            pop3.Piece.text (S ".\r\n")]
      ∧ (pop3.process plainEnv toyHost (pop3.POP3.new [])
          (toyLogin ++ [S "RETR 1\r\n"])).sent.getLast?
        = some [pop3.Piece.format pop3.Template.OK_RETR [pop3.Arg.num 73],
            pop3.Piece.text (S ("From: a\r\nMessage-ID: "
              ++ "00000000-0000-4000-8000-000000000000@bote.i2p\r\n\r\none")),
            pop3.Piece.text (S ".\r\n")] := by
  constructor
  · rfl
  · rfl

set_option maxRecDepth 100000 in
/-- C30: with the first of two mails marked deleted, `LIST` gives the
number 1 to the second mail, of 74 octets, while `RETR 1` sends the first
mail, of 73 octets, and `DELE 1` answers that message 1 is removed. -/
theorem pop3_list_renumbers :
    (pop3.process plainEnv toyHost (pop3.POP3.new [])
        (toyLogin ++ [S "DELE 1\r\n", S "LIST\r\n"])).sent.getLast?
        = some [pop3.Piece.format pop3.Template.OK_LIST [pop3.Arg.num 2, pop3.Arg.num 74],
            pop3.Piece.format pop3.Template.TEMPLATE_LIST_ITEM
              [pop3.Arg.num 1, pop3.Arg.num 74],
            pop3.Piece.text (S "\n"), pop3.Piece.text (S ".\r\n")]
      ∧ ((pop3.process plainEnv toyHost (pop3.POP3.new [])
            (toyLogin ++ [S "DELE 1\r\n", S "LIST\r\n"])).emails.map
          fun e => (e.deleted_, (bytes plainEnv e).1.length))
        = [(true, 73), (false, 74)]
      ∧ ((pop3.process plainEnv toyHost (pop3.POP3.new [])
            (toyLogin ++ [S "DELE 1\r\n", S "LIST\r\n", S "RETR 1\r\n"])).sent.getLast?.map
          fun r => r.head?)
        = some (some (pop3.Piece.format pop3.Template.OK_RETR [pop3.Arg.num 73]))
      ∧ (pop3.process plainEnv toyHost (pop3.POP3.new [])
          (toyLogin ++ [S "DELE 1\r\n", S "LIST\r\n", S "DELE 1\r\n"])).sent.getLast?
        = some [pop3.Piece.format pop3.Template.ERR_REMOVED [pop3.Arg.num 1]] := by
  refine ⟨?_, ?_, ?_, ?_⟩
  · rfl
  · rfl
  · rfl
  · rfl

/-! ### Compression round trip -/

/-- C29: for every payload, `compress (UNCOMPRESSED)` succeeds and puts the
tag byte 0 in front of it, `decompress` of the resulting `packet.data`
returns and leaves the payload in `packet.data`, whatever email it is
called on, and `compress (LZMA)` does what `compress (UNCOMPRESSED)` does. -/
theorem compress_uncompressed_round_trip (E : Env) (e : Email) :
    (compress E e UNCOMPRESSED).1 = true
      ∧ (compress E e UNCOMPRESSED).2.packet.data = UNCOMPRESSED :: e.packet.data
      ∧ (∀ e2 : Email, ∃ e3 : Email,
          decompress E e2 (compress E e UNCOMPRESSED).2.packet.data = .ok e3
            ∧ e3.packet.data = e.packet.data)
      ∧ compress E e LZMA = compress E e UNCOMPRESSED := by
  refine ⟨rfl, rfl, ?_, rfl⟩
  intro e2
  exact ⟨_, rfl, rfl⟩

/-! ### The queue -/

namespace util

/-- Pushing the elements of a container one by one appends the container. -/
theorem foldl_push {α : Type} (vec m_Queue : List α) :
    vec.foldl (fun m_Queue it => m_Queue ++ [it]) m_Queue = m_Queue ++ vec := by
  induction vec generalizing m_Queue with
  | nil => simp
  | cons x xs ih => simp [ih]

/-- The overload of `Put` for containers appends the container. -/
theorem PutContainer_contents {α : Type} (q : Queue α) (vec : List (Option α)) :
    (q.PutContainer vec).m_Queue = q.m_Queue ++ vec := by
  unfold Queue.PutContainer
  cases vec with
  | nil => simp
  | cons x xs =>
    simp only [List.isEmpty_cons, Bool.not_false, if_true]
    exact foldl_push (x :: xs) q.m_Queue

/-- After a sequence of `Put` calls the queue holds the FIFO list of the
specification. -/
theorem puts_contents {α : Type} (calls : List (PutCall α)) :
    ∀ (q : Queue α) (fifo : List α), q.m_Queue = fifo.map some →
      (Queue.puts q calls).m_Queue = (fifoAfter fifo calls).map some := by
  induction calls with
  | nil =>
    intro q fifo h
    exact h
  | cons c rest ih =>
    intro q fifo h
    cases c with
    | item e =>
      apply ih
      simp [Queue.Put, h]
    | container vec =>
      apply ih
      rw [PutContainer_contents, h]
      simp

/-- Calls of `Get` on an empty queue return null and leave it empty. -/
theorem gets_empty {α : Type} (k : Nat) :
    ∀ q : Queue α, q.m_Queue = [] →
      (Queue.gets k q).1 = List.replicate k none ∧ (Queue.gets k q).2.m_Queue = [] := by
  induction k with
  | zero =>
    intro q h
    exact ⟨rfl, h⟩
  | succ n ih =>
    intro q h
    have hget : q.Get = (none, q) := by
      unfold Queue.Get Queue.GetNonThreadSafe
      rw [h]
    have hrec := ih q h
    unfold Queue.gets
    rw [hget]
    exact ⟨by rw [hrec.1]; rfl, hrec.2⟩

/-- Calls of `Get` return the contents from the front, then null. -/
theorem gets_contents {α : Type} (l : List (Option α)) (k : Nat) :
    ∀ q : Queue α, q.m_Queue = l →
      (Queue.gets (l.length + k) q).1 = l ++ List.replicate k none
        ∧ (Queue.gets (l.length + k) q).2.m_Queue = [] := by
  induction l with
  | nil =>
    intro q h
    simpa using gets_empty k q h
  | cons x xs ih =>
    intro q h
    have hget : q.Get = (x, { m_Queue := xs }) := by
      unfold Queue.Get Queue.GetNonThreadSafe
      rw [h]
      rfl
    have hrec := ih { m_Queue := xs } rfl
    have hlen : (x :: xs).length + k = (xs.length + k) + 1 := by
      simp only [List.length_cons]
      omega
    rw [hlen]
    unfold Queue.gets
    rw [hget]
    exact ⟨by rw [hrec.1]; rfl, hrec.2⟩

end util

/-- C27: in a run of one thread, after any sequence of `Put (item)` and
`Put (container)` calls with elements that are not null, the queue holds the
FIFO list of the specification; as many calls of `Get` as there are elements,
and `k` more, return the elements in the order of insertion and then null
`k` times, and leave the queue empty.  On every queue `Peek` returns what
`Get` returns and leaves the contents and `GetSize` as they were. -/
theorem queue_refines_fifo {α : Type} (calls : List (util.PutCall α)) (k : Nat) :
    (util.Queue.puts util.Queue.new calls).m_Queue = (util.fifoAfter [] calls).map some
      ∧ (util.Queue.gets ((util.fifoAfter [] calls).length + k)
            (util.Queue.puts util.Queue.new calls)).1
          = (util.fifoAfter [] calls).map some ++ List.replicate k none
      ∧ (util.Queue.gets ((util.fifoAfter [] calls).length + k)
            (util.Queue.puts util.Queue.new calls)).2.m_Queue = []
      ∧ ∀ q : util.Queue α,
          q.Peek.1 = q.Get.1 ∧ q.Peek.2 = q ∧ q.Peek.2.GetSize = q.GetSize
            ∧ (q.Peek.1 = none → q.m_Queue.head? = none ∨ q.m_Queue.head? = some none) := by
  have hc := util.puts_contents calls util.Queue.new [] rfl
  have hg := util.gets_contents ((util.fifoAfter [] calls).map some) k
    (util.Queue.puts util.Queue.new calls) hc
  rw [List.length_map] at hg
  refine ⟨hc, hg.1, hg.2, ?_⟩
  intro q
  unfold util.Queue.Peek util.Queue.Get util.Queue.GetNonThreadSafe
  cases h : q.m_Queue with
  | nil => exact ⟨rfl, rfl, rfl, fun _ => Or.inl rfl⟩
  | cons x xs =>
    refine ⟨rfl, rfl, rfl, ?_⟩
    intro hx
    right
    have hx1 : x = none := hx
    rw [hx1]
    rfl

/-! ### Index retrieval -/

/-- An entry is among the placed entries exactly when it is the new one or
was there. -/
theorem mem_placeEntry {κ ν : Type} (lt : κ → κ → Bool) (entry x : κ × ν)
    (m : List (κ × ν)) : x ∈ placeEntry lt entry m ↔ x = entry ∨ x ∈ m := by
  induction m with
  | nil => simp [placeEntry]
  | cons e rest ih =>
    unfold placeEntry
    split
    · simp
    · simp only [List.mem_cons, ih]
      constructor
      · rintro (h | h | h)
        · exact Or.inr (Or.inl h)
        · exact Or.inl h
        · exact Or.inr (Or.inr h)
      · rintro (h | h | h)
        · exact Or.inr (Or.inl h)
        · exact Or.inl h
        · exact Or.inr (Or.inr h)

/-- Placing an entry whose key is new keeps the keys distinct. -/
theorem nodup_placeEntry {κ ν : Type} (lt : κ → κ → Bool) (entry : κ × ν)
    (m : List (κ × ν)) (hm : (m.map Prod.fst).Nodup) (hk : entry.1 ∉ m.map Prod.fst) :
    ((placeEntry lt entry m).map Prod.fst).Nodup := by
  induction m with
  | nil => simp [placeEntry]
  | cons e rest ih =>
    unfold placeEntry
    split
    · simp only [List.map_cons, List.nodup_cons]
      exact ⟨by simpa using hk, by simpa using hm⟩
    · simp only [List.map_cons, List.nodup_cons, List.mem_map, List.mem_cons,
        not_or] at hm hk ⊢
      refine ⟨?_, ih hm.2 (by simpa using hk.2)⟩
      rintro ⟨x, hx, hxe⟩
      rcases (mem_placeEntry lt entry x rest).mp hx with h | h
      · rw [h] at hxe
        exact hk.1 hxe
      · exact hm.1 ⟨x, h, hxe⟩

/-- The test `mapHas` holds exactly when the key is among the keys. -/
theorem mapHas_iff {κ ν : Type} [DecidableEq κ] (m : List (κ × ν)) (key : κ) :
    mapHas m key = true ↔ key ∈ m.map Prod.fst := by
  unfold mapHas
  simp only [List.any_eq_true, decide_eq_true_eq, List.mem_map]

/-- Two entries under one key of a map with distinct keys are the same. -/
theorem eq_of_nodup_keys {κ ν : Type} (m : List (κ × ν)) (hm : (m.map Prod.fst).Nodup)
    (k : κ) (a b : ν) (ha : (k, a) ∈ m) (hb : (k, b) ∈ m) : a = b := by
  induction m with
  | nil => cases ha
  | cons e rest ih =>
    simp only [List.map_cons, List.nodup_cons, List.mem_map, not_exists, not_and] at hm
    rcases List.mem_cons.mp ha with h1 | h1
    · rcases List.mem_cons.mp hb with h2 | h2
      · have h3 : (k, a) = (k, b) := h1.trans h2.symm
        exact (Prod.mk.inj h3).2
      · exact absurd (by rw [← h1]) (hm.1 (k, b) h2)
    · rcases List.mem_cons.mp hb with h2 | h2
      · exact absurd (by rw [← h2]) (hm.1 (k, a) h1)
      · exact ih hm.2 h1 h2

/-- The loop of `retrieveIndex` inserts, in the order of the responses, the
packets `indexOf` gives. -/
theorem retrieveIndexLoop_eq (C : Codec) (results : List CommunicationPacket) :
    ∀ indices : List (Tag32 × IndexPacket),
      (retrieveIndexLoop C results indices).1
        = (results.filterMap (indexOf C)).foldl
            (fun m packet => mapInsert tagLt m packet.hash packet) indices := by
  induction results with
  | nil =>
    intro indices
    rfl
  | cons response rest ih =>
    intro indices
    unfold retrieveIndexLoop
    by_cases h1 : response.type ≠ C.CommN
    · rw [if_pos h1, ih]
      have hi : indexOf C response = none := by
        unfold indexOf
        rw [if_pos h1]
      rw [List.filterMap_cons, hi]
    · rw [if_neg h1]
      cases hp : C.from_comm_packet response with
      | none =>
        have hi : indexOf C response = none := by
          unfold indexOf
          rw [if_neg h1, hp]
        rw [List.filterMap_cons, hi]
        exact ih indices
      | some res_packet =>
        dsimp only
        by_cases h2 : res_packet.status ≠ C.OK
        · have hi : indexOf C response = none := by
            unfold indexOf
            rw [if_neg h1, hp]
            dsimp only
            rw [if_pos h2]
          rw [if_pos h2, List.filterMap_cons, hi]
          exact ih indices
        · rw [if_neg h2]
          by_cases h3 : res_packet.length < 38
          · have hi : indexOf C response = none := by
              unfold indexOf
              rw [if_neg h1, hp]
              dsimp only
              rw [if_neg h2, if_pos h3]
            rw [if_pos h3, List.filterMap_cons, hi]
            exact ih indices
          · rw [if_neg h3]
            cases hb : C.fromBuffer res_packet.data with
            | none =>
              have hi : indexOf C response = none := by
                unfold indexOf
                rw [if_neg h1, hp]
                dsimp only
                rw [if_neg h2, if_neg h3, hb]
              rw [List.filterMap_cons, hi]
              exact ih indices
            | some index_packet =>
              dsimp only
              by_cases h4 : index_packet.data.isEmpty = true
              · have hi : indexOf C response = none := by
                  unfold indexOf
                  rw [if_neg h1, hp]
                  dsimp only
                  rw [if_neg h2, if_neg h3, hb]
                  dsimp only
                  rw [if_pos h4]
                rw [if_pos h4, List.filterMap_cons, hi]
                exact ih indices
              · have hi : indexOf C response = some index_packet := by
                  unfold indexOf
                  rw [if_neg h1, hp]
                  dsimp only
                  rw [if_neg h2, if_neg h3, hb]
                  dsimp only
                  rw [if_neg h4]
                rw [if_neg h4, List.filterMap_cons, hi]
                exact ih _

/-- What a run of `insert` calls leaves in a map: the keys stay distinct, the
entries that were there stay, every packet has its hash among the keys, and
an entry that was not there holds, under a key that was not there, the first
of the packets with that hash. -/
theorem insert_run (packets : List IndexPacket) :
    ∀ m : List (Tag32 × IndexPacket), (m.map Prod.fst).Nodup →
      ((packets.foldl (fun m packet => mapInsert tagLt m packet.hash packet) m).map
          Prod.fst).Nodup
        ∧ (∀ x ∈ m,
            x ∈ packets.foldl (fun m packet => mapInsert tagLt m packet.hash packet) m)
        ∧ (∀ q ∈ packets, q.hash ∈
            (packets.foldl (fun m packet => mapInsert tagLt m packet.hash packet) m).map
              Prod.fst)
        ∧ ∀ x ∈ packets.foldl (fun m packet => mapInsert tagLt m packet.hash packet) m,
            x ∈ m ∨ (x.1 ∉ m.map Prod.fst ∧ x.1 = x.2.hash
              ∧ packets.find? (fun q => decide (q.hash = x.1)) = some x.2) := by
  induction packets with
  | nil =>
    intro m hm
    exact ⟨hm, fun x hx => hx, fun q hq => (by cases hq), fun x hx => Or.inl hx⟩
  | cons p rest ih =>
    intro m hm
    simp only [List.foldl_cons]
    have hsub : ∀ x ∈ m, x ∈ mapInsert tagLt m p.hash p := by
      intro x hx
      unfold mapInsert
      split
      · exact hx
      · exact (mem_placeEntry tagLt (p.hash, p) x m).mpr (Or.inr hx)
    have hnd : ((mapInsert tagLt m p.hash p).map Prod.fst).Nodup := by
      unfold mapInsert
      split
      · exact hm
      · rename_i hh
        exact nodup_placeEntry tagLt (p.hash, p) m hm
          (fun hk => hh ((mapHas_iff m p.hash).mpr hk))
    have hin : p.hash ∈ (mapInsert tagLt m p.hash p).map Prod.fst := by
      unfold mapInsert
      split
      · rename_i hh
        exact (mapHas_iff m p.hash).mp hh
      · exact List.mem_map.mpr
          ⟨(p.hash, p), (mem_placeEntry tagLt (p.hash, p) _ m).mpr (Or.inl rfl), rfl⟩
    have hnew : ∀ x ∈ mapInsert tagLt m p.hash p,
        x ∈ m ∨ (x = (p.hash, p) ∧ p.hash ∉ m.map Prod.fst) := by
      intro x hx
      unfold mapInsert at hx
      split at hx
      · exact Or.inl hx
      · rename_i hh
        rcases (mem_placeEntry tagLt (p.hash, p) x m).mp hx with h | h
        · exact Or.inr ⟨h, fun hk => hh ((mapHas_iff m p.hash).mpr hk)⟩
        · exact Or.inl h
    obtain ⟨i1, i2, i3, i4⟩ := ih (mapInsert tagLt m p.hash p) hnd
    refine ⟨i1, fun x hx => i2 x (hsub x hx), ?_, ?_⟩
    · intro q hq
      rcases List.mem_cons.mp hq with h | h
      · rw [h]
        obtain ⟨y, hy, hyk⟩ := List.mem_map.mp hin
        exact List.mem_map.mpr ⟨y, i2 y hy, hyk⟩
      · exact i3 q h
    · intro x hx
      rcases i4 x hx with h | ⟨hk, hh, hf⟩
      · rcases hnew x h with h1 | ⟨h1, h2⟩
        · exact Or.inl h1
        · right
          rw [h1]
          refine ⟨h2, rfl, ?_⟩
          simp [List.find?_cons]
      · right
        have hk1 : x.1 ∉ m.map Prod.fst := by
          intro hmem
          obtain ⟨y, hy, hyk⟩ := List.mem_map.mp hmem
          exact hk (List.mem_map.mpr ⟨y, hsub y hy, hyk⟩)
        have hne : p.hash ≠ x.1 := by
          intro heq
          exact hk (heq ▸ hin)
        refine ⟨hk1, hh, ?_⟩
        rw [List.find?_cons]
        simp only [hne, decide_False]
        exact hf

/-- C28, as the code has it: `retrieveIndex` returns at most one index packet
for each value of the hash field; a packet it returns is, among the packets
of the responses that are of type `CommN`, parse, have status OK, hold at
least 38 bytes and list an entry, the first in response order with its hash;
and every such packet has a packet with its hash returned. -/
theorem retrieveIndex_keeps_first (C : Codec) (results : List CommunicationPacket) :
    ((retrieveIndex C results).1.map fun packet => packet.hash).Nodup
      ∧ (∀ p ∈ (retrieveIndex C results).1,
          (results.filterMap (indexOf C)).find? (fun q => decide (q.hash = p.hash)) = some p)
      ∧ ∀ q ∈ results.filterMap (indexOf C),
          ∃ p ∈ (retrieveIndex C results).1, p.hash = q.hash := by
  unfold retrieveIndex
  cases results with
  | nil =>
    refine ⟨List.nodup_nil, ?_, ?_⟩
    · intro p hp
      cases hp
    · intro q hq
      cases hq
  | cons r rest =>
    simp only [List.isEmpty_cons, Bool.false_eq_true, if_false]
    rw [retrieveIndexLoop_eq]
    obtain ⟨i1, _, i3, i4⟩ := insert_run ((r :: rest).filterMap (indexOf C)) [] List.nodup_nil
    have hentry : ∀ x ∈ ((r :: rest).filterMap (indexOf C)).foldl
        (fun m packet => mapInsert tagLt m packet.hash packet) [],
        x.1 = x.2.hash ∧ ((r :: rest).filterMap (indexOf C)).find?
          (fun q => decide (q.hash = x.1)) = some x.2 := by
      intro x hx
      rcases i4 x hx with h | ⟨_, hh, hf⟩
      · cases h
      · exact ⟨hh, hf⟩
    refine ⟨?_, ?_, ?_⟩
    · rw [List.map_map]
      have hmap : (((r :: rest).filterMap (indexOf C)).foldl
          (fun m packet => mapInsert tagLt m packet.hash packet) []).map
            ((fun packet : IndexPacket => packet.hash) ∘ fun packet => packet.2)
          = (((r :: rest).filterMap (indexOf C)).foldl
          (fun m packet => mapInsert tagLt m packet.hash packet) []).map Prod.fst := by
        apply List.map_congr_left
        intro x hx
        exact (hentry x hx).1.symm
      rw [hmap]
      exact i1
    · intro p hp
      obtain ⟨x, hx, hxp⟩ := List.mem_map.mp hp
      have hx2 := hentry x hx
      rw [← hxp, ← hx2.1]
      exact hx2.2
    · intro q hq
      obtain ⟨x, hx, hxk⟩ := List.mem_map.mp (i3 q hq)
      refine ⟨x.2, List.mem_map.mpr ⟨x, hx, rfl⟩, ?_⟩
      rw [← (hentry x hx).1]
      exact hxk

/-- C28, as the claim has it, fails: of two responses that carry index
packets with the same hash, the first listing the key of ones and the second
the key of twos, `retrieveIndex` returns the first and not the last. -/
theorem retrieveIndex_not_last :
    ([toyResponse 1, toyResponse 2].filterMap (indexOf toyCodec)).map
        (fun packet => (packet.hash.val, keysOf packet))
        = [(List.replicate 32 0, [List.replicate 32 1]),
           (List.replicate 32 0, [List.replicate 32 2])]
      ∧ (retrieveIndex toyCodec [toyResponse 1, toyResponse 2]).1.map keysOf
        = [[List.replicate 32 1]] := by
  constructor
  · rfl
  · rfl

/-! ### The threads of the worker -/

namespace EmailWorker

/-- The assignment `m[key] = value` adds an entry when the key is new. -/
theorem mapAssign_absent {κ ν : Type} [DecidableEq κ] (lt : κ → κ → Bool)
    (m : List (κ × ν)) (key : κ) (value : ν) (h : mapHas m key = false) :
    mapAssign lt m key value = placeEntry lt (key, value) m := by
  unfold mapAssign
  rw [h]
  rfl

/-- The loop of `startCheckEmailTasks` leaves the flag and the threads other
than check threads as they were. -/
theorem startCheckLoop_frame (identities : List BoteIdentityFull) :
    ∀ w : EmailWorker,
      (startCheckLoop identities w).started_ = w.started_
        ∧ (startCheckLoop identities w).m_worker_thread_ = w.m_worker_thread_
        ∧ (startCheckLoop identities w).m_check_thread_ = w.m_check_thread_
        ∧ (startCheckLoop identities w).m_send_thread_ = w.m_send_thread_ := by
  induction identities with
  | nil =>
    intro w
    exact ⟨rfl, rfl, rfl, rfl⟩
  | cons identity rest ih =>
    intro w
    unfold startCheckLoop
    split
    · exact ih w
    · exact ih _

/-- The loop of `stopCheckEmailTasks` leaves the flag and the threads other
than check threads as they were. -/
theorem stopCheckLoop_frame (n : Nat) :
    ∀ w : EmailWorker,
      (stopCheckLoop n w).started_ = w.started_
        ∧ (stopCheckLoop n w).m_worker_thread_ = w.m_worker_thread_
        ∧ (stopCheckLoop n w).m_check_thread_ = w.m_check_thread_
        ∧ (stopCheckLoop n w).m_send_thread_ = w.m_send_thread_ := by
  induction n with
  | zero =>
    intro w
    exact ⟨rfl, rfl, rfl, rfl⟩
  | succ n ih =>
    intro w
    unfold stopCheckLoop
    split
    · exact ⟨rfl, rfl, rfl, rfl⟩
    · exact ih _

/-- Member function `startSendEmailTask` leaves the flag, the worker thread
and the delivery thread as they were. -/
theorem startSendEmailTask_frame (w : EmailWorker) (identities : List BoteIdentityFull) :
    (startSendEmailTask w identities).started_ = w.started_
      ∧ (startSendEmailTask w identities).m_worker_thread_ = w.m_worker_thread_
      ∧ (startSendEmailTask w identities).m_check_thread_ = w.m_check_thread_ := by
  unfold startSendEmailTask
  split
  · exact ⟨rfl, rfl, rfl⟩
  · exact ⟨rfl, rfl, rfl⟩

/-- Member function `stopSendEmailTask` leaves the flag, the worker thread
and the delivery thread as they were. -/
theorem stopSendEmailTask_frame (w : EmailWorker) :
    (stopSendEmailTask w).started_ = w.started_
      ∧ (stopSendEmailTask w).m_worker_thread_ = w.m_worker_thread_
      ∧ (stopSendEmailTask w).m_check_thread_ = w.m_check_thread_ := by
  unfold stopSendEmailTask
  split
  · split
    · exact ⟨rfl, rfl, rfl⟩
    · exact ⟨rfl, rfl, rfl⟩
  · exact ⟨rfl, rfl, rfl⟩

/-- Member function `startCheckEmailTasks` leaves the flag, the worker
thread, the delivery thread and the send thread as they were. -/
theorem startCheckEmailTasks_frame (w : EmailWorker) (identities : List BoteIdentityFull) :
    (startCheckEmailTasks w identities).started_ = w.started_
      ∧ (startCheckEmailTasks w identities).m_worker_thread_ = w.m_worker_thread_
      ∧ (startCheckEmailTasks w identities).m_check_thread_ = w.m_check_thread_
      ∧ (startCheckEmailTasks w identities).m_send_thread_ = w.m_send_thread_ := by
  unfold startCheckEmailTasks
  split
  · exact ⟨rfl, rfl, rfl, rfl⟩
  · exact startCheckLoop_frame identities w

/-- While `started_` is false the three start functions do nothing. -/
theorem start_tasks_stopped (w : EmailWorker) (identities : List BoteIdentityFull)
    (h : w.started_ = false) :
    startSendEmailTask w identities = w ∧ startCheckEmailTasks w identities = w
      ∧ start_check_delivery_task w = w := by
  refine ⟨?_, ?_, ?_⟩
  · unfold startSendEmailTask
    rw [h]
    rfl
  · unfold startCheckEmailTasks
    rw [h]
    rfl
  · unfold start_check_delivery_task
    rw [h]
    rfl

/-- Member function `start` on a stopped worker creates the thread of `run`
and nothing else. -/
theorem start_stopped (w : EmailWorker) (identities : List BoteIdentityFull)
    (h : w.started_ = false) :
    start w identities
      = { w with started_ := true,
                 m_worker_thread_ := some { id := w.created.length, task := Task.run },
                 created := w.created ++ [{ id := w.created.length, task := Task.run }] } := by
  obtain ⟨h1, h2, h3⟩ := start_tasks_stopped w identities h
  unfold start
  rw [h]
  simp only [Bool.false_and, Bool.false_eq_true, if_false]
  rw [h1, h2, h3]
  split <;> rfl

/-- A worker that has a worker thread whenever `started_` holds and has no
delivery thread stays so under every call. -/
theorem call_settled (w : EmailWorker) (c : Call)
    (h : (w.started_ = true → w.m_worker_thread_.isSome = true) ∧ w.m_check_thread_ = none) :
    ((call w c).started_ = true → (call w c).m_worker_thread_.isSome = true)
      ∧ (call w c).m_check_thread_ = none := by
  cases c with
  | start identities =>
    rw [show call w (Call.start identities) = start w identities from rfl]
    cases hs : w.started_ with
    | true =>
      have hw := h.1 hs
      unfold start
      rw [hs, hw]
      exact h
    | false =>
      rw [start_stopped w identities hs]
      exact ⟨fun _ => rfl, h.2⟩
  | run identities =>
    rw [show call w (Call.run identities) = run w identities from rfl]
    unfold run
    split
    · exact h
    · split
      · have f1 := startCheckEmailTasks_frame w identities
        dsimp only
        split
        · have f2 := startSendEmailTask_frame (startCheckEmailTasks w identities) identities
          rw [f2.1, f2.2.1, f2.2.2, f1.1, f1.2.1, f1.2.2.1]
          exact h
        · rw [f1.1, f1.2.1, f1.2.2.1]
          exact h
      · have f1 := stopSendEmailTask_frame w
        have f2 := stopCheckLoop_frame (stopSendEmailTask w).m_check_threads_.length
          (stopSendEmailTask w)
        unfold stopCheckEmailTasks
        rw [f2.1, f2.2.1, f2.2.2.1, f1.1, f1.2.1, f1.2.2]
        exact h
  | stop =>
    rw [show call w Call.stop = stop w from rfl]
    unfold stop
    split
    · exact h
    · have f1 := stopSendEmailTask_frame { w with started_ := false }
      have f2 := stopCheckLoop_frame
        (stopSendEmailTask { w with started_ := false }).m_check_threads_.length
        (stopSendEmailTask { w with started_ := false })
      have hnone : (stopCheckEmailTasks (stopSendEmailTask { w with started_ := false })).m_check_thread_
          = none := by
        unfold stopCheckEmailTasks
        rw [f2.2.2.1, f1.2.2]
        exact h.2
      have hstopped : (stopCheckEmailTasks
          (stopSendEmailTask { w with started_ := false })).started_ = false := by
        unfold stopCheckEmailTasks
        rw [f2.1, f1.1]
      unfold stop_check_delivery_task
      rw [hnone]
      dsimp only
      rw [hstopped]
      exact ⟨fun hf => (by cases hf), hnone⟩

/-- Every sequence of calls keeps a worker settled. -/
theorem calls_settled (calls : List Call) :
    ∀ w : EmailWorker,
      (w.started_ = true → w.m_worker_thread_.isSome = true) ∧ w.m_check_thread_ = none →
      ((calls.foldl call w).started_ = true → (calls.foldl call w).m_worker_thread_.isSome = true)
        ∧ (calls.foldl call w).m_check_thread_ = none := by
  induction calls with
  | nil =>
    intro w h
    exact h
  | cons c rest ih =>
    intro w h
    exact ih (call w c) (call_settled w c h)

/-- A change that leaves the map of check threads, creates no check thread and
forgets no join keeps the check tasks in order. -/
theorem tidy_of_same_table (w w1 : EmailWorker)
    (ht : w1.m_check_threads_ = w.m_check_threads_)
    (hc : ∀ t ∈ w1.created, t ∈ w.created ∨ ∀ name : Bytes, t.task ≠ Task.checkEmailTask name)
    (hj : ∀ t ∈ w.joined, t ∈ w1.joined) (h : Tidy w) : Tidy w1 := by
  refine ⟨by rw [ht]; exact h.1, ?_⟩
  intro t ht1 name htask hnj
  rcases hc t ht1 with h1 | h1
  · rw [ht]
    exact h.2 t h1 name htask (fun hj1 => hnj (hj t hj1))
  · exact absurd htask (h1 name)

/-- The loop of `startCheckEmailTasks` keeps the check tasks in order. -/
theorem startCheckLoop_tidy (identities : List BoteIdentityFull) :
    ∀ w : EmailWorker, Tidy w → Tidy (startCheckLoop identities w) := by
  induction identities with
  | nil =>
    intro w h
    exact h
  | cons identity rest ih =>
    intro w h
    unfold startCheckLoop
    split
    · exact ih w h
    · rename_i hex
      apply ih
      have hab : mapHas w.m_check_threads_ identity.publicName = false := by
        simpa [check_thread_exist] using hex
      have hk : identity.publicName ∉ w.m_check_threads_.map Prod.fst := by
        intro hmem
        rw [(mapHas_iff _ _).mpr hmem] at hab
        cases hab
      constructor
      · show ((mapAssign memcmpLt w.m_check_threads_ identity.publicName
            { id := w.created.length, task := Task.checkEmailTask identity.publicName }).map
              Prod.fst).Nodup
        rw [mapAssign_absent memcmpLt _ _ _ hab]
        exact nodup_placeEntry memcmpLt _ _ h.1 hk
      · intro t ht name htask hnj
        show (name, t) ∈ mapAssign memcmpLt w.m_check_threads_ identity.publicName
            { id := w.created.length, task := Task.checkEmailTask identity.publicName }
        rw [mapAssign_absent memcmpLt _ _ _ hab]
        have ht1 : t ∈ w.created ++
            [{ id := w.created.length, task := Task.checkEmailTask identity.publicName }] := ht
        rcases List.mem_append.mp ht1 with h1 | h1
        · exact (mem_placeEntry memcmpLt _ _ _).mpr (Or.inr (h.2 t h1 name htask hnj))
        · have h2 := List.mem_singleton.mp h1
          rw [h2] at htask
          have h3 : identity.publicName = name := by
            injection htask
          rw [h2, ← h3]
          exact (mem_placeEntry memcmpLt _ _ _).mpr (Or.inl rfl)

/-- The loop of `stopCheckEmailTasks` keeps the check tasks in order. -/
theorem stopCheckLoop_tidy (n : Nat) :
    ∀ w : EmailWorker, Tidy w → Tidy (stopCheckLoop n w) := by
  induction n with
  | zero =>
    intro w h
    exact h
  | succ n ih =>
    intro w h
    unfold stopCheckLoop
    split
    · exact h
    · rename_i it tl heq
      apply ih
      constructor
      · show ((mapErase w.m_check_threads_ it.1).map Prod.fst).Nodup
        exact List.Nodup.sublist ((List.filter_sublist _).map Prod.fst) h.1
      · intro t ht name htask hnj
        show (name, t) ∈ mapErase w.m_check_threads_ it.1
        have hnj1 : t ∉ w.joined ++ [it.2] := hnj
        have hnj2 : t ∉ w.joined := fun hm => hnj1 (List.mem_append.mpr (Or.inl hm))
        have hne : t ≠ it.2 := fun he =>
          hnj1 (List.mem_append.mpr (Or.inr (List.mem_singleton.mpr he)))
        have hin := h.2 t ht name htask hnj2
        unfold mapErase
        refine List.mem_filter.mpr ⟨hin, ?_⟩
        have hkey : name ≠ it.1 := by
          intro he
          have hit : (it.1, it.2) ∈ w.m_check_threads_ := by
            rw [heq]
            exact List.mem_cons_self _ _
          rw [he] at hin
          exact hne (eq_of_nodup_keys _ h.1 it.1 t it.2 hin hit)
        simpa using hkey

/-- Every call keeps the check tasks in order. -/
theorem call_tidy (w : EmailWorker) (c : Call) (h : Tidy w) : Tidy (call w c) := by
  have hsend : ∀ (w : EmailWorker) (identities : List BoteIdentityFull),
      Tidy w → Tidy (startSendEmailTask w identities) := by
    intro w identities h
    unfold startSendEmailTask
    split
    · exact h
    · refine tidy_of_same_table w _ rfl ?_ (fun t ht => ht) h
      intro t ht
      have ht1 : t ∈ w.created ++ [{ id := w.created.length, task := Task.sendEmailTask }] := ht
      rcases List.mem_append.mp ht1 with h1 | h1
      · exact Or.inl h1
      · right
        intro name hn
        rw [List.mem_singleton.mp h1] at hn
        cases hn
  have hdeliv : ∀ w : EmailWorker, Tidy w → Tidy (start_check_delivery_task w) := by
    intro w h
    unfold start_check_delivery_task
    split
    · exact h
    · refine tidy_of_same_table w _ rfl ?_ (fun t ht => ht) h
      intro t ht
      have ht1 : t ∈ w.created ++
          [{ id := w.created.length, task := Task.check_delivery_task }] := ht
      rcases List.mem_append.mp ht1 with h1 | h1
      · exact Or.inl h1
      · right
        intro name hn
        rw [List.mem_singleton.mp h1] at hn
        cases hn
  have hcheck : ∀ (w : EmailWorker) (identities : List BoteIdentityFull),
      Tidy w → Tidy (startCheckEmailTasks w identities) := by
    intro w identities h
    unfold startCheckEmailTasks
    split
    · exact h
    · exact startCheckLoop_tidy identities w h
  have hstopsend : ∀ w : EmailWorker, Tidy w → Tidy (stopSendEmailTask w) := by
    intro w h
    unfold stopSendEmailTask
    split
    · split
      · refine tidy_of_same_table w _ rfl (fun t ht => Or.inl ht) ?_ h
        intro t ht
        exact List.mem_append.mpr (Or.inl ht)
      · exact h
    · exact h
  have hstopdeliv : ∀ w : EmailWorker, Tidy w → Tidy (stop_check_delivery_task w) := by
    intro w h
    unfold stop_check_delivery_task
    split
    · split
      · refine tidy_of_same_table w _ rfl (fun t ht => Or.inl ht) ?_ h
        intro t ht
        exact List.mem_append.mpr (Or.inl ht)
      · exact h
    · exact h
  have hstopcheck : ∀ w : EmailWorker, Tidy w → Tidy (stopCheckEmailTasks w) := by
    intro w h
    exact stopCheckLoop_tidy _ w h
  have hflag : ∀ (w : EmailWorker) (b : Bool), Tidy w → Tidy { w with started_ := b } := by
    intro w b h
    exact h
  cases c with
  | start identities =>
    rw [show call w (Call.start identities) = start w identities from rfl]
    unfold start
    split
    · exact h
    · have h1 : Tidy (if (identities.length == 0) = true then w
          else start_check_delivery_task
            (startCheckEmailTasks (startSendEmailTask w identities) identities)) := by
        split
        · exact h
        · exact hdeliv _ (hcheck _ _ (hsend _ _ h))
      refine tidy_of_same_table
        (if identities.length == 0 then w
          else start_check_delivery_task
            (startCheckEmailTasks (startSendEmailTask w identities) identities))
        _ rfl ?_ (fun t ht => ht) h1
      intro t ht
      have ht1 : t ∈ (if identities.length == 0 then w
          else start_check_delivery_task
            (startCheckEmailTasks (startSendEmailTask w identities) identities)).created
            ++ [{ id := (if identities.length == 0 then w
          else start_check_delivery_task
            (startCheckEmailTasks (startSendEmailTask w identities) identities)).created.length,
                  task := Task.run }] := ht
      rcases List.mem_append.mp ht1 with h2 | h2
      · exact Or.inl h2
      · right
        intro name hn
        rw [List.mem_singleton.mp h2] at hn
        cases hn
  | run identities =>
    rw [show call w (Call.run identities) = run w identities from rfl]
    unfold run
    split
    · exact h
    · split
      · dsimp only
        split
        · exact hsend _ _ (hcheck _ _ h)
        · exact hcheck _ _ h
      · exact hstopcheck _ (hstopsend _ h)
  | stop =>
    rw [show call w Call.stop = stop w from rfl]
    unfold stop
    split
    · exact h
    · exact hstopdeliv _ (hstopcheck _ (hstopsend _ (hflag w false h)))

/-- Every sequence of calls keeps the check tasks in order. -/
theorem calls_tidy (calls : List Call) :
    ∀ w : EmailWorker, Tidy w → Tidy (calls.foldl call w) := by
  induction calls with
  | nil =>
    intro w h
    exact h
  | cons c rest ih =>
    intro w h
    exact ih (call w c) (call_tidy w c h)

/-- The loop of `startCheckEmailTasks` keeps every entry of the map, and a
thread it creates runs `checkEmailTask` for a public name that had no entry. -/
theorem startCheckLoop_adds (identities : List BoteIdentityFull) :
    ∀ w : EmailWorker,
      (∀ entry ∈ w.m_check_threads_, entry ∈ (startCheckLoop identities w).m_check_threads_)
        ∧ ∀ t ∈ (startCheckLoop identities w).created,
            t ∈ w.created ∨ ∃ name : Bytes, t.task = Task.checkEmailTask name
              ∧ check_thread_exist w name = false := by
  induction identities with
  | nil =>
    intro w
    exact ⟨fun entry he => he, fun t ht => Or.inl ht⟩
  | cons identity rest ih =>
    intro w
    unfold startCheckLoop
    split
    · exact ih w
    · rename_i hex
      have hab : mapHas w.m_check_threads_ identity.publicName = false := by
        simpa [check_thread_exist] using hex
      obtain ⟨i1, i2⟩ := ih
        { (spawn w (Task.checkEmailTask identity.publicName)).2 with
          m_check_threads_ :=
            mapAssign memcmpLt (spawn w (Task.checkEmailTask identity.publicName)).2.m_check_threads_
              identity.publicName (spawn w (Task.checkEmailTask identity.publicName)).1 }
      have hsub : ∀ entry ∈ w.m_check_threads_,
          entry ∈ mapAssign memcmpLt w.m_check_threads_ identity.publicName
            { id := w.created.length, task := Task.checkEmailTask identity.publicName } := by
        intro entry he
        rw [mapAssign_absent memcmpLt _ _ _ hab]
        exact (mem_placeEntry memcmpLt _ _ _).mpr (Or.inr he)
      constructor
      · intro entry he
        exact i1 entry (hsub entry he)
      · intro t ht
        rcases i2 t ht with h1 | ⟨name, hn, hno⟩
        · have h2 : t ∈ w.created ++
              [{ id := w.created.length, task := Task.checkEmailTask identity.publicName }] := h1
          rcases List.mem_append.mp h2 with h3 | h3
          · exact Or.inl h3
          · right
            refine ⟨identity.publicName, ?_, ?_⟩
            · rw [List.mem_singleton.mp h3]
            · exact hab
        · right
          refine ⟨name, hn, ?_⟩
          cases hc : check_thread_exist w name with
          | false => rfl
          | true =>
            have hmem := (mapHas_iff _ _).mp hc
            obtain ⟨y, hy, hyk⟩ := List.mem_map.mp hmem
            have hy2 := hsub y hy
            have hhas : mapHas (mapAssign memcmpLt w.m_check_threads_ identity.publicName
                { id := w.created.length, task := Task.checkEmailTask identity.publicName })
                name = true :=
              (mapHas_iff _ _).mpr (List.mem_map.mpr ⟨y, hy2, hyk⟩)
            have hno1 : mapHas (mapAssign memcmpLt w.m_check_threads_ identity.publicName
                { id := w.created.length, task := Task.checkEmailTask identity.publicName })
                name = false := hno
            rw [hhas] at hno1
            cases hno1

end EmailWorker

/-- C25: `start` on a stopped worker, whatever identities are configured,
sets `started_` and creates the thread of `run` and nothing else, because the
three functions that start tasks return at once while `started_` is false.
With the identity `alice` configured, no send task, no check task and no
delivery task exists when `start` returns; the first turn of `run` creates
the check task of `alice` and the send task; and no sequence of calls ever
creates the delivery task. -/
theorem start_creates_no_task :
    (∀ (w : EmailWorker) (identities : List BoteIdentityFull), w.started_ = false →
        (w.start identities).started_ = true
          ∧ (w.start identities).created
              = w.created ++ [{ id := w.created.length, task := Task.run }]
          ∧ (w.start identities).m_send_thread_ = w.m_send_thread_
          ∧ (w.start identities).m_check_thread_ = w.m_check_thread_
          ∧ (w.start identities).m_check_threads_ = w.m_check_threads_)
      ∧ (EmailWorker.new.start [toyFull]).started_ = true
      ∧ (EmailWorker.new.start [toyFull]).created = [{ id := 0, task := Task.run }]
      ∧ (EmailWorker.new.start [toyFull]).m_send_thread_ = none
      ∧ (EmailWorker.new.start [toyFull]).m_check_thread_ = none
      ∧ (EmailWorker.new.start [toyFull]).m_check_threads_ = []
      ∧ ((EmailWorker.new.start [toyFull]).run [toyFull]).created
          = [{ id := 0, task := Task.run },
             { id := 1, task := Task.checkEmailTask (S "alice") },
             { id := 2, task := Task.sendEmailTask }]
      ∧ ((EmailWorker.new.start [toyFull]).run [toyFull]).m_check_thread_ = none
      ∧ ∀ calls : List EmailWorker.Call, (EmailWorker.after calls).m_check_thread_ = none := by
  refine ⟨?_, rfl, rfl, rfl, rfl, rfl, rfl, rfl, ?_⟩
  · intro w identities h
    rw [EmailWorker.start_stopped w identities h]
    exact ⟨rfl, rfl, rfl, rfl, rfl⟩
  · intro calls
    exact (EmailWorker.calls_settled calls EmailWorker.new
      ⟨fun hf => (by cases hf), rfl⟩).2

/-- C26: in every state the worker reaches from its construction through
calls of `start`, turns of `run` and calls of `stop`, no two entries of the
map of check tasks have the same public name, and two check threads created
for one public name and not joined are one thread.  On every worker
`startCheckEmailTasks` keeps each entry of the map as it is, and a thread it
creates runs `checkEmailTask` for a public name that had no entry. -/
theorem check_tasks_one_per_name (calls : List EmailWorker.Call) :
    ((EmailWorker.after calls).m_check_threads_.map Prod.fst).Nodup
      ∧ (∀ t1 ∈ (EmailWorker.after calls).created, ∀ t2 ∈ (EmailWorker.after calls).created,
          ∀ name : Bytes, t1.task = Task.checkEmailTask name →
            t2.task = Task.checkEmailTask name →
            t1 ∉ (EmailWorker.after calls).joined → t2 ∉ (EmailWorker.after calls).joined →
            t1 = t2)
      ∧ ∀ (w : EmailWorker) (identities : List BoteIdentityFull),
          (∀ entry ∈ w.m_check_threads_,
              entry ∈ (w.startCheckEmailTasks identities).m_check_threads_)
            ∧ ∀ t ∈ (w.startCheckEmailTasks identities).created,
                t ∈ w.created ∨ ∃ name : Bytes, t.task = Task.checkEmailTask name
                  ∧ w.check_thread_exist name = false := by
  have htidy : EmailWorker.Tidy (EmailWorker.after calls) :=
    EmailWorker.calls_tidy calls EmailWorker.new
      ⟨List.nodup_nil, fun t ht => (by cases ht)⟩
  refine ⟨htidy.1, ?_, ?_⟩
  · intro t1 h1 t2 h2 name hn1 hn2 hj1 hj2
    exact eq_of_nodup_keys _ htidy.1 name t1 t2 (htidy.2 t1 h1 name hn1 hj1)
      (htidy.2 t2 h2 name hn2 hj2)
  · intro w identities
    unfold EmailWorker.startCheckEmailTasks
    split
    · exact ⟨fun entry he => he, fun t ht => Or.inl ht⟩
    · exact EmailWorker.startCheckLoop_adds identities w

/-- C26, on the worker started with the identity `alice` after two turns of
`run`: the map holds the one check thread of `alice`, created in the first
turn, and its keys are distinct. -/
theorem check_tasks_one_per_name_witness :
    (EmailWorker.after [EmailWorker.Call.start [toyFull], EmailWorker.Call.run [toyFull],
        EmailWorker.Call.run [toyFull]]).m_check_threads_
        = [(S "alice", { id := 1, task := Task.checkEmailTask (S "alice") })]
      ∧ ((EmailWorker.after [EmailWorker.Call.start [toyFull], EmailWorker.Call.run [toyFull],
          EmailWorker.Call.run [toyFull]]).m_check_threads_.map Prod.fst).Nodup :=
  ⟨rfl, (check_tasks_one_per_name [EmailWorker.Call.start [toyFull],
    EmailWorker.Call.run [toyFull], EmailWorker.Call.run [toyFull]]).1⟩

/-- C27, on the calls `Put (1)`, `Put ({2, 3})`, `Put ({})`: five calls of
`Get` return 1, 2, 3 and then null twice. -/
theorem queue_refines_fifo_witness :
    (util.Queue.gets 5
        (util.Queue.puts util.Queue.new
          [util.PutCall.item 1, util.PutCall.container [2, 3], util.PutCall.container []])).1
      = [some 1, some 2, some 3, none, none] :=
  (queue_refines_fifo
    [util.PutCall.item 1, util.PutCall.container [2, 3], util.PutCall.container []] 2).2.1

/-! ### The send round, position by position -/

/-- The body of the first loop, case by case. -/
theorem storeEmailStep_cases (E : Env) (nodes : List Bytes) (i : Nat) (e : Email) :
    (e.skip_ = true → storeEmailStep E nodes i e = .ok (e, []))
      ∧ (e.skip_ = false → ∀ e2, encrypt E e = .ok e2 →
          (e2.skip_ = true → storeEmailStep E nodes i e = .ok (e2, []))
            ∧ (e2.skip_ = false → nodes = [] →
                storeEmailStep E nodes i e
                  = .ok ({ e2 with skip_ := true },
                      [Event.storeEmail i e2.encrypted.key
                        (storeRequest e2.encrypted.toByte)]))
            ∧ (e2.skip_ = false → nodes ≠ [] →
                storeEmailStep E nodes i e
                  = .ok (e2,
                      [Event.storeEmail i e2.encrypted.key
                        (storeRequest e2.encrypted.toByte),
                       Event.safe e2.encrypted.toByte]))) := by
  refine ⟨?_, ?_⟩
  · intro hsk
    simp only [storeEmailStep, hsk, if_true]
  · intro hsk e2 hen
    refine ⟨?_, ?_, ?_⟩
    · intro h2
      simp only [storeEmailStep, hsk, hen, h2, Bool.false_eq_true, if_false, if_true]
    · intro h2 hn
      subst hn
      simp only [storeEmailStep, hsk, hen, h2, Bool.false_eq_true, if_false,
        List.isEmpty_nil, if_true]
    · intro h2 hn
      have hne : nodes.isEmpty = false := by
        cases nodes with
        | nil => exact absurd rfl hn
        | cons _ _ => rfl
      simp only [storeEmailStep, hsk, hen, h2, hne, Bool.false_eq_true, if_false]

/-- The body of the second loop, case by case. -/
theorem storeIndexStep_cases (now : Nat) (nodes : List Bytes) (i : Nat) (e : Email) :
    (e.skip_ = true → storeIndexStep now nodes i e = .ok (e, []))
      ∧ (e.skip_ = false → ∀ recipient, e.recipient = some recipient →
          (nodes = [] →
              storeIndexStep now nodes i e
                = .ok ({ e with skip_ := true },
                    [Event.storeIndex i recipient.identHash
                      (storeRequest (new_index_packet recipient e now).toByte)]))
            ∧ (nodes ≠ [] →
              storeIndexStep now nodes i e
                = .ok (e,
                    [Event.storeIndex i recipient.identHash
                      (storeRequest (new_index_packet recipient e now).toByte),
                     Event.safe (new_index_packet recipient e now).toByte]))) := by
  refine ⟨?_, ?_⟩
  · intro hsk
    simp only [storeIndexStep, hsk, if_true]
  · intro hsk recipient hr
    refine ⟨?_, ?_⟩
    · intro hn
      subst hn
      simp only [storeIndexStep, hsk, hr, Bool.false_eq_true, if_false, List.isEmpty_nil,
        if_true]
    · intro hn
      have hne : nodes.isEmpty = false := by
        cases nodes with
        | nil => exact absurd rfl hn
        | cons _ _ => rfl
      simp only [storeIndexStep, hsk, hr, hne, Bool.false_eq_true, if_false]

/-- In the trace of a round, a store of an encrypted packet comes from the
first loop, a store of an index packet from the second, and a move from the
third, each from the body run on the email at the position it names. -/
theorem sendRound_kinds (E : Env) (F : Fs) (now : Nat) (dht : Dht)
    (outbox ob1 ob2 : List Email) (ev1 ev2 : List Event) (disk : Disk) (g : Gen)
    (h1 : eachEmail (fun i email => storeEmailStep E (dht.storeE i) i email) 0 outbox
      = .ok (ob1, ev1))
    (h2 : eachEmail (fun i email => storeIndexStep now (dht.storeI i) i email) 0 ob1
      = .ok (ob2, ev2)) :
    (∀ i key pkt, Event.storeEmail i key pkt
          ∈ ev1 ++ ev2 ++ (finishLoop E F 0 ob2 disk g).2.2.2 →
        ∃ e e1 ev, outbox[i]? = some e
          ∧ storeEmailStep E (dht.storeE i) i e = .ok (e1, ev) ∧ ob1[i]? = some e1
          ∧ Event.storeEmail i key pkt ∈ ev)
      ∧ (∀ i hash pkt, Event.storeIndex i hash pkt
          ∈ ev1 ++ ev2 ++ (finishLoop E F 0 ob2 disk g).2.2.2 →
        ∃ e e1 ev, ob1[i]? = some e
          ∧ storeIndexStep now (dht.storeI i) i e = .ok (e1, ev) ∧ ob2[i]? = some e1
          ∧ Event.storeIndex i hash pkt ∈ ev)
      ∧ (∀ i f, Event.move i f ∈ ev1 ++ ev2 ++ (finishLoop E F 0 ob2 disk g).2.2.2 →
        ∃ e, ob2[i]? = some e ∧ e.skip_ = false ∧ f = e.filename)
      ∧ (∀ i hash pkt, Event.storeIndex i hash pkt ∉ ev1)
      ∧ (∀ i key pkt, Event.storeEmail i key pkt
          ∉ ev2 ++ (finishLoop E F 0 ob2 disk g).2.2.2) := by
  have k1 : ∀ x ∈ ev1, ∃ i e e1 ev, outbox[i]? = some e
      ∧ storeEmailStep E (dht.storeE i) i e = .ok (e1, ev) ∧ ob1[i]? = some e1 ∧ x ∈ ev
      ∧ ((∃ key pkt, x = Event.storeEmail i key pkt) ∨ ∃ d, x = Event.safe d) := by
    intro x hx
    obtain ⟨i, e, e1, ev, hi, hs, hg, hm⟩ := eachEmail_events _ outbox 0 ob1 ev1 h1 x hx
    simp only [Nat.zero_add] at hs
    exact ⟨i, e, e1, ev, hi, hs, hg, hm,
      (storeEmailStep_spec E (dht.storeE i) i e e1 ev hs).2.2.1 x hm⟩
  have k2 : ∀ x ∈ ev2, ∃ i e e1 ev, ob1[i]? = some e
      ∧ storeIndexStep now (dht.storeI i) i e = .ok (e1, ev) ∧ ob2[i]? = some e1 ∧ x ∈ ev
      ∧ ((∃ hash pkt, x = Event.storeIndex i hash pkt) ∨ ∃ d, x = Event.safe d) := by
    intro x hx
    obtain ⟨i, e, e1, ev, hi, hs, hg, hm⟩ := eachEmail_events _ ob1 0 ob2 ev2 h2 x hx
    simp only [Nat.zero_add] at hs
    exact ⟨i, e, e1, ev, hi, hs, hg, hm,
      (storeIndexStep_spec now (dht.storeI i) i e e1 ev hs).2.1 x hm⟩
  have k3 : ∀ x ∈ (finishLoop E F 0 ob2 disk g).2.2.2,
      ∃ i e, ob2[i]? = some e ∧ e.skip_ = false ∧ x = Event.move i e.filename := by
    intro x hx
    obtain ⟨i, e, hi, hs, hxe⟩ := (finishLoop_events E F ob2 0 disk g).1 x hx
    simp only [Nat.zero_add] at hxe
    exact ⟨i, e, hi, hs, hxe⟩
  refine ⟨?_, ?_, ?_, ?_, ?_⟩
  · intro i key pkt hx
    rcases List.mem_append.mp hx with h12 | h3
    · rcases List.mem_append.mp h12 with h | h
      · obtain ⟨j, e, e1, ev, hi, hs, hg, hm, hkind⟩ := k1 _ h
        rcases hkind with ⟨_, _, h0⟩ | ⟨_, h0⟩
        · cases h0
          exact ⟨e, e1, ev, hi, hs, hg, hm⟩
        · cases h0
      · obtain ⟨j, e, e1, ev, _, _, _, _, hkind⟩ := k2 _ h
        rcases hkind with ⟨_, _, h0⟩ | ⟨_, h0⟩ <;> cases h0
    · obtain ⟨j, e, _, _, h0⟩ := k3 _ h3
      cases h0
  · intro i hash pkt hx
    rcases List.mem_append.mp hx with h12 | h3
    · rcases List.mem_append.mp h12 with h | h
      · obtain ⟨j, e, e1, ev, _, _, _, _, hkind⟩ := k1 _ h
        rcases hkind with ⟨_, _, h0⟩ | ⟨_, h0⟩ <;> cases h0
      · obtain ⟨j, e, e1, ev, hi, hs, hg, hm, hkind⟩ := k2 _ h
        rcases hkind with ⟨_, _, h0⟩ | ⟨_, h0⟩
        · cases h0
          exact ⟨e, e1, ev, hi, hs, hg, hm⟩
        · cases h0
    · obtain ⟨j, e, _, _, h0⟩ := k3 _ h3
      cases h0
  · intro i f hx
    rcases List.mem_append.mp hx with h12 | h3
    · rcases List.mem_append.mp h12 with h | h
      · obtain ⟨j, e, e1, ev, _, _, _, _, hkind⟩ := k1 _ h
        rcases hkind with ⟨_, _, h0⟩ | ⟨_, h0⟩ <;> cases h0
      · obtain ⟨j, e, e1, ev, _, _, _, _, hkind⟩ := k2 _ h
        rcases hkind with ⟨_, _, h0⟩ | ⟨_, h0⟩ <;> cases h0
    · obtain ⟨j, e, hj, hsk, h0⟩ := k3 _ h3
      cases h0
      exact ⟨e, hj, hsk, rfl⟩
  · intro i hash pkt hx
    obtain ⟨j, e, e1, ev, _, _, _, _, hkind⟩ := k1 _ hx
    rcases hkind with ⟨_, _, h0⟩ | ⟨_, h0⟩ <;> cases h0
  · intro i key pkt hx
    rcases List.mem_append.mp hx with h | h
    · obtain ⟨j, e, e1, ev, _, _, _, _, hkind⟩ := k2 _ h
      rcases hkind with ⟨_, _, h0⟩ | ⟨_, h0⟩ <;> cases h0
    · obtain ⟨j, e, _, _, h0⟩ := k3 _ h
      cases h0

/-- What a round does with the email at one position of the out-box: the
email as the two store loops leave it, `e3`, stands at the same position of
the list the third loop works on; it is kept exactly when it is marked skip;
and its mark, the stores and the move issued for the position are settled by
the email, by `encrypt` and by the answers of the DHT. -/
theorem sendRound_position (E : Env) (F : Fs) (now : Nat) (dht : Dht)
    (outbox ob1 ob2 : List Email) (ev1 ev2 : List Event) (disk : Disk) (g : Gen)
    (hrec : ∀ e ∈ outbox, ∃ recipient, e.recipient = some recipient)
    (h1 : eachEmail (fun i email => storeEmailStep E (dht.storeE i) i email) 0 outbox
      = .ok (ob1, ev1))
    (h2 : eachEmail (fun i email => storeIndexStep now (dht.storeI i) i email) 0 ob1
      = .ok (ob2, ev2))
    (i : Nat) (e0 : Email) (hi0 : outbox[i]? = some e0) :
    ∃ e3, ob2[i]? = some e3
      ∧ e3.filename = e0.filename ∧ e3.recipient = e0.recipient
      ∧ (e3.skip_ = true →
          e3 ∈ ob2.filter (fun e => e.skip_)
            ∧ ∀ f, Event.move i f ∉ ev1 ++ ev2 ++ (finishLoop E F 0 ob2 disk g).2.2.2)
      ∧ (e3.skip_ = false →
          dht.storeE i ≠ [] ∧ dht.storeI i ≠ []
            ∧ (∃ key pkt, Event.storeEmail i key pkt
                ∈ ev1 ++ ev2 ++ (finishLoop E F 0 ob2 disk g).2.2.2)
            ∧ (∃ hash p, Event.storeIndex i hash p
                ∈ ev1 ++ ev2 ++ (finishLoop E F 0 ob2 disk g).2.2.2)
            ∧ Event.move i e3.filename
                ∈ ev1 ++ ev2 ++ (finishLoop E F 0 ob2 disk g).2.2.2)
      ∧ (e0.skip_ = true → e3 = e0)
      ∧ (e0.skip_ = false → ∃ e2, encrypt E e0 = .ok e2
          ∧ (e2.skip_ = true → e3 = e2)
          ∧ (e2.skip_ = false →
              Event.storeEmail i e2.encrypted.key (storeRequest e2.encrypted.toByte)
                  ∈ ev1 ++ ev2 ++ (finishLoop E F 0 ob2 disk g).2.2.2
                ∧ (dht.storeE i = [] →
                    e3 = { e2 with skip_ := true }
                      ∧ ∀ hash p, Event.storeIndex i hash p
                          ∉ ev1 ++ ev2 ++ (finishLoop E F 0 ob2 disk g).2.2.2)
                ∧ (dht.storeE i ≠ [] →
                    (∃ recipient, e2.recipient = some recipient
                      ∧ Event.storeIndex i recipient.identHash
                          (storeRequest (new_index_packet recipient e2 now).toByte)
                        ∈ ev1 ++ ev2 ++ (finishLoop E F 0 ob2 disk g).2.2.2)
                      ∧ (dht.storeI i = [] → e3 = { e2 with skip_ := true })
                      ∧ (dht.storeI i ≠ [] → e3 = e2)))) := by
  obtain ⟨kE, kI, kM, _, _⟩ := sendRound_kinds E F now dht outbox ob1 ob2 ev1 ev2 disk g h1 h2
  obtain ⟨e1, eva, hs1, hg1, hm1⟩ := eachEmail_get _ outbox 0 ob1 ev1 h1 i e0 hi0
  simp only [Nat.zero_add] at hs1
  obtain ⟨e3, evb, hs2, hg2, hm2⟩ := eachEmail_get _ ob1 0 ob2 ev2 h2 i e1 hg1
  simp only [Nat.zero_add] at hs2
  have spec1 := storeEmailStep_spec E (dht.storeE i) i e0 e1 eva hs1
  have spec2 := storeIndexStep_spec now (dht.storeI i) i e1 e3 evb hs2
  have down2 := storeIndexStep_down now (dht.storeI i) i e1 e3 evb hs2
  have cases1 := storeEmailStep_cases E (dht.storeE i) i e0
  have cases2 := storeIndexStep_cases now (dht.storeI i) i e1
  obtain ⟨recipient, hr0⟩ := hrec e0 (get_some_lt outbox i e0 hi0).2
  have hr1 : e1.recipient = some recipient := by rw [spec1.1, hr0]
  have in1 : ∀ x ∈ eva, x ∈ ev1 ++ ev2 ++ (finishLoop E F 0 ob2 disk g).2.2.2 :=
    fun x hx => List.mem_append_left _ (List.mem_append_left _ (hm1 x hx))
  have in2 : ∀ x ∈ evb, x ∈ ev1 ++ ev2 ++ (finishLoop E F 0 ob2 disk g).2.2.2 :=
    fun x hx => List.mem_append_left _ (List.mem_append_right _ (hm2 x hx))
  -- no index store is issued for the position when the email enters the second
  -- loop marked skip
  have noIndex : e1.skip_ = true → ∀ hash p, Event.storeIndex i hash p
      ∉ ev1 ++ ev2 ++ (finishLoop E F 0 ob2 disk g).2.2.2 := by
    intro hsk hash p hx
    obtain ⟨e, e', ev, hj, hs, _, hm⟩ := kI i hash p hx
    rw [hg1] at hj
    cases hj
    rw [(cases2.1 hsk)] at hs
    cases hs
    simp at hm
  refine ⟨e3, hg2, by rw [spec2.1, spec1.2.1], by rw [down2.1, spec1.1], ?_, ?_, ?_, ?_⟩
  · intro hsk
    refine ⟨List.mem_filter.mpr ⟨(get_some_lt ob2 i e3 hg2).2, hsk⟩, ?_⟩
    intro f hx
    obtain ⟨e, hj, hsk', _⟩ := kM i f hx
    rw [hg2] at hj
    cases hj
    rw [hsk] at hsk'
    cases hsk'
  · intro hsk
    obtain ⟨he31, hn2, r2, _, hidx⟩ := spec2.2.2.2.1 hsk
    rw [he31] at hsk
    obtain ⟨hn1, e2, _, _, _, hst⟩ := spec1.2.2.2.1 hsk
    refine ⟨hn1, hn2, ⟨_, _, in1 _ hst⟩, ⟨_, _, in2 _ hidx⟩, ?_⟩
    have hmv := (finishLoop_events E F ob2 0 disk g).2 i e3 hg2 (by rw [he31]; exact hsk)
    simp only [Nat.zero_add] at hmv
    exact List.mem_append_right _ hmv
  · intro hsk0
    have e10 : e1 = e0 := by
      have := cases1.1 hsk0
      rw [this] at hs1
      cases hs1
      rfl
    have e31 : e3 = e1 := by
      have := cases2.1 (by rw [e10]; exact hsk0)
      rw [this] at hs2
      cases hs2
      rfl
    rw [e31, e10]
  · intro hsk0
    obtain ⟨e2, hen⟩ := encrypt_total E e0 recipient hr0
    obtain ⟨c1, c2, c3⟩ := cases1.2 hsk0 e2 hen
    refine ⟨e2, hen, ?_, ?_⟩
    · intro hsk2
      have e12 : e1 = e2 := by
        rw [c1 hsk2] at hs1
        cases hs1
        rfl
      have e31 : e3 = e1 := by
        have := cases2.1 (by rw [e12]; exact hsk2)
        rw [this] at hs2
        cases hs2
        rfl
      rw [e31, e12]
    · intro hsk2
      have hstore : Event.storeEmail i e2.encrypted.key (storeRequest e2.encrypted.toByte)
          ∈ eva := by
        by_cases hn : dht.storeE i = []
        · rw [c2 hsk2 hn] at hs1
          cases hs1
          exact List.mem_singleton.mpr rfl
        · rw [c3 hsk2 hn] at hs1
          cases hs1
          exact List.mem_cons_self _ _
      refine ⟨in1 _ hstore, ?_, ?_⟩
      · intro hn
        have e12 : e1 = { e2 with skip_ := true } := by
          rw [c2 hsk2 hn] at hs1
          cases hs1
          rfl
        have hsk1 : e1.skip_ = true := by rw [e12]
        have e31 : e3 = e1 := by
          have := cases2.1 hsk1
          rw [this] at hs2
          cases hs2
          rfl
        exact ⟨by rw [e31, e12], noIndex hsk1⟩
      · intro hn
        have e12 : e1 = e2 := by
          rw [c3 hsk2 hn] at hs1
          cases hs1
          rfl
        have hsk1 : e1.skip_ = false := by rw [e12]; exact hsk2
        obtain ⟨d1, d2⟩ := cases2.2 hsk1 recipient hr1
        refine ⟨?_, ?_, ?_⟩
        · refine ⟨recipient, by rw [← e12]; exact hr1, ?_⟩
          rw [← e12]
          by_cases hn2 : dht.storeI i = []
          · rw [d1 hn2] at hs2
            cases hs2
            exact in2 _ (List.mem_singleton.mpr rfl)
          · rw [d2 hn2] at hs2
            cases hs2
            exact in2 _ (List.mem_cons_self _ _)
        · intro hn2
          rw [d1 hn2] at hs2
          cases hs2
          rw [e12]
        · intro hn2
          rw [d2 hn2] at hs2
          cases hs2
          exact e12


/-- C13: a round on an out-box whose emails all have a recipient runs to its
end.  Position by position, `stored` holds the emails as the two store loops
leave them, and the out-box after the round is `stored` without the emails
not marked skip, so an email stays exactly when it is marked skip and leaves
exactly when it is not.  For an email that is not skipped and that `encrypt`
does not skip, the store of its encrypted packet is issued; when no node
answers it, the email is marked skip, no index store is issued for it, it is
not moved and it stays in the out-box; when nodes answer it, the index store
is issued, and the email is marked skip, and stays, when no node answers that
one.  An email leaves the out-box only when both stores were issued and
answered by at least one node, and it is then moved; and no position is moved
that was not. -/
theorem send_round_store_failure (E : Env) (F : Fs) (now : Nat) (dht : Dht)
    (outbox : List Email) (disk : Disk) (g : Gen)
    (hrec : ∀ e ∈ outbox, ∃ recipient, e.recipient = some recipient) :
    ∃ (outbox1 : List Email) (disk1 : Disk) (g1 : Gen) (trace : List Event)
        (stored : List Email),
      sendRound E F now dht outbox disk g = .ok (outbox1, disk1, g1, trace)
        ∧ stored.length = outbox.length
        ∧ outbox1 = stored.filter (fun e => e.skip_)
        ∧ (∀ i e0, outbox[i]? = some e0 →
            ∃ e3 : Email, stored[i]? = some e3
              ∧ e3.filename = e0.filename ∧ e3.recipient = e0.recipient
              ∧ (e3.skip_ = true → e3 ∈ outbox1 ∧ ∀ f, Event.move i f ∉ trace)
              ∧ (e3.skip_ = false →
                  dht.storeE i ≠ [] ∧ dht.storeI i ≠ []
                    ∧ (∃ key pkt, Event.storeEmail i key pkt ∈ trace)
                    ∧ (∃ hash p, Event.storeIndex i hash p ∈ trace)
                    ∧ Event.move i e3.filename ∈ trace)
              ∧ (e0.skip_ = true → e3 = e0)
              ∧ (e0.skip_ = false → ∃ e2, encrypt E e0 = .ok e2
                  ∧ (e2.skip_ = true → e3 = e2)
                  ∧ (e2.skip_ = false →
                      Event.storeEmail i e2.encrypted.key
                          (storeRequest e2.encrypted.toByte) ∈ trace
                        ∧ (dht.storeE i = [] →
                            e3 = { e2 with skip_ := true }
                              ∧ ∀ hash p, Event.storeIndex i hash p ∉ trace)
                        ∧ (dht.storeE i ≠ [] →
                            (∃ recipient, e2.recipient = some recipient
                              ∧ Event.storeIndex i recipient.identHash
                                  (storeRequest (new_index_packet recipient e2 now).toByte)
                                ∈ trace)
                              ∧ (dht.storeI i = [] → e3 = { e2 with skip_ := true })
                              ∧ (dht.storeI i ≠ [] → e3 = e2)))))
        ∧ (∀ i f, Event.move i f ∈ trace →
            ∃ e3 : Email, stored[i]? = some e3 ∧ e3.skip_ = false ∧ f = e3.filename
              ∧ i < outbox.length ∧ dht.storeE i ≠ [] ∧ dht.storeI i ≠ []
              ∧ (∃ key pkt, Event.storeEmail i key pkt ∈ trace)
              ∧ ∃ hash p, Event.storeIndex i hash p ∈ trace)
        ∧ (∀ i key pkt, Event.storeEmail i key pkt ∈ trace → dht.storeE i = [] →
            (∀ hash p, Event.storeIndex i hash p ∉ trace)
              ∧ (∀ f, Event.move i f ∉ trace)
              ∧ ∃ e0 e2, outbox[i]? = some e0 ∧ encrypt E e0 = .ok e2
                  ∧ ({ e2 with skip_ := true } : Email) ∈ outbox1) := by
  obtain ⟨ob1, ev1, ob2, ev2, h1, h2, hround⟩ :=
    sendRound_parts E F now dht outbox disk g hrec
  have hkept := finishLoop_kept E F ob2 0 disk g
  have hlen1 := eachEmail_length _ outbox 0 ob1 ev1 h1
  have hlen2 := eachEmail_length _ ob1 0 ob2 ev2 h2
  obtain ⟨kE, _, kM, _, _⟩ := sendRound_kinds E F now dht outbox ob1 ob2 ev1 ev2 disk g h1 h2
  have hpos := sendRound_position E F now dht outbox ob1 ob2 ev1 ev2 disk g hrec h1 h2
  refine ⟨_, _, _, _, ob2, hround, hlen2.trans hlen1, hkept, ?_, ?_, ?_⟩
  · intro i e0 hi0
    obtain ⟨e3, hg, hf, hr, p1, p2, p3, p4⟩ := hpos i e0 hi0
    refine ⟨e3, hg, hf, hr, ?_, p2, p3, p4⟩
    intro hsk
    rw [hkept]
    exact p1 hsk
  · intro i f hmv
    obtain ⟨e3, hj, hsk, hfe⟩ := kM i f hmv
    have hlt : i < outbox.length := by
      rw [← hlen1, ← hlen2]
      exact (get_some_lt ob2 i e3 hj).1
    obtain ⟨e0, hi0⟩ := lt_get_some outbox i hlt
    obtain ⟨e3', hg, _, _, _, p2, _, _⟩ := hpos i e0 hi0
    rw [hj] at hg
    cases hg
    obtain ⟨q1, q2, q3, q4, _⟩ := p2 hsk
    exact ⟨e3, hj, hsk, hfe, hlt, q1, q2, q3, q4⟩
  · intro i key pkt hx hnodes
    obtain ⟨e0, e1, ev, hi0, hs1, _, hm⟩ := kE i key pkt hx
    obtain ⟨e3, hg, _, _, p1, _, _, p4⟩ := hpos i e0 hi0
    obtain ⟨e2, _, hen, hsk2, _⟩ :=
      (storeEmailStep_spec E (dht.storeE i) i e0 e1 ev hs1).2.2.2.2 ⟨key, pkt, hm⟩ hnodes
    have hsk0 : e0.skip_ = false := by
      cases hsk : e0.skip_ with
      | false => rfl
      | true =>
        rw [(storeEmailStep_cases E (dht.storeE i) i e0).1 hsk] at hs1
        cases hs1
        simp at hm
    obtain ⟨e2', hen', _, q⟩ := p4 hsk0
    rw [hen] at hen'
    cases hen'
    obtain ⟨he3, hno⟩ := (q hsk2).2.1 hnodes
    have hsk3 : e3.skip_ = true := by rw [he3]
    obtain ⟨hin, hnm⟩ := p1 hsk3
    refine ⟨hno, hnm, e0, e2, hi0, hen, ?_⟩
    rw [hkept, ← he3]
    exact hin

/-- C13, on an out-box of one email and a DHT no node of which answers: the
store of the encrypted packet is the one call of the round, and the email
stays, encrypted and marked skip. -/
theorem send_round_store_failure_witness :
    (∃ (outbox1 : List Email) (disk1 : Disk) (g1 : Gen) (trace : List Event)
          (stored : List Email),
        sendRound plainEnv plainFs 7 dhtDown [toyOutgoing] [] []
            = .ok (outbox1, disk1, g1, trace)
          ∧ stored.length = 1 ∧ outbox1 = stored.filter (fun e => e.skip_))
      ∧ (traceOf (sendRound plainEnv plainFs 7 dhtDown [toyOutgoing] [] [])).map
          Event.summary = [(Event.Kind.storeEmail, some 0)]
      ∧ ((outboxOf (sendRound plainEnv plainFs 7 dhtDown [toyOutgoing] [] [])).map
          fun e => (e.skip_, e.encrypted_)) = [(true, true)] :=
  have h := send_round_store_failure plainEnv plainFs 7 dhtDown [toyOutgoing] [] []
    (by
      intro e he
      rw [List.mem_singleton.mp he]
      exact ⟨toyRecipient, rfl⟩)
  let ⟨outbox1, disk1, g1, trace, stored, hrun, hlen, hfilter, _⟩ := h
  ⟨⟨outbox1, disk1, g1, trace, stored, hrun, hlen, hfilter⟩, rfl, rfl⟩


/-- C14, as the code has it: in a round the index store of an email is issued
when the store of its encrypted packet was answered by a node.  When that
index store is answered by no node, the email stays in the out-box, encrypted
and skipped.  In the
next round, whatever the DHT does and whatever new emails are loaded, the
email is not encrypted anew and the store of its encrypted packet is issued
again, for the same key with the same packet.  Every store of an encrypted
packet of that round comes before every index store; the index store of the
email is retried, after its encrypted-packet store, when that one is answered
by a node, and is not issued when it is answered by none. -/
theorem send_round_republishes (E : Env) (F : Fs) (now : Nat) (dht : Dht)
    (outbox : List Email) (disk : Disk) (g : Gen)
    (hrec : ∀ e ∈ outbox, ∃ recipient, e.recipient = some recipient) :
    ∃ outbox1 disk1 g1 trace,
      sendRound E F now dht outbox disk g = .ok (outbox1, disk1, g1, trace)
        ∧ (∀ i e0 e2, outbox[i]? = some e0 → e0.skip_ = false → encrypt E e0 = .ok e2 →
            e2.skip_ = false → dht.storeE i ≠ [] →
            ∃ recipient, e2.recipient = some recipient
              ∧ Event.storeIndex i recipient.identHash
                  (storeRequest (new_index_packet recipient e2 now).toByte) ∈ trace)
        ∧ ∀ i hash p, Event.storeIndex i hash p ∈ trace → dht.storeI i = [] →
            dht.storeE i ≠ []
              ∧ ∃ (e0 e2 : Email) (recipient : BoteIdentityPublic) (j : Nat),
                  outbox[i]? = some e0 ∧ encrypt E e0 = .ok e2
                  ∧ e2.encrypted_ = true ∧ e2.recipient = some recipient
                  ∧ Event.storeEmail i e2.encrypted.key (storeRequest e2.encrypted.toByte)
                      ∈ trace
                  ∧ outbox1[j]? = some { e2 with skip_ := true }
                  ∧ ∀ (now2 : Nat) (dht2 : Dht) (loaded : List Email) (disk2 : Disk)
                      (g2 : Gen),
                      (∀ e ∈ loaded, ∃ recipient, e.recipient = some recipient) →
                      encrypt E { e2 with skip_ := false } = .ok { e2 with skip_ := false }
                        ∧ ∃ (outbox2 : List Email) (disk3 : Disk) (g3 : Gen)
                            (first rest : List Event),
                          sendEmailTask E F now2 dht2 true loaded outbox1 disk2 g2
                              = .ok (outbox2, disk3, g3, first ++ rest)
                            ∧ Event.storeEmail j e2.encrypted.key
                                (storeRequest e2.encrypted.toByte) ∈ first
                            ∧ (∀ i2 h2 p2, Event.storeIndex i2 h2 p2 ∉ first)
                            ∧ (∀ i2 k2 p2, Event.storeEmail i2 k2 p2 ∉ rest)
                            ∧ (dht2.storeE j ≠ [] →
                                Event.storeIndex j recipient.identHash
                                  (storeRequest (new_index_packet recipient e2 now2).toByte)
                                  ∈ rest)
                            ∧ (dht2.storeE j = [] →
                                ∀ h2 p2, Event.storeIndex j h2 p2 ∉ rest) := by
  obtain ⟨ob1, ev1, ob2, ev2, h1, h2, hround⟩ :=
    sendRound_parts E F now dht outbox disk g hrec
  obtain ⟨hev3, _⟩ := finishLoop_events E F ob2 0 disk g
  have hlen1 := eachEmail_length _ outbox 0 ob1 ev1 h1
  have hrec1 := sendRound_recipients E F now dht outbox disk g hrec _ _ _ _ hround
  refine ⟨_, _, _, _, hround, ?_, ?_⟩
  · intro i e0 e2 hi0 hsk0 hen hsk2 hn
    obtain ⟨_, _, _, _, _, _, _, p4⟩ :=
      sendRound_position E F now dht outbox ob1 ob2 ev1 ev2 disk g hrec h1 h2 i e0 hi0
    obtain ⟨e2', hen', _, q⟩ := p4 hsk0
    rw [hen] at hen'
    cases hen'
    exact ((q hsk2).2.2 hn).1
  intro i hash p hx hdown
  -- the index store was issued by the second loop at position `i`
  have hx2 : Event.storeIndex i hash p ∈ ev2 := by
    rcases List.mem_append.mp hx with h12 | h3
    · rcases List.mem_append.mp h12 with h | h
      · obtain ⟨j, e, e1, ev, _, hs, _, hm⟩ := eachEmail_events _ outbox 0 ob1 ev1 h1 _ h
        rcases (storeEmailStep_spec E _ _ e e1 ev hs).2.2.1 _ hm with
          ⟨_, _, h0⟩ | ⟨_, h0⟩ <;> cases h0
      · exact h
    · obtain ⟨j, e, _, _, h0⟩ := hev3 _ h3
      cases h0
  obtain ⟨j, e1, e3, ev, hj, hs2, hg2, hm⟩ := eachEmail_events _ ob1 0 ob2 ev2 h2 _ hx2
  simp only [Nat.zero_add] at hs2
  obtain ⟨hij, hsk1, _, recipient, hr1, _, _⟩ :=
    storeIndexStep_event now (dht.storeI j) j e1 e3 ev hs2 i hash p hm
  subst hij
  have he3 := (storeIndexStep_down now (dht.storeI i) i e1 e3 ev hs2).2 hsk1 hdown
  -- the email at that position in the first loop
  have hlt : i < outbox.length := by
    rw [← hlen1]
    exact (get_some_lt ob1 i e1 hj).1
  obtain ⟨e0, hi0⟩ := lt_get_some outbox i hlt
  obtain ⟨e1', ev', hs1, hg1, hm1⟩ := eachEmail_get _ outbox 0 ob1 ev1 h1 i e0 hi0
  simp only [Nat.zero_add] at hs1
  rw [hj] at hg1
  cases hg1
  obtain ⟨hn1, e2, hsk0, hen, he12, hst⟩ :=
    (storeEmailStep_spec E (dht.storeE i) i e0 e1 ev' hs1).2.2.2.1 hsk1
  subst he12
  have hdone := encrypt_done E e0 e1 hen hsk0 hsk1
  -- it stays in the out-box
  have hmem : ({ e1 with skip_ := true } : Email) ∈ (finishLoop E F 0 ob2 disk g).1 := by
    rw [finishLoop_kept, ← he3]
    refine List.mem_filter.mpr ⟨(get_some_lt ob2 i e3 hg2).2, ?_⟩
    rw [he3]
  obtain ⟨k, hk⟩ := mem_get_some _ _ hmem
  refine ⟨hn1, e0, e1, recipient, k, hi0, hen, hdone, hr1,
    List.mem_append_left _ (List.mem_append_left _ (hm1 _ hst)), hk, ?_⟩
  intro now2 dht2 loaded disk2 g2 hloaded
  have hagain := encrypt_again E { e1 with skip_ := false } rfl hdone
  refine ⟨hagain, ?_⟩
  -- the next round
  have hk2 : (checkOutbox true loaded (finishLoop E F 0 ob2 disk g).1)[k]?
      = some { ({ e1 with skip_ := true } : Email) with skip_ := false } := by
    unfold checkOutbox
    simp only [Bool.not_true, Bool.false_eq_true, if_false]
    exact get_map_append (fun mail : Email => { mail with skip_ := false }) loaded _ k
      { e1 with skip_ := true } hk
  have hne : (checkOutbox true loaded (finishLoop E F 0 ob2 disk g).1).isEmpty = false := by
    cases hc : checkOutbox true loaded (finishLoop E F 0 ob2 disk g).1 with
    | nil =>
      rw [hc] at hk2
      simp at hk2
    | cons _ _ => rfl
  have hrec2 : ∀ e ∈ checkOutbox true loaded (finishLoop E F 0 ob2 disk g).1,
      ∃ recipient, e.recipient = some recipient := by
    intro e he
    unfold checkOutbox at he
    simp only [Bool.not_true, Bool.false_eq_true, if_false] at he
    rcases List.mem_append.mp he with h0 | h0
    · obtain ⟨e', he', hee⟩ := List.mem_map.mp h0
      obtain ⟨r, hr⟩ := hrec1 e' he'
      exact ⟨r, by rw [← hee]; exact hr⟩
    · exact hloaded e h0
  obtain ⟨ob1', ev1', ob2', ev2', h1', h2', hround'⟩ :=
    sendRound_parts E F now2 dht2 (checkOutbox true loaded (finishLoop E F 0 ob2 disk g).1)
      disk2 g2 hrec2
  obtain ⟨_, _, _, kNoIndex, kNoStore⟩ := sendRound_kinds E F now2 dht2
    (checkOutbox true loaded (finishLoop E F 0 ob2 disk g).1) ob1' ob2' ev1' ev2' disk2 g2
    h1' h2'
  obtain ⟨e3', _, _, _, _, _, _, p4⟩ := sendRound_position E F now2 dht2
    (checkOutbox true loaded (finishLoop E F 0 ob2 disk g).1) ob1' ob2' ev1' ev2' disk2 g2
    hrec2 h1' h2' k _ hk2
  obtain ⟨e2', hen2, _, q⟩ := p4 rfl
  have hsame : ({ ({ e1 with skip_ := true } : Email) with skip_ := false } : Email)
      = { e1 with skip_ := false } := rfl
  rw [hsame, hagain] at hen2
  cases hen2
  obtain ⟨qstore, qdown, qup⟩ := q rfl
  have hrun2 : sendEmailTask E F now2 dht2 true loaded (finishLoop E F 0 ob2 disk g).1
      disk2 g2 = sendRound E F now2 dht2
        (checkOutbox true loaded (finishLoop E F 0 ob2 disk g).1) disk2 g2 := by
    unfold sendEmailTask
    simp only [hne, Bool.false_eq_true, if_false]
  rw [hrun2, hround']
  have hassoc : ev1' ++ ev2' ++ (finishLoop E F 0 ob2' disk2 g2).2.2.2
      = ev1' ++ (ev2' ++ (finishLoop E F 0 ob2' disk2 g2).2.2.2) := List.append_assoc _ _ _
  refine ⟨_, _, _, ev1', ev2' ++ (finishLoop E F 0 ob2' disk2 g2).2.2.2,
    by rw [hassoc], ?_, kNoIndex, kNoStore, ?_, ?_⟩
  · rw [hassoc] at qstore
    rcases List.mem_append.mp qstore with h | h
    · exact h
    · exact absurd h (kNoStore _ _ _)
  · intro hn
    obtain ⟨⟨r2, hr2, hidx⟩, _, _⟩ := qup hn
    have hrr : r2 = recipient := by
      have hr2' : e1.recipient = some r2 := hr2
      rw [hr1] at hr2'
      cases hr2'
      rfl
    subst hrr
    rw [hassoc] at hidx
    rcases List.mem_append.mp hidx with h | h
    · exact absurd h (kNoIndex _ _ _)
    · exact h
  · intro hn h2' p2 hx'
    exact (qdown hn).2 h2' p2 (by rw [hassoc]; exact List.mem_append_right _ hx')

/-- C14, on an out-box of one email: the first round stores the encrypted
packet and gets no answer for the index packet. -/
theorem send_round_republishes_witness :
    (∃ outbox1 disk1 g1 trace,
        sendRound plainEnv plainFs 7 dhtIndexDown [toyOutgoing] [] []
          = .ok (outbox1, disk1, g1, trace))
      ∧ (traceOf toyRound1).map Event.summary
          = [(Event.Kind.storeEmail, some 0), (Event.Kind.safe, none),
             (Event.Kind.storeIndex, some 0)] :=
  have h := send_round_republishes plainEnv plainFs 7 dhtIndexDown [toyOutgoing] [] []
    (by
      intro e he
      rw [List.mem_singleton.mp he]
      exact ⟨toyRecipient, rfl⟩)
  let ⟨outbox1, disk1, g1, trace, hrun, _, _⟩ := h
  ⟨⟨outbox1, disk1, g1, trace, hrun⟩, rfl⟩


/-! ### Index packets over the passes of the send loop -/

/-- An email `encrypt` marks skip while it is not yet encrypted stays
unencrypted. -/
theorem encrypt_flag (E : Env) (e e1 : Email) (h : encrypt E e = .ok e1)
    (hsk : e.skip_ = false) (hen : e.encrypted_ = false) (hsk1 : e1.skip_ = true) :
    e1.encrypted_ = false := by
  cases hs : e.sender with
  | none =>
    simp only [encrypt, hsk, hen, setField, hs, Bool.false_eq_true, if_false] at h
    cases h
    rfl
  | some sender =>
    cases hr : e.recipient with
    | none =>
      simp only [encrypt, hsk, hen, setField, hs, hr, Bool.false_eq_true, if_false] at h
      cases h
    | some recipient =>
      cases hc : (sender.Encrypt e.packet.toByte recipient.cryptoPublicKey).isEmpty with
      | true =>
        simp only [encrypt, hsk, hen, setField, hs, hr, hc, Bool.false_eq_true,
          if_false, if_true] at h
        cases h
        rfl
      | false =>
        simp only [encrypt, hsk, hen, setField, hs, hr, hc, Bool.false_eq_true,
          if_false] at h
        cases h
        cases hsk1

/-- Member function `encrypt` leaves the envelope in agreement with the
flag. -/
theorem encrypt_sealed (E : Env) (e e1 : Email) (hs : Sealed E e)
    (h : encrypt E e = .ok e1) : Sealed E e1 := by
  have hk := encrypt_keeps E e e1 h
  refine ⟨by rw [hk.1]; exact hs.1, ?_⟩
  intro hflag
  cases hsk : e.skip_ with
  | true =>
    have he : e1 = e := by
      simp only [encrypt, hsk, if_true] at h
      cases h
      rfl
    rw [he] at hflag ⊢
    exact hs.2 hflag
  | false =>
    cases hen : e.encrypted_ with
    | true =>
      have he : e1 = e := by
        rw [encrypt_again E e hsk hen] at h
        cases h
        rfl
      rw [he] at hflag ⊢
      exact hs.2 hflag
    | false =>
      cases hsk1 : e1.skip_ with
      | false => exact (encrypt_hashes E e e1 h hsk hen hsk1).2
      | true =>
        rw [encrypt_flag E e e1 h hsk hen hsk1] at hflag
        cases hflag

/-- The body of the first loop leaves the envelope in agreement with the
flag. -/
theorem storeEmailStep_sealed (E : Env) (nodes : List Bytes) (i : Nat) (e e1 : Email)
    (ev : List Event) (hs : Sealed E e) (h : storeEmailStep E nodes i e = .ok (e1, ev)) :
    Sealed E e1 := by
  obtain ⟨c0, c⟩ := storeEmailStep_cases E nodes i e
  cases hsk : e.skip_ with
  | true =>
    rw [c0 hsk] at h
    cases h
    exact hs
  | false =>
    obtain ⟨recipient, hr⟩ := hs.1
    obtain ⟨e2, hen⟩ := encrypt_total E e recipient hr
    have hs2 := encrypt_sealed E e e2 hs hen
    obtain ⟨c1, c2, c3⟩ := c hsk e2 hen
    cases hsk2 : e2.skip_ with
    | true =>
      rw [c1 hsk2] at h
      cases h
      exact hs2
    | false =>
      by_cases hn : nodes = []
      · rw [c2 hsk2 hn] at h
        cases h
        exact hs2
      · rw [c3 hsk2 hn] at h
        cases h
        exact hs2

/-- The body of the second loop leaves the envelope in agreement with the
flag. -/
theorem storeIndexStep_sealed (E : Env) (now : Nat) (nodes : List Bytes) (i : Nat)
    (e e1 : Email) (ev : List Event) (hs : Sealed E e)
    (h : storeIndexStep now nodes i e = .ok (e1, ev)) : Sealed E e1 := by
  obtain ⟨c0, c⟩ := storeIndexStep_cases now nodes i e
  cases hsk : e.skip_ with
  | true =>
    rw [c0 hsk] at h
    cases h
    exact hs
  | false =>
    obtain ⟨recipient, hr⟩ := hs.1
    obtain ⟨c1, c2⟩ := c hsk recipient hr
    by_cases hn : nodes = []
    · rw [c1 hn] at h
      cases h
      exact hs
    · rw [c2 hn] at h
      cases h
      exact hs

/-- One pass of the loop of `sendEmailTask` on an out-box and on loaded emails
whose envelopes agree with their flags: the pass runs to its end, the out-box
it leaves is of the same kind, and every index store it issues carries the
index packet of an email whose encrypted packet it has stored in the same
pass, with the hash of `DA` as `dv`. -/
theorem sendEmailTask_index (E : Env) (F : Fs) (now : Nat) (dht : Dht) (readDir : Bool)
    (loaded outbox : List Email) (disk : Disk) (g : Gen)
    (hbox : ∀ e ∈ outbox, Sealed E e) (hloaded : ∀ e ∈ loaded, Sealed E e) :
    ∃ outbox1 disk1 g1 trace,
      sendEmailTask E F now dht readDir loaded outbox disk g
          = .ok (outbox1, disk1, g1, trace)
        ∧ (∀ e ∈ outbox1, Sealed E e)
        ∧ ∀ i hash pkt, Event.storeIndex i hash pkt ∈ trace →
            ∃ (e0 e1 : Email) (recipient : BoteIdentityPublic),
              (checkOutbox readDir loaded outbox)[i]? = some e0
                ∧ encrypt E e0 = .ok e1
                ∧ e1.recipient = some recipient
                ∧ e1.encrypted_ = true
                ∧ Event.storeEmail i e1.encrypted.key (storeRequest e1.encrypted.toByte)
                    ∈ trace
                ∧ hash = recipient.identHash
                ∧ pkt = storeRequest (new_index_packet recipient e1 now).toByte
                ∧ (new_index_packet recipient e1 now).hash = recipient.identHash
                ∧ (new_index_packet recipient e1 now).nump = 1
                ∧ (new_index_packet recipient e1 now).data
                    = [{ key := e1.encrypted.key, dv := E.SHA256 e1.packet.DA.val,
                         time := now % 4294967296 }]
                ∧ e1.encrypted.delete_hash = E.SHA256 e1.packet.DA.val
                ∧ e1.encrypted.key
                    = E.SHA256 (be16 e1.encrypted.length ++ e1.encrypted.edata) := by
  have hob : ∀ e ∈ checkOutbox readDir loaded outbox, Sealed E e := by
    intro e he
    unfold checkOutbox at he
    split at he
    · exact hbox e he
    · rcases List.mem_append.mp he with h0 | h0
      · obtain ⟨e', he', hee⟩ := List.mem_map.mp h0
        rw [← hee]
        exact hbox e' he'
      · exact hloaded e h0
  unfold sendEmailTask
  dsimp only
  by_cases hemp : (checkOutbox readDir loaded outbox).isEmpty = true
  · rw [if_pos hemp]
    refine ⟨_, _, _, _, rfl, hob, ?_⟩
    intro i hash pkt hx
    cases hx
  · rw [if_neg hemp]
    have hrec : ∀ e ∈ checkOutbox readDir loaded outbox,
        ∃ recipient, e.recipient = some recipient := fun e he => (hob e he).1
    obtain ⟨ob1, ev1, ob2, ev2, h1, h2, hround⟩ :=
      sendRound_parts E F now dht (checkOutbox readDir loaded outbox) disk g hrec
    have hob1 : ∀ e ∈ ob1, Sealed E e :=
      eachEmail_forall (fun i email => storeEmailStep E (dht.storeE i) i email)
        (fun e1 => Sealed E e1) (checkOutbox readDir loaded outbox) 0 ob1 ev1
        (fun j e he e1 ev hs => storeEmailStep_sealed E (dht.storeE j) j e e1 ev (hob e he) hs)
        h1
    have hob2 : ∀ e ∈ ob2, Sealed E e :=
      eachEmail_forall (fun i email => storeIndexStep now (dht.storeI i) i email)
        (fun e1 => Sealed E e1) ob1 0 ob2 ev2
        (fun j e he e1 ev hs => storeIndexStep_sealed E now (dht.storeI j) j e e1 ev
          (hob1 e he) hs)
        h2
    have hlen1 := eachEmail_length _ (checkOutbox readDir loaded outbox) 0 ob1 ev1 h1
    obtain ⟨_, kI, _, _, _⟩ := sendRound_kinds E F now dht
      (checkOutbox readDir loaded outbox) ob1 ob2 ev1 ev2 disk g h1 h2
    refine ⟨_, _, _, _, hround, ?_, ?_⟩
    · intro e he
      rw [finishLoop_kept] at he
      exact hob2 e (List.mem_filter.mp he).1
    · intro i hash pkt hx
      obtain ⟨e1, e3, ev, hj, hs2, _, hm⟩ := kI i hash pkt hx
      obtain ⟨_, hsk1, _, recipient, hr, hhash, hpkt⟩ :=
        storeIndexStep_event now (dht.storeI i) i e1 e3 ev hs2 i hash pkt hm
      have hlt : i < (checkOutbox readDir loaded outbox).length := by
        rw [← hlen1]
        exact (get_some_lt ob1 i e1 hj).1
      obtain ⟨e0, hi0⟩ := lt_get_some (checkOutbox readDir loaded outbox) i hlt
      obtain ⟨e1', ev', hs1, hg1, hm1⟩ :=
        eachEmail_get _ (checkOutbox readDir loaded outbox) 0 ob1 ev1 h1 i e0 hi0
      simp only [Nat.zero_add] at hs1
      rw [hj] at hg1
      cases hg1
      obtain ⟨_, e2, hsk0, hen, he12, hst⟩ :=
        (storeEmailStep_spec E (dht.storeE i) i e0 e1 ev' hs1).2.2.2.1 hsk1
      subst he12
      have hdone := encrypt_done E e0 e1 hen hsk0 hsk1
      obtain ⟨hdel, hkey⟩ := (hob1 e1 (get_some_lt ob1 i e1 hj).2).2 hdone
      refine ⟨e0, e1, recipient, hi0, hen, hr, hdone,
        List.mem_append_left _ (List.mem_append_left _ (hm1 _ hst)), hhash, hpkt, rfl, rfl,
        ?_, hdel, hkey⟩
      show [({ key := e1.encrypted.key, dv := e1.encrypted.delete_hash,
               time := now % 4294967296 } : IndexPacket.Entry)] = _
      rw [hdel]

/-- Successive passes of the loop of `sendEmailTask` from an out-box whose
envelopes agree with their flags, with loaded emails of the same kind. -/
theorem sendPasses_index (E : Env) (F : Fs) (passes : List Pass) :
    ∀ (outbox : List Email) (disk : Disk) (g : Gen),
      (∀ e ∈ outbox, Sealed E e) →
      (∀ pass ∈ passes, ∀ e ∈ pass.loaded, Sealed E e) →
      ∃ outbox1 disk1 g1 rounds,
        sendPasses E F passes outbox disk g = .ok (outbox1, disk1, g1, rounds)
          ∧ rounds.length = passes.length
          ∧ ∀ (n : Nat) (pass : Pass) (box : List Email) (trace : List Event),
              passes[n]? = some pass → rounds[n]? = some (box, trace) →
              ∀ i hash pkt, Event.storeIndex i hash pkt ∈ trace →
                ∃ (e0 e1 : Email) (recipient : BoteIdentityPublic),
                  box[i]? = some e0
                    ∧ encrypt E e0 = .ok e1
                    ∧ e1.recipient = some recipient
                    ∧ e1.encrypted_ = true
                    ∧ Event.storeEmail i e1.encrypted.key
                        (storeRequest e1.encrypted.toByte) ∈ trace
                    ∧ hash = recipient.identHash
                    ∧ pkt = storeRequest (new_index_packet recipient e1 pass.now).toByte
                    ∧ (new_index_packet recipient e1 pass.now).hash = recipient.identHash
                    ∧ (new_index_packet recipient e1 pass.now).nump = 1
                    ∧ (new_index_packet recipient e1 pass.now).data
                        = [{ key := e1.encrypted.key, dv := E.SHA256 e1.packet.DA.val,
                             time := pass.now % 4294967296 }]
                    ∧ e1.encrypted.delete_hash = E.SHA256 e1.packet.DA.val
                    ∧ e1.encrypted.key
                        = E.SHA256 (be16 e1.encrypted.length ++ e1.encrypted.edata) := by
  induction passes with
  | nil =>
    intro outbox disk g _ _
    refine ⟨_, _, _, _, rfl, rfl, ?_⟩
    intro n pass box trace hn
    simp at hn
  | cons p rest ih =>
    intro outbox disk g hbox hloaded
    obtain ⟨ob1, d1, g1, trace, hrun, hbox1, hfacts⟩ :=
      sendEmailTask_index E F p.now p.dht p.readDir p.loaded outbox disk g hbox
        (hloaded p (List.mem_cons_self _ _))
    obtain ⟨ob2, d2, g2, rounds, hrest, hlen, hall⟩ :=
      ih ob1 d1 g1 hbox1 (fun q hq => hloaded q (List.mem_cons_of_mem _ hq))
    refine ⟨ob2, d2, g2, (checkOutbox p.readDir p.loaded outbox, trace) :: rounds, ?_,
      by simp [hlen], ?_⟩
    · unfold sendPasses
      rw [hrun]
      dsimp only
      rw [hrest]
    · intro n pass box tr hn ht
      cases n with
      | zero =>
        have hp : p = pass := by simpa using hn
        have htr : (checkOutbox p.readDir p.loaded outbox, trace) = (box, tr) := by
          simpa using ht
        subst hp
        cases htr
        exact hfacts
      | succ m =>
        have hn' : rest[m]? = some pass := by simpa using hn
        have ht' : rounds[m]? = some (box, tr) := by simpa using ht
        exact hall m pass box tr hn' ht'

/-- C12, as the code has it: the loop of `sendEmailTask` starts on an empty
out-box and loads emails that have a recipient and have not been through
`encrypt`.  Whatever it meets pass after pass, it runs every pass to its end,
and every index store of every pass is issued for a position of the out-box
whose email `encrypt` returns encrypted, in that pass or in an earlier one;
the encrypted packet of that email is stored in the same pass; the index
store is addressed to the identity hash of its recipient and carries the
index packet with that hash and exactly one entry, whose key is the DHT key
of the encrypted packet and whose `dv` is its `delete_hash`, which is
`SHA256 (DA)` of the email. -/
theorem index_packet_built (E : Env) (F : Fs) (passes : List Pass) (disk : Disk) (g : Gen)
    (hloaded : ∀ pass ∈ passes, ∀ e ∈ pass.loaded,
      (∃ recipient, e.recipient = some recipient) ∧ e.encrypted_ = false) :
    ∃ outbox1 disk1 g1 rounds,
      sendPasses E F passes [] disk g = .ok (outbox1, disk1, g1, rounds)
        ∧ rounds.length = passes.length
        ∧ ∀ (n : Nat) (pass : Pass) (box : List Email) (trace : List Event),
            passes[n]? = some pass → rounds[n]? = some (box, trace) →
            ∀ i hash pkt, Event.storeIndex i hash pkt ∈ trace →
              ∃ (e0 e1 : Email) (recipient : BoteIdentityPublic),
                box[i]? = some e0
                  ∧ encrypt E e0 = .ok e1
                  ∧ e1.recipient = some recipient
                  ∧ e1.encrypted_ = true
                  ∧ Event.storeEmail i e1.encrypted.key
                      (storeRequest e1.encrypted.toByte) ∈ trace
                  ∧ hash = recipient.identHash
                  ∧ pkt = storeRequest (new_index_packet recipient e1 pass.now).toByte
                  ∧ (new_index_packet recipient e1 pass.now).hash = recipient.identHash
                  ∧ (new_index_packet recipient e1 pass.now).nump = 1
                  ∧ (new_index_packet recipient e1 pass.now).data
                      = [{ key := e1.encrypted.key, dv := E.SHA256 e1.packet.DA.val,
                           time := pass.now % 4294967296 }]
                  ∧ e1.encrypted.delete_hash = E.SHA256 e1.packet.DA.val
                  ∧ e1.encrypted.key
                      = E.SHA256 (be16 e1.encrypted.length ++ e1.encrypted.edata) :=
  sendPasses_index E F passes [] disk g (fun e he => (by cases he))
    (fun pass hp e he =>
      ⟨(hloaded pass hp e he).1, fun hf => (by
        rw [(hloaded pass hp e he).2] at hf
        cases hf)⟩)

/-- C12, on two passes: in the first `toyOutgoing` is loaded and encrypted and
its index store gets no answer, in the second the email, encrypted already,
is published with its index packet. -/
theorem index_packet_built_witness :
    (∃ outbox1 disk1 g1 rounds,
        sendPasses plainEnv plainFs toyPasses [] [] [] = .ok (outbox1, disk1, g1, rounds)
          ∧ rounds.length = 2)
      ∧ passSummaries (sendPasses plainEnv plainFs toyPasses [] [] [])
        = [[(Event.Kind.storeEmail, some 0), (Event.Kind.safe, none),
            (Event.Kind.storeIndex, some 0)],
           [(Event.Kind.storeEmail, some 0), (Event.Kind.safe, none),
            (Event.Kind.storeIndex, some 0), (Event.Kind.safe, none),
            (Event.Kind.move, some 0)]] :=
  have h := index_packet_built plainEnv plainFs
    [{ now := 7, dht := dhtIndexDown, readDir := true, loaded := [toyOutgoing] },
     { now := 8, dht := dhtUp, readDir := true, loaded := [] }] [] []
    (by
      intro pass hp e he
      rcases List.mem_cons.mp hp with h0 | h0
      · rw [h0] at he
        rw [List.mem_singleton.mp he]
        exact ⟨⟨toyRecipient, rfl⟩, rfl⟩
      · rw [List.mem_singleton.mp h0] at he
        cases he)
  let ⟨outbox1, disk1, g1, rounds, hrun, hlen, _⟩ := h
  ⟨⟨outbox1, disk1, g1, rounds, hrun, hlen⟩, rfl⟩

end pbote
